import Mathlib

/-! Analytics API: the request-gating layer.

A shallow embedding of the gating layer of the analytics API
(`src/middleware/rateLimitMiddleware.js`, `src/middleware/cacheMiddleware.js`,
`src/services/cacheService.js`, the invalidation endpoint of `src/app.js`) and
of the code behind the metrics routes (`src/utils/validators.js`,
`src/utils/errorHandler.js`, `src/services/metricsService.js`,
`src/routes/metrics.js`), together with theorems about it.

Conventions of the embedding.

* An `async` handler that talks to the store is a function that threads the
  store state explicitly.  Every store call returns its result (`Except`, the
  error side being a rejected promise) together with the store state after the
  call, so a failed call may or may not have changed the store.
* The Express response object is the record `Res`; `next()` is counted in
  `Outcome.nextCalls`; `console.error` is recorded in `Outcome.errors`.
* The store commands a handler issues are recorded, in order, in
  `Outcome.cmds`.
* JavaScript numbers that the code uses as integers (counters, seconds, epoch
  milliseconds) are `Int` or `Nat`; values read with `parseInt` from the
  environment (`RATE_LIMIT_REQUESTS`, `RATE_LIMIT_WINDOW_SECONDS`,
  `CACHE_TTL_SECONDS`) and `Date.now()` are parameters.
* A middleware is handed the response object before anything has been sent on
  it.
-/

namespace AnalyticsApi

/-! ## JavaScript values -/

/-- The UTF-16 code units of a character: one unit for a character of the
basic plane, a surrogate pair otherwise.  A JavaScript string is its sequence
of code units. -/
def utf16 (c : Char) : List Nat :=
  if c.toNat < 0x10000 then [c.toNat]
  else [0xD800 + (c.toNat - 0x10000) / 0x400, 0xDC00 + (c.toNat - 0x10000) % 0x400]

/-- The UTF-16 code units of a string. -/
def codeUnits (s : String) : List Nat :=
  s.data.flatMap utf16

/-- JSON-shaped JavaScript values: what `res.json` sends and what
`JSON.parse` returns.  A string value is its sequence of UTF-16 code units
(`codeUnits text` for the text `text`), so that a string cut between the two
halves of a surrogate pair is a value too. -/
inductive JsonValue where
  | null
  | bool (b : Bool)
  | num (n : Int)
  | str (units : List Nat)
  | arr (items : List JsonValue)
  | obj (fields : List (String × JsonValue))

/-- The value given to `res.setHeader`: a number or a string. -/
inductive HeaderValue where
  | num (n : Int)
  | str (s : String)
  deriving DecidableEq

/-- The fields of the Express request that the gating layer reads.
`query` lists the own properties of `req.query` in insertion order; a
JavaScript object has each property name once.  `apiKey` is
`req.headers['x-api-key']`.  `connectionSocket` is `req.connection.socket`:
`none` if it is `undefined`, otherwise its property `remoteAddress`. -/
structure Request where
  method : String
  path : String
  query : List (String × String)
  apiKey : Option String
  ip : Option String
  connectionRemoteAddress : Option String
  socketRemoteAddress : Option String
  connectionSocket : Option (Option String)

/-- The Express response object, as far as the gating layer touches it:
the headers set so far, the status code, and the body handed to `res.json`
(`none` while nothing has been sent). -/
structure Res where
  headers : List (String × HeaderValue)
  statusCode : Nat
  sent : Option JsonValue

/-- A fresh response: no header, status 200, nothing sent. -/
def Res.fresh : Res := ⟨[], 200, none⟩

/-- What `res.setHeader(name, value)` does to the response object when it
accepts the value: the header is replaced if present. -/
def Res.setHeader (res : Res) (name : String) (value : HeaderValue) : Res :=
  { res with headers := (name, value) :: res.headers.filter (fun h => h.1 != name) }

/-- The characters `res.setHeader` accepts in a header value: the tab, the
printable ASCII characters and the characters from U+0080 to U+00FF. -/
def validHeaderChar (c : Char) : Bool :=
  c.toNat == 0x09 || (decide (0x20 ≤ c.toNat) && decide (c.toNat ≤ 0x7e))
    || (decide (0x80 ≤ c.toNat) && decide (c.toNat ≤ 0xff))

/-- Whether `res.setHeader` accepts the value: a number always, a string if
all its characters are acceptable. -/
def HeaderValue.valid : HeaderValue → Bool
  | .num _ => true
  | .str text => text.data.all validHeaderChar

/-- The call `res.setHeader(name, value)` with a value that need not be
acceptable: a `TypeError` (`ERR_INVALID_CHAR`) is thrown, and the response object
left as it is, if the value holds a character that is not acceptable. -/
def Res.trySetHeader (res : Res) (name : String) (value : HeaderValue) : Except String Res :=
  if value.valid then .ok (res.setHeader name value)
  else .error ("TypeError: Invalid character in header content [\"" ++ name ++ "\"]")

/-- The call `res.getHeader(name)`. -/
def Res.getHeader (res : Res) (name : String) : Option HeaderValue :=
  res.headers.lookup name

/-- The call `res.status(code)`. -/
def Res.status (res : Res) (code : Nat) : Res :=
  { res with statusCode := code }

/-- The call `res.json(body)`. -/
def Res.json (res : Res) (body : JsonValue) : Res :=
  { res with sent := some body }

/-! ## The store client -/

/-- The store commands the gating layer issues. -/
inductive RedisCmd where
  | incr (key : String)
  | expire (key : String) (seconds : Int)
  | ttl (key : String)
  | get (key : String)
  | setEx (key : String) (seconds : Int) (value : String)
  | del (keys : List String)
  | keys (pattern : String)
  deriving DecidableEq

/-- The part of the `redis` client the gating layer calls, over a store state
`σ`.  Each call returns its result, `Except.error` for a rejected promise, and
the store state after the call. -/
structure RedisClient (σ : Type) where
  incr : String → σ → Except String Int × σ
  expire : String → Int → σ → Except String Bool × σ
  ttl : String → σ → Except String Int × σ
  get : String → σ → Except String (Option String) × σ
  setEx : String → Int → String → σ → Except String Unit × σ
  del : List String → σ → Except String Nat × σ
  keys : String → σ → Except String (List String) × σ

/-- What one run of a middleware did: the store after it, the store commands
it issued, the response object, how often it called `next()`, and what it
wrote to `console.error`. -/
structure Outcome (σ : Type) where
  store : σ
  cmds : List RedisCmd
  res : Res
  nextCalls : Nat
  errors : List String

/-! ## `rateLimitMiddleware.js` -/

/-- JavaScript truthiness of a string-or-`undefined` value: `undefined` and
the empty string are falsy. -/
def truthy : Option String → Bool
  | some v => v != ""
  | none => false

/-- The operator `a || b` on string-or-`undefined` values. -/
def orElse (a b : Option String) : Option String :=
  if truthy a then a else b

/-- A string-or-`undefined` value inside a template literal. -/
def render : Option String → String
  | some v => v
  | none => "undefined"

/-- `getClientIdentifier(req)`: the API key if there is one, otherwise the
address of the peer.  When `req.ip`, `req.connection.remoteAddress` and
`req.socket.remoteAddress` are all falsy the code reads
`req.connection.socket.remoteAddress`, which throws a `TypeError` if
`req.connection.socket` is `undefined`. -/
def getClientIdentifier (req : Request) : Except String String :=
  if truthy req.apiKey then
    .ok ("key:" ++ render req.apiKey)
  else
    let known := orElse req.ip (orElse req.connectionRemoteAddress req.socketRemoteAddress)
    if truthy known then .ok ("ip:" ++ render known)
    else
      match req.connectionSocket with
      | none => .error "TypeError: Cannot read properties of undefined (reading 'remoteAddress')"
      | some remoteAddress => .ok ("ip:" ++ render remoteAddress)

/-- The key of the quota record of the client `clientId`:
`rate-limit:${clientId}`. -/
def rateLimitKey (clientId : String) : String :=
  "rate-limit:" ++ clientId

/-- `Math.max(0, maxRequests - currentCount)`. -/
def remaining (maxRequests currentCount : Int) : Int :=
  max 0 (maxRequests - currentCount)

/-- `Math.ceil(Date.now() / 1000)` for `Date.now() = nowMs`. -/
def epochSecondsCeil (nowMs : Nat) : Int :=
  ((nowMs + 999) / 1000 : Nat)

/-- The body of the 429 response. -/
def tooManyRequestsBody (ttl : Int) : JsonValue :=
  .obj [("success", .bool false),
        ("error", .obj [("message", .str (codeUnits "Too Many Requests")),
                        ("statusCode", .num 429),
                        ("retryAfter", .num ttl)])]

/-- The `catch` block of `rateLimitMiddleware`: log the error and call
`next()`. -/
def rateLimitCatch {σ : Type} (s : σ) (cmds : List RedisCmd) (res : Res) (err : String) :
    Outcome σ :=
  { store := s, cmds := cmds, res := res, nextCalls := 1,
    errors := ["Rate limit error: " ++ err] }

/-- The part of `rateLimitMiddleware` that follows
`const clientId = getClientIdentifier(req)`. -/
def rateLimitFor {σ : Type} (redisClient : RedisClient σ)
    (maxRequests windowSeconds : Int) (nowMs : Nat)
    (clientId : String) (res : Res) (s : σ) : Outcome σ :=
  let key := rateLimitKey clientId
  -- const currentCount = await redisClient.incr(rateLimitKey)
  match redisClient.incr key s with
  | (.error err, s1) => rateLimitCatch s1 [.incr key] res err
  | (.ok currentCount, s1) =>
    -- if (currentCount === 1) await redisClient.expire(rateLimitKey, windowSeconds)
    let afterExpire : Except String Unit × σ × List RedisCmd :=
      if currentCount = 1 then
        match redisClient.expire key windowSeconds s1 with
        | (.error err, s2) => (.error err, s2, [.incr key, .expire key windowSeconds])
        | (.ok _, s2) => (.ok (), s2, [.incr key, .expire key windowSeconds])
      else (.ok (), s1, [.incr key])
    match afterExpire with
    | (.error err, s2, cmds) => rateLimitCatch s2 cmds res err
    | (.ok (), s2, cmds) =>
      -- const ttl = await redisClient.ttl(rateLimitKey)
      match redisClient.ttl key s2 with
      | (.error err, s3) => rateLimitCatch s3 (cmds ++ [.ttl key]) res err
      | (.ok ttl, s3) =>
        -- a number is always an acceptable header value
        let res1 := res.setHeader "X-RateLimit-Limit" (.num maxRequests)
        let res2 := res1.setHeader "X-RateLimit-Remaining" (.num (remaining maxRequests currentCount))
        let res3 := res2.setHeader "X-RateLimit-Reset" (.num (epochSecondsCeil nowMs + ttl))
        if currentCount > maxRequests then
          let res4 := res3.setHeader "Retry-After" (.num ttl)
          { store := s3, cmds := cmds ++ [.ttl key],
            res := (res4.status 429).json (tooManyRequestsBody ttl),
            nextCalls := 0, errors := [] }
        else
          { store := s3, cmds := cmds ++ [.ttl key], res := res3, nextCalls := 1, errors := [] }

/-- The handler returned by `rateLimitMiddleware(redisClient)`, run on a
request, a response object and a store state.  `maxRequests` and
`windowSeconds` are the two values read from the environment, `nowMs` is
`Date.now()`.  An exception of `getClientIdentifier` is caught by the `catch`
block before any store command is issued. -/
def rateLimitMiddleware {σ : Type} (redisClient : RedisClient σ)
    (maxRequests windowSeconds : Int) (nowMs : Nat)
    (req : Request) (res : Res) (s : σ) : Outcome σ :=
  match getClientIdentifier req with
  | .error err => rateLimitCatch s [] res err
  | .ok clientId => rateLimitFor redisClient maxRequests windowSeconds nowMs clientId res s

/-- The response object once the three quota headers are set. -/
def withQuotaHeaders (res : Res) (maxRequests count ttl : Int) (nowMs : Nat) : Res :=
  ((res.setHeader "X-RateLimit-Limit" (.num maxRequests)).setHeader
    "X-RateLimit-Remaining" (.num (remaining maxRequests count))).setHeader
    "X-RateLimit-Reset" (.num (epochSecondsCeil nowMs + ttl))

/-! ## The external store

A model of the one external store (a Redis server reached through the `redis`
client), following the store contract of the specification: string keys, an
atomic increment that returns the value after the increment, an expiry per key,
a read of the remaining time to live, get, set with expiry and delete.  The
clock of the store counts milliseconds; a key whose expiry has passed is
absent.  Every command runs to completion before the next one starts.  The
client `redis` reaches the store at once; through the client `timedRedis` time
passes on the clock of the store before each command arrives.  No other client
writes to the store while a handler runs. -/

/-- The value stored under a key: a counter or an opaque string. -/
inductive RedisValue where
  | int (n : Int)
  | str (s : String)
  deriving DecidableEq

/-- A stored value together with the time (store clock, milliseconds) at
which it expires, if it has an expiry. -/
structure Entry where
  value : RedisValue
  expireAt : Option Nat
  deriving DecidableEq

/-- The store: its clock and its records, at most one per key. -/
structure Redis where
  now : Nat
  entries : List (String × Entry)
  deriving DecidableEq

/-- Whether a record is still alive at time `now`. -/
def Entry.live (e : Entry) (now : Nat) : Bool :=
  match e.expireAt with
  | none => true
  | some t => decide (now < t)

/-- The live record under a key, if there is one. -/
def Redis.find? (s : Redis) (key : String) : Option Entry :=
  match s.entries.lookup key with
  | some e => if e.live s.now then some e else none
  | none => none

/-- The store without the record under `key`. -/
def Redis.erase (s : Redis) (key : String) : Redis :=
  { s with entries := s.entries.filter (fun kv => kv.1 != key) }

/-- The store with the record under `key` replaced by `e`. -/
def Redis.put (s : Redis) (key : String) (e : Entry) : Redis :=
  { s with entries := (key, e) :: s.entries.filter (fun kv => kv.1 != key) }

/-- The store after `ms` milliseconds have passed. -/
def Redis.advance (s : Redis) (ms : Nat) : Redis :=
  { s with now := s.now + ms }

/-- The integer a stored value stands for, as `INCR` reads it. -/
def RedisValue.toInt? : RedisValue → Option Int
  | .int n => some n
  | .str v => v.toInt?

/-- The string `GET` returns for a stored value. -/
def RedisValue.toString : RedisValue → String
  | .int n => ToString.toString n
  | .str v => v

/-- `INCR key`: an absent key counts as 0 and the new record has no expiry; an
existing record keeps its expiry. -/
def Redis.incr (key : String) (s : Redis) : Except String Int × Redis :=
  match s.find? key with
  | none => (.ok 1, s.put key ⟨.int 1, none⟩)
  | some e =>
    match e.value.toInt? with
    | some n => (.ok (n + 1), s.put key ⟨.int (n + 1), e.expireAt⟩)
    | none => (.error "ERR value is not an integer or out of range", s)

/-- `EXPIRE key seconds`: `false` if the key is absent; a timeout that is not
positive deletes the key. -/
def Redis.expire (key : String) (seconds : Int) (s : Redis) : Except String Bool × Redis :=
  match s.find? key with
  | none => (.ok false, s)
  | some e =>
    if seconds ≤ 0 then (.ok true, s.erase key)
    else (.ok true, s.put key ⟨e.value, some (s.now + seconds.toNat * 1000)⟩)

/-- `TTL key`: -2 if the key is absent, -1 if it has no expiry, otherwise the
remaining time in seconds, rounded to the nearest second. -/
def Redis.ttl (key : String) (s : Redis) : Except String Int × Redis :=
  match s.find? key with
  | none => (.ok (-2), s)
  | some e =>
    match e.expireAt with
    | none => (.ok (-1), s)
    | some t => (.ok (((t - s.now + 500) / 1000 : Nat) : Int), s)

/-- `GET key`. -/
def Redis.get (key : String) (s : Redis) : Except String (Option String) × Redis :=
  match s.find? key with
  | none => (.ok none, s)
  | some e => (.ok (some e.value.toString), s)

/-- `SETEX key seconds value`: an error if the timeout is not positive. -/
def Redis.setEx (key : String) (seconds : Int) (value : String) (s : Redis) :
    Except String Unit × Redis :=
  if seconds ≤ 0 then (.error "ERR invalid expire time in 'setex' command", s)
  else (.ok (), s.put key ⟨.str value, some (s.now + seconds.toNat * 1000)⟩)

/-- `DEL key ...`: the number of keys that were removed. -/
def Redis.del (keys : List String) (s : Redis) : Except String Nat × Redis :=
  (.ok (keys.dedup.filter (fun k => (s.find? k).isSome)).length,
   keys.foldl (fun acc k => acc.erase k) s)

/-- The UTF-8 bytes of a character.  The store compares keys and patterns
byte by byte. -/
def utf8 (c : Char) : List Nat :=
  if c.toNat < 0x80 then [c.toNat]
  else if c.toNat < 0x800 then [0xC0 + c.toNat / 0x40, 0x80 + c.toNat % 0x40]
  else if c.toNat < 0x10000 then
    [0xE0 + c.toNat / 0x1000, 0x80 + c.toNat / 0x40 % 0x40, 0x80 + c.toNat % 0x40]
  else
    [0xF0 + c.toNat / 0x40000, 0x80 + c.toNat / 0x1000 % 0x40, 0x80 + c.toNat / 0x40 % 0x40,
     0x80 + c.toNat % 0x40]

/-- The UTF-8 bytes of a string. -/
def utf8Bytes (s : String) : List Nat :=
  s.data.flatMap utf8

/-- A byte read as a C `char` where that type is signed, as the matcher of
the store reads the ends of a range. -/
def signedByte (b : Nat) : Int :=
  if b < 0x80 then (b : Int) else (b : Int) - 0x100

/-- The inside of a bracket class of a glob pattern, matched against the byte
`c` of the key: `pattern` is what follows `[` (and `^`), `found` says whether an
item has matched so far.  A backslash makes the next byte an item, `x-y` is a
range (its ends in either order), `]` ends the class, and so does the end of
the pattern; `item` is the result when the first byte is an item by itself.  The result is whether an item matched, and the pattern after the
class.  (Bytes: 92 is the backslash, 93 is `]`, 45 is `-`.) -/
def classMatch (c : Nat) : List Nat → Bool → Bool × List Nat
  | [], found => (found, [])
  | a :: tail, found =>
    let item := classMatch c tail (found || a == c)
    if a = 92 then
      match tail with
      | [] => (found || a == c, [])
      | b :: rest => classMatch c rest (found || b == c)
    else if a = 93 then (found, tail)
    else
      match tail with
      | b :: e :: rest =>
        if b = 45 then
          classMatch c rest
            (found || (decide (min (signedByte a) (signedByte e) ≤ signedByte c)
              && decide (signedByte c ≤ max (signedByte a) (signedByte e))))
        else item
      | _ => item

/-- Glob matching of the bytes of a key against the bytes of a pattern, after
`stringmatchlen` of the store (case-sensitive): `*` matches any run of bytes,
`?` one byte, a bracket class one byte that is (or, after `^`, is not) among its
items, a backslash makes the byte after it literal, every other byte matches
itself.  Every step uses up at least one byte of the pattern; `fuel` bounds the
number of steps.  (Bytes: 42 is `*`, 63 is `?`, 91 is `[`, 94 is `^`, 92 is the
backslash.) -/
def stringmatchlen : Nat → List Nat → List Nat → Bool
  | 0, _, _ => false
  | fuel + 1, pattern, string =>
    match pattern, string with
    | [], [] => true
    | [], _ :: _ => false
    | _ :: _, [] => false
    | p :: ps, c :: cs =>
      if p = 42 then
        if (ps.dropWhile (fun b => b == 42)).isEmpty then true
        else (c :: cs).tails.any
          (fun t => !t.isEmpty && stringmatchlen fuel (ps.dropWhile (fun b => b == 42)) t)
      else if p = 63 then
        if cs.isEmpty then (ps.dropWhile (fun b => b == 42)).isEmpty
        else stringmatchlen fuel ps cs
      else if p = 91 then
        let negated := ps.head? == some 94
        let found := classMatch c (if negated then ps.tail else ps) false
        if found.1 != negated then
          if cs.isEmpty then (found.2.dropWhile (fun b => b == 42)).isEmpty
          else stringmatchlen fuel found.2 cs
        else false
      else if p = 92 then
        match ps with
        | [] => p == c && cs.isEmpty
        | q :: qs =>
          if q = c then
            if cs.isEmpty then (qs.dropWhile (fun b => b == 42)).isEmpty
            else stringmatchlen fuel qs cs
          else false
      else if p = c then
        if cs.isEmpty then (ps.dropWhile (fun b => b == 42)).isEmpty
        else stringmatchlen fuel ps cs
      else false

/-- Whether the key matches the pattern, as `KEYS` decides it: the pattern `*`
matches every key, every other pattern is matched byte by byte. -/
def globMatch (pattern key : String) : Bool :=
  utf8Bytes pattern == [42]
    || stringmatchlen ((utf8Bytes pattern).length + 1) (utf8Bytes pattern) (utf8Bytes key)

/-- The keys that have a live record. -/
def Redis.liveKeys (s : Redis) : List String :=
  (s.entries.map Prod.fst).dedup.filter (fun k => (s.find? k).isSome)

/-- The keys with a live record that match the pattern. -/
def Redis.matchingKeys (s : Redis) (pattern : String) : List String :=
  s.liveKeys.filter (fun k => globMatch pattern k)

/-- `KEYS pattern`: the keys with a live record that match the pattern. -/
def Redis.keys (pattern : String) (s : Redis) : Except String (List String) × Redis :=
  (.ok (s.matchingKeys pattern), s)

/-- The client of a working store. -/
def redis : RedisClient Redis :=
  { incr := Redis.incr, expire := Redis.expire, ttl := Redis.ttl,
    get := Redis.get, setEx := Redis.setEx, del := Redis.del, keys := Redis.keys }

/-- The client of a store on which the commands selected by `fails` fail and
leave the store as it was, and all other commands work. -/
def faultyRedis (fails : RedisCmd → Bool) : RedisClient Redis :=
  { incr := fun key s =>
      if fails (.incr key) then (.error "store unavailable", s) else Redis.incr key s
    expire := fun key seconds s =>
      if fails (.expire key seconds) then (.error "store unavailable", s)
      else Redis.expire key seconds s
    ttl := fun key s =>
      if fails (.ttl key) then (.error "store unavailable", s) else Redis.ttl key s
    get := fun key s =>
      if fails (.get key) then (.error "store unavailable", s) else Redis.get key s
    setEx := fun key seconds value s =>
      if fails (.setEx key seconds value) then (.error "store unavailable", s)
      else Redis.setEx key seconds value s
    del := fun keys s =>
      if fails (.del keys) then (.error "store unavailable", s) else Redis.del keys s
    keys := fun pattern s =>
      if fails (.keys pattern) then (.error "store unavailable", s) else Redis.keys pattern s }

/-- A store together with the time, in milliseconds, that passes before each
of the commands still to come reaches it: the head of `waits` before the next
command, and so on; once the list is used up, no time passes. -/
structure Timed where
  store : Redis
  waits : List Nat
  deriving DecidableEq

/-- The store when the next command reaches it. -/
def Timed.tick (t : Timed) : Timed :=
  ⟨t.store.advance (t.waits.headD 0), t.waits.tail⟩

/-- A command sent through the client: it reaches the store after the wait
that is due; if `failed`, the call is rejected and the store is left as the
command found it. -/
def Timed.run {α : Type} (failed : Bool) (command : Redis → Except String α × Redis)
    (t : Timed) : Except String α × Timed :=
  if failed then (.error "store unavailable", t.tick)
  else ((command t.tick.store).1, ⟨(command t.tick.store).2, t.tick.waits⟩)

/-- The client of a store that every command reaches after the wait that is
due, and on which the commands selected by `fails` fail and all others
work. -/
def timedRedis (fails : RedisCmd → Bool) : RedisClient Timed :=
  { incr := fun key => Timed.run (fails (.incr key)) (Redis.incr key)
    expire := fun key seconds => Timed.run (fails (.expire key seconds)) (Redis.expire key seconds)
    ttl := fun key => Timed.run (fails (.ttl key)) (Redis.ttl key)
    get := fun key => Timed.run (fails (.get key)) (Redis.get key)
    setEx := fun key seconds value =>
      Timed.run (fails (.setEx key seconds value)) (Redis.setEx key seconds value)
    del := fun keys => Timed.run (fails (.del keys)) (Redis.del keys)
    keys := fun pattern => Timed.run (fails (.keys pattern)) (Redis.keys pattern) }

/-- A request that carries the API key `k` and nothing else of interest. -/
def requestWithKey (k : String) : Request :=
  { method := "GET", path := "/daily", query := [], apiKey := some k, ip := none,
    connectionRemoteAddress := none, socketRemoteAddress := none,
    connectionSocket := none }

/-- A request without API key from the address `address`. -/
def requestFromIp (address : String) : Request :=
  { method := "GET", path := "/daily", query := [], apiKey := none, ip := some address,
    connectionRemoteAddress := some address, socketRemoteAddress := some address,
    connectionSocket := none }

/-- An empty store whose clock shows 0. -/
def Redis.empty : Redis := ⟨0, []⟩

/-! ## Sequences of requests -/

/-- The decision of the quota gate. -/
inductive Decision where
  | admitted
  | rejected
  deriving DecidableEq

/-- The decision a run of the rate-limit middleware amounts to: rejected if
it answered 429 itself and did not call `next`, admitted if it called `next`. -/
def Outcome.decision {σ : Type} (out : Outcome σ) : Decision :=
  if out.nextCalls = 0 then .rejected else .admitted

/-- Whether the request is made by the client `clientId`. -/
def madeBy (clientId : String) (req : Request) : Bool :=
  match getClientIdentifier req with
  | .ok identifier => identifier == clientId
  | .error _ => false

/-- Requests, of any clients, run one after the other through the rate-limit
middleware against a working store that every command reaches after the wait
that is due, each on a fresh response object; `Date.now()` is taken from the
clock of the store.  The result lists every request with the outcome of its
run. -/
def requestsFrom (maxRequests windowSeconds : Int) :
    Timed → List Request → List (Request × Outcome Timed)
  | _, [] => []
  | t, req :: rest =>
    (req, rateLimitMiddleware (timedRedis (fun _ => false)) maxRequests windowSeconds t.store.now
        req Res.fresh t)
      :: requestsFrom maxRequests windowSeconds
          (rateLimitMiddleware (timedRedis (fun _ => false)) maxRequests windowSeconds t.store.now
            req Res.fresh t).store rest

/-- The store after the requests of `requestsFrom` have run. -/
def storeAfterRequests (maxRequests windowSeconds : Int) : Timed → List Request → Timed
  | t, [] => t
  | t, req :: rest =>
    storeAfterRequests maxRequests windowSeconds
      (rateLimitMiddleware (timedRedis (fun _ => false)) maxRequests windowSeconds t.store.now
        req Res.fresh t).store rest

/-- The decisions on the requests of the client `clientId` among the runs, in
order. -/
def decisionsOf (clientId : String) (runs : List (Request × Outcome Timed)) : List Decision :=
  (runs.filter (fun run => madeBy clientId run.1)).map (fun run => run.2.decision)

/-! ## `cacheMiddleware.js`: the cache key -/

/-- Lexicographic comparison of code-unit sequences. -/
def lexLe : List Nat → List Nat → Bool
  | [], _ => true
  | _ :: _, [] => false
  | a :: as, b :: bs => decide (a < b) || (a == b && lexLe as bs)

/-- The order `Array.prototype.sort()` uses without a comparator: strings
compared by their UTF-16 code units. -/
def StrLe (a b : String) : Prop :=
  lexLe (codeUnits a) (codeUnits b) = true

instance StrLe.decidable : DecidableRel StrLe :=
  fun a b => inferInstanceAs (Decidable (lexLe (codeUnits a) (codeUnits b) = true))

/-- `keys.sort()` on an array of strings. -/
def sortKeys (keys : List String) : List String :=
  keys.insertionSort StrLe

/-- `parts.join(sep)`. -/
def join (sep : String) : List String → String
  | [] => ""
  | [x] => x
  | x :: y :: rest => x ++ sep ++ join sep (y :: rest)

/-- `s.replace(/c/g, r)` for a single character `c`: every occurrence is
replaced. -/
def replaceAll (s : String) (c r : Char) : String :=
  ⟨s.data.map (fun x => if x = c then r else x)⟩

/-- `Object.keys(req.query)`.  (JavaScript lists integer-like names first; the
order is irrelevant to `generateCacheKey`, which sorts the names.) -/
def queryKeys (req : Request) : List String :=
  req.query.map Prod.fst

/-- The string `key=value` of one query parameter, the value being
`req.query[key]`. -/
def queryPair (req : Request) (key : String) : String :=
  key ++ "=" ++ render (req.query.lookup key)

/-- The sorted, `&`-joined `key=value` pairs of the query. -/
def queryParams (req : Request) : String :=
  join "&" ((sortKeys (queryKeys req)).map (queryPair req))

/-- `generateCacheKey(req)`. -/
def generateCacheKey (req : Request) : String :=
  let path := replaceAll req.path '/' ':'
  "metrics:" ++ path ++ ":" ++ (if queryParams req != "" then queryParams req else "default")

/-- The request for `path` with the query parameters `query`. -/
def getRequest (path : String) (query : List (String × String)) : Request :=
  { method := "GET", path := path, query := query, apiKey := none, ip := some "127.0.0.1",
    connectionRemoteAddress := none, socketRemoteAddress := none,
    connectionSocket := none }

/-! ## `cacheService.js` -/

/-- The two built-in functions `JSON.stringify` and `JSON.parse`; `parse`
returns `none` where `JSON.parse` throws a `SyntaxError`. -/
structure JsonCodec where
  stringify : JsonValue → String
  parse : String → Option JsonValue

/-- What a call of a cache-service function did: the value it resolved to,
the store after it, the commands it issued and what it wrote to
`console.error`. -/
structure Call (σ : Type) (α : Type) where
  result : α
  store : σ
  cmds : List RedisCmd
  errors : List String

/-- `getFromCache(redisClient, key)`: the parsed stored value, or `null` when
there is none, when the store fails or when the stored text does not parse. -/
def getFromCache {σ : Type} (JSON : JsonCodec) (redisClient : RedisClient σ) (key : String)
    (s : σ) : Call σ JsonValue :=
  match redisClient.get key s with
  | (.error err, s1) =>
    { result := .null, store := s1, cmds := [.get key],
      errors := ["Cache retrieval error: " ++ err] }
  | (.ok data, s1) =>
    -- return data ? JSON.parse(data) : null
    if truthy data then
      match JSON.parse (render data) with
      | some value => { result := value, store := s1, cmds := [.get key], errors := [] }
      | none =>
        { result := .null, store := s1, cmds := [.get key],
          errors := ["Cache retrieval error: SyntaxError"] }
    else { result := .null, store := s1, cmds := [.get key], errors := [] }

/-- The argument `ttl || parseInt(process.env.CACHE_TTL_SECONDS || '300')` of
`setInCache`: `ttl` if it is given and not 0, the configured default
otherwise. -/
def ttlOrDefault (ttl : Option Int) (defaultTtl : Int) : Int :=
  match ttl with
  | some t => if t ≠ 0 then t else defaultTtl
  | none => defaultTtl

/-- `setInCache(redisClient, key, value, ttl)`: `true` if the value was
stored, `false` if the store failed. -/
def setInCache {σ : Type} (JSON : JsonCodec) (redisClient : RedisClient σ) (defaultTtl : Int)
    (key : String) (value : JsonValue) (ttl : Option Int) (s : σ) : Call σ Bool :=
  let ttlSeconds := ttlOrDefault ttl defaultTtl
  let cmd := RedisCmd.setEx key ttlSeconds (JSON.stringify value)
  match redisClient.setEx key ttlSeconds (JSON.stringify value) s with
  | (.ok _, s1) => { result := true, store := s1, cmds := [cmd], errors := [] }
  | (.error err, s1) =>
    { result := false, store := s1, cmds := [cmd], errors := ["Cache set error: " ++ err] }

/-- `deleteFromCache(redisClient, key)`. -/
def deleteFromCache {σ : Type} (redisClient : RedisClient σ) (key : String) (s : σ) :
    Call σ Bool :=
  match redisClient.del [key] s with
  | (.ok _, s1) => { result := true, store := s1, cmds := [.del [key]], errors := [] }
  | (.error err, s1) =>
    { result := false, store := s1, cmds := [.del [key]],
      errors := ["Cache delete error: " ++ err] }

/-! ## `cacheMiddleware.js`: the middleware -/

/-- JavaScript truthiness of a JSON value: `null`, `false`, `0` and the empty
string are falsy, everything else (every array and object too) is truthy. -/
def JsonValue.truthy : JsonValue → Bool
  | .null => false
  | .bool b => b
  | .num n => n != 0
  | .str units => !units.isEmpty
  | .arr _ => true
  | .obj _ => true

/-- The value of the property `name` of a JSON object (`undefined`, here
`none`, if there is none or if the value is not an object). -/
def JsonValue.getField (v : JsonValue) (name : String) : Option JsonValue :=
  match v with
  | .obj fields => fields.lookup name
  | _ => none

/-- The elements of an array as properties named by their index, from
`start` on. -/
def indexed : Nat → List JsonValue → List (String × JsonValue)
  | _, [] => []
  | start, v :: vs => (toString start, v) :: indexed (start + 1) vs

/-- The properties that the spread `...v` copies into an object literal: the
properties of an object, the indexed elements of an array, the indexed code
units of a string (each a string of one unit), nothing for `null`, a boolean or
a number. -/
def JsonValue.spread : JsonValue → List (String × JsonValue)
  | .obj fields => fields
  | .arr items => indexed 0 items
  | .str units => indexed 0 (units.map (fun u => JsonValue.str [u]))
  | _ => []

/-- The assignment of a property inside an object literal: a property that is
already there keeps its place and gets the new value, a new property goes to
the end. -/
def setField (fields : List (String × JsonValue)) (name : String) (value : JsonValue) :
    List (String × JsonValue) :=
  if fields.any (fun kv => kv.1 == name) then
    fields.map (fun kv => if kv.1 == name then (kv.1, value) else kv)
  else fields ++ [(name, value)]

/-- The body sent on a cache hit,
`{ ...cachedData, cached: true, timestamp: new Date().toISOString() }`, where
`nowIso` is the time stamp of the moment. -/
def hitBody (cachedData : JsonValue) (nowIso : String) : JsonValue :=
  .obj (setField (setField cachedData.spread "cached" (.bool true)) "timestamp"
    (.str (codeUnits nowIso)))

/-- What one run of the cache middleware did.  Beyond the fields of `Outcome`:
what it wrote to `console.log`, the values it left in `req.cacheKey` and
`req.cached` (`none` if it did not assign them), and whether it replaced
`res.json` by the caching writer. -/
structure CacheRun (σ : Type) where
  store : σ
  cmds : List RedisCmd
  res : Res
  nextCalls : Nat
  errors : List String
  logs : List String
  reqCacheKey : Option String
  reqCached : Option Bool
  wrapped : Bool

/-- The `catch` block of `cacheMiddleware`, entered when setting a header
throws: the error is logged and `next()` is called on the response object as it
is by then.  `req.cacheKey` is assigned before the `try` block; `req.cached` is
not assigned and `res.json` is not replaced. -/
def cacheCatch {σ : Type} (lookup : Call σ JsonValue) (res : Res) (logs : List String)
    (cacheKey err : String) : CacheRun σ :=
  { store := lookup.store, cmds := lookup.cmds, res := res, nextCalls := 1,
    errors := lookup.errors ++ ["Cache middleware error: " ++ err], logs := logs,
    reqCacheKey := some cacheKey, reqCached := none, wrapped := false }

/-- The handler returned by `cacheMiddleware(redisClient)`.  Inside its `try`
block `getFromCache` catches every store and parse error itself; what can
throw is `res.setHeader`, and it does for a derived key that is not an
acceptable header value. -/
def cacheMiddleware {σ : Type} (JSON : JsonCodec) (redisClient : RedisClient σ)
    (nowIso : String) (req : Request) (res : Res) (s : σ) : CacheRun σ :=
  -- Only cache GET requests
  if req.method != "GET" then
    { store := s, cmds := [], res := res, nextCalls := 1, errors := [], logs := [],
      reqCacheKey := none, reqCached := none, wrapped := false }
  else
    let cacheKey := generateCacheKey req
    let lookup := getFromCache JSON redisClient cacheKey s
    if lookup.result.truthy then
      match res.trySetHeader "X-Cache-Status" (.str "HIT") with
      | .error err => cacheCatch lookup res ["Cache HIT: " ++ cacheKey] cacheKey err
      | .ok res1 =>
        match res1.trySetHeader "X-Cache-Key" (.str cacheKey) with
        | .error err => cacheCatch lookup res1 ["Cache HIT: " ++ cacheKey] cacheKey err
        | .ok res2 =>
          { store := lookup.store, cmds := lookup.cmds,
            res := (res2.status 200).json (hitBody lookup.result nowIso),
            nextCalls := 0, errors := lookup.errors, logs := ["Cache HIT: " ++ cacheKey],
            reqCacheKey := some cacheKey, reqCached := none, wrapped := false }
    else
      match res.trySetHeader "X-Cache-Status" (.str "MISS") with
      | .error err => cacheCatch lookup res ["Cache MISS: " ++ cacheKey] cacheKey err
      | .ok res1 =>
        match res1.trySetHeader "X-Cache-Key" (.str cacheKey) with
        | .error err => cacheCatch lookup res1 ["Cache MISS: " ++ cacheKey] cacheKey err
        | .ok res2 =>
          { store := lookup.store, cmds := lookup.cmds, res := res2,
            nextCalls := 1, errors := lookup.errors, logs := ["Cache MISS: " ++ cacheKey],
            reqCacheKey := some cacheKey, reqCached := some false, wrapped := true }

/-- The read `data.success`: a `TypeError` if `data` is `null`, the property
of an object, `undefined` (here `none`) for every other value. -/
def readSuccess (data : JsonValue) : Except String (Option JsonValue) :=
  match data with
  | .null => .error "TypeError: Cannot read properties of null (reading 'success')"
  | other => .ok (other.getField "success")

/-- Truthiness of a value that may be `undefined`. -/
def truthyOpt : Option JsonValue → Bool
  | some v => v.truthy
  | none => false

/-- What one call of the caching writer did: the store after it, the store
commands it issued, the response object, the arguments it handed to the
original `res.json`, in order, and what was written to `console.error`. -/
structure WriterCall (σ : Type) where
  store : σ
  cmds : List RedisCmd
  res : Res
  sends : List JsonValue
  errors : List String

/-- The function that `cacheMiddleware` installs as `res.json` on a miss,
called with `data` on the response object `res`: an exception (`Except.error`)
or what the call did.  `cacheTtl` is `process.env.CACHE_TTL_SECONDS` read as an
integer, `none` if it is not set.  The write to the store is started before
the original `res.json` is called and is not awaited. -/
def wrappedJson {σ : Type} (JSON : JsonCodec) (redisClient : RedisClient σ)
    (cacheTtl : Option Int) (cacheKey : String) (res : Res) (data : JsonValue) (s : σ) :
    Except String (WriterCall σ) :=
  -- if (res.statusCode === 200 && data.success)
  if res.statusCode = 200 then
    match readSuccess data with
    | .error err => .error err
    | .ok success =>
      if truthyOpt success then
        let write := setInCache JSON redisClient (cacheTtl.getD 300) cacheKey data cacheTtl s
        .ok { store := write.store, cmds := write.cmds, res := res.json data, sends := [data],
              errors := write.errors }
      else .ok { store := s, cmds := [], res := res.json data, sends := [data], errors := [] }
  else .ok { store := s, cmds := [], res := res.json data, sends := [data], errors := [] }

/-! ## `cacheService.js` and `app.js`: invalidation -/

/-- `invalidatePattern(redisClient, pattern)`: the number of keys that `keys`
listed (`keys.length`; the reply of `del` is not read), 0 if the store
failed. -/
def invalidatePattern {σ : Type} (redisClient : RedisClient σ) (pattern : String) (s : σ) :
    Call σ Nat :=
  match redisClient.keys pattern s with
  | (.error err, s1) =>
    { result := 0, store := s1, cmds := [.keys pattern],
      errors := ["Cache invalidation error: " ++ err] }
  | (.ok keys, s1) =>
    if keys.length > 0 then
      match redisClient.del keys s1 with
      | (.error err, s2) =>
        { result := 0, store := s2, cmds := [.keys pattern, .del keys],
          errors := ["Cache invalidation error: " ++ err] }
      | (.ok _, s2) =>
        { result := keys.length, store := s2, cmds := [.keys pattern, .del keys], errors := [] }
    else { result := keys.length, store := s1, cmds := [.keys pattern], errors := [] }

/-- What a route handler did: the store after it, the store commands it
issued, the response object, and the error it handed to `next`, if any. -/
structure HandlerRun (σ : Type) where
  store : σ
  cmds : List RedisCmd
  res : Res
  nextError : Option String

/-- The body of the answer of the invalidation endpoint. -/
def invalidatedBody (keysDeleted : Nat) : JsonValue :=
  .obj [("success", .bool true), ("message", .str (codeUnits "Cache invalidated successfully")),
        ("keysDeleted", .num keysDeleted)]

/-- The handler of `POST /api/v1/cache/invalidate` in `app.js`, which runs
once `authMiddleware` has let the request through. -/
def invalidateHandler {σ : Type} (redisClient : RedisClient σ) (res : Res) (s : σ) :
    HandlerRun σ :=
  match redisClient.keys "metrics:*" s with
  | (.error err, s1) => { store := s1, cmds := [.keys "metrics:*"], res := res, nextError := some err }
  | (.ok keys, s1) =>
    if keys.length > 0 then
      match redisClient.del keys s1 with
      | (.error err, s2) =>
        { store := s2, cmds := [.keys "metrics:*", .del keys], res := res, nextError := some err }
      | (.ok _, s2) =>
        { store := s2, cmds := [.keys "metrics:*", .del keys],
          res := (res.status 200).json (invalidatedBody keys.length), nextError := none }
    else
      { store := s1, cmds := [.keys "metrics:*"],
        res := (res.status 200).json (invalidatedBody keys.length), nextError := none }

/-- A codec for examples: `JSON.stringify` and `JSON.parse` restricted to the
literals `null`, `true` and `false`.  Every other value is written as `null`
and every other text fails to parse. -/
def literalCodec : JsonCodec where
  stringify
    | .bool true => "true"
    | .bool false => "false"
    | _ => "null"
  parse text :=
    if text = "null" then some .null
    else if text = "true" then some (.bool true)
    else if text = "false" then some (.bool false)
    else none

/-! ## `validators.js` -/

/-- The test of `/^\d{4}-\d{2}-\d{2}$/`: four digits, a dash, two digits, a
dash, two digits and nothing else. -/
def matchesDateRegex (s : String) : Bool :=
  match s.data with
  | [y1, y2, y3, y4, a, m1, m2, b, d1, d2] =>
    y1.isDigit && y2.isDigit && y3.isDigit && y4.isDigit && a == '-' &&
    m1.isDigit && m2.isDigit && b == '-' && d1.isDigit && d2.isDigit
  | _ => false

/-- The number a run of decimal digits stands for. -/
def digitsValue (ds : List Char) : Nat :=
  ds.foldl (fun acc c => 10 * acc + (c.toNat - '0'.toNat)) 0

/-- Year, month and day as they are written in a string of the form
`YYYY-MM-DD`. -/
def dateFields (s : String) : Nat × Nat × Nat :=
  (digitsValue (s.data.take 4), digitsValue ((s.data.drop 5).take 2),
   digitsValue ((s.data.drop 8).take 2))

/-- Whether `new Date(s)` is a valid date, for a string `s` of the form
`YYYY-MM-DD`: the month is 01 to 12 and the day 01 to 31 (V8, the engine of
Node.js, accepts day 31 in every month and counts on into the next month). -/
def dateIsValid (s : String) : Bool :=
  let (_, m, d) := dateFields s
  decide (1 ≤ m) && decide (m ≤ 12) && decide (1 ≤ d) && decide (d ≤ 31)

/-- The number of days from 1 January of year 0 to 1 January of year `y`. -/
def daysBeforeYear (y : Nat) : Nat :=
  365 * y + (y + 3) / 4 - (y + 99) / 100 + (y + 399) / 400

/-- Whether `y` is a leap year. -/
def isLeapYear (y : Nat) : Bool :=
  decide (y % 4 = 0) && (decide (y % 100 ≠ 0) || decide (y % 400 = 0))

/-- The number of days of year `y` before the first day of month `m`. -/
def daysBeforeMonth (y m : Nat) : Nat :=
  (([31, if isLeapYear y then 29 else 28, 31, 30, 31, 30, 31, 31, 30, 31, 30, 31] : List Nat).take
    (m - 1)).sum

/-- The day on which `new Date(s)` falls, counted from 1 January of year 0,
for a valid string of the form `YYYY-MM-DD`.  Two such dates compare as their
day numbers do. -/
def dayNumber (s : String) : Nat :=
  let (y, m, d) := dateFields s
  daysBeforeYear y + daysBeforeMonth y m + (d - 1)

/-- `validateDateFormat(dateString)`. -/
def validateDateFormat (dateString : Option String) : Bool :=
  if !truthy dateString then true
  else if !matchesDateRegex (render dateString) then false
  else dateIsValid (render dateString)

/-- `validateDateRange(startDate, endDate)`. -/
def validateDateRange (startDate endDate : Option String) : Bool :=
  if !truthy startDate || !truthy endDate then true
  else if !validateDateFormat startDate || !validateDateFormat endDate then false
  else decide (dayNumber (render startDate) ≤ dayNumber (render endDate))

/-- The object `sanitizeQueryParams` returns. -/
structure SanitizedParams where
  start_date : Option String
  end_date : Option String
  deriving DecidableEq

/-- `sanitizeQueryParams(params)`: the two date parameters that are given, or
the message of the `Error` it throws. -/
def sanitizeQueryParams (params : List (String × String)) : Except String SanitizedParams :=
  let start := params.lookup "start_date"
  let stop := params.lookup "end_date"
  if truthy start && !validateDateFormat start then
    .error "Invalid start_date format. Use YYYY-MM-DD"
  else if truthy stop && !validateDateFormat stop then
    .error "Invalid end_date format. Use YYYY-MM-DD"
  else
    let sanitized : SanitizedParams :=
      { start_date := if truthy start then start else none,
        end_date := if truthy stop then stop else none }
    if truthy sanitized.start_date && truthy sanitized.end_date
        && !validateDateRange sanitized.start_date sanitized.end_date then
      .error "start_date must not be after end_date"
    else .ok sanitized

/-! ## `errorHandler.js` -/

/-- A thrown error: its message and, if it is an `ApiError`, its status code
and details. -/
structure JsError where
  message : String
  api : Option (Nat × JsonValue)

/-- `haystack.includes(needle)`. -/
def includes (haystack needle : String) : Bool :=
  haystack.data.tails.any (fun t => needle.data.isPrefixOf t)

/-- `errorHandler(err, req, res, next)`: the response object after it. -/
def errorHandler (err : JsError) (res : Res) : Res :=
  match err.api with
  | some (statusCode, details) =>
    (res.status statusCode).json
      (.obj [("success", .bool false),
             ("error", .obj [("message", .str (codeUnits err.message)), ("statusCode", .num statusCode),
                             ("details", details)])])
  | none =>
    if err.message != "" && includes err.message "Invalid" then
      (res.status 400).json
        (.obj [("success", .bool false),
               ("error", .obj [("message", .str (codeUnits err.message)), ("statusCode", .num 400)])])
    else
      (res.status 500).json
        (.obj [("success", .bool false),
               ("error", .obj [("message", .str (codeUnits "Internal Server Error")),
                               ("statusCode", .num 500)])])

/-! ## `metricsService.js` and `routes/metrics.js` -/

/-- A record of the hourly data set.  The counters and the revenue (here in
hundredths) are random numbers in the source. -/
structure HourlyMetric where
  timestamp : String
  users_active : Nat
  page_views : Nat
  revenue : Nat
  deriving DecidableEq

/-- A record of the daily data set. -/
structure DailyMetric where
  date : String
  users_active : Nat
  page_views : Nat
  revenue : Nat
  deriving DecidableEq

/-- `s.startsWith(start)`. -/
def startsWith (s start : String) : Bool :=
  start.data.isPrefixOf s.data

/-- `getHourlyMetrics(startDate, endDate)` over the data set `data`.  (The
busy wait of the source only takes time.) -/
def getHourlyMetrics (data : List HourlyMetric) (startDate endDate : Option String) :
    List HourlyMetric :=
  if !truthy startDate && !truthy endDate then data
  else
    let filtered :=
      if truthy startDate then data.filter (fun d => startsWith d.timestamp (render startDate))
      else data
    if truthy endDate then filtered.filter (fun d => startsWith d.timestamp (render endDate))
    else filtered

/-- `getDailyMetrics(startDate, endDate)` over the data set `data`; strings
are compared as JavaScript compares them. -/
def getDailyMetrics (data : List DailyMetric) (startDate endDate : Option String) :
    List DailyMetric :=
  if !truthy startDate && !truthy endDate then data
  else
    let filtered :=
      if truthy startDate then data.filter (fun d => decide (StrLe (render startDate) d.date))
      else data
    if truthy endDate then filtered.filter (fun d => decide (StrLe d.date (render endDate)))
    else filtered

/-- The body of a successful answer of `/daily` and `/hourly`. -/
def metricsBody (data : List JsonValue) (nowIso : String) (cached : Bool) : JsonValue :=
  .obj [("success", .bool true), ("data", .arr data), ("count", .num data.length),
        ("timestamp", .str (codeUnits nowIso)), ("cached", .bool cached)]

/-- The handler of `GET /daily` and of `GET /hourly` followed, when it calls
`next(err)`, by `errorHandler`: the response object at the end.  `getMetrics`
is the service function with its result turned into JSON, `reqCached` is
`req.cached`. -/
def metricsRoute (getMetrics : Option String → Option String → List JsonValue)
    (nowIso : String) (reqCached : Option Bool) (query : List (String × String)) (res : Res) :
    Res :=
  match sanitizeQueryParams query with
  | .ok params =>
    (res.status 200).json
      (metricsBody (getMetrics params.start_date params.end_date) nowIso (reqCached.getD false))
  | .error message => errorHandler { message := message, api := none } res

/-! ## Examples -/

/-- A successful answer of `/daily` as the route sends it. -/
def sampleResponse : JsonValue :=
  metricsBody [] "2024-01-01T00:00:00.000Z" false

/-- The JSON text of `sampleResponse`. -/
def sampleText : String :=
  "\x7b\"success\":true,\"data\":[],\"count\":0,\"timestamp\":\"2024-01-01T00:00:00.000Z\",\"cached\":false\x7d"

/-- A codec for examples: `literalCodec` extended by `sampleResponse`, which
stands for every array and object. -/
def sampleCodec : JsonCodec where
  stringify
    | .obj _ => sampleText
    | .arr _ => sampleText
    | other => literalCodec.stringify other
  parse text := if text = sampleText then some sampleResponse else literalCodec.parse text

/-- Whether the quota record under `key` is absent or has an expiry that is at
most `windowSeconds` away. -/
def quotaRecordOk (windowSeconds : Int) (key : String) (s : Redis) : Bool :=
  match s.find? key with
  | none => true
  | some e =>
    match e.expireAt with
    | none => false
    | some t => decide (t ≤ s.now + windowSeconds.toNat * 1000)

/-! ## Theorems -/

/-- A request whose client identifier is `clientId` is handled as
`rateLimitFor` handles that client. -/
theorem rateLimitMiddleware_of_id {σ : Type} (client : RedisClient σ)
    (maxRequests windowSeconds : Int) (nowMs : Nat) (req : Request) (res : Res) (s : σ)
    (clientId : String) (hid : getClientIdentifier req = .ok clientId) :
    rateLimitMiddleware client maxRequests windowSeconds nowMs req res s
      = rateLimitFor client maxRequests windowSeconds nowMs clientId res s := by
  simp only [rateLimitMiddleware, hid]

/-- A request whose client identifier cannot be read is let through by the
`catch` block, before any store command. -/
theorem rateLimitMiddleware_no_id {σ : Type} (client : RedisClient σ)
    (maxRequests windowSeconds : Int) (nowMs : Nat) (req : Request) (res : Res) (s : σ)
    (err : String) (hid : getClientIdentifier req = .error err) :
    rateLimitMiddleware client maxRequests windowSeconds nowMs req res s
      = rateLimitCatch s [] res err := by
  simp only [rateLimitMiddleware, hid]

/-- The run of the middleware when every store call succeeds, written out. -/
theorem rateLimitFor_ok {σ : Type} (client : RedisClient σ)
    (maxRequests windowSeconds : Int) (nowMs : Nat) (clientId : String) (res : Res)
    (s s1 s2 s3 : σ) (count ttl : Int)
    (hincr : client.incr (rateLimitKey clientId) s = (.ok count, s1))
    (hexp : if count = 1
      then ∃ b, client.expire (rateLimitKey clientId) windowSeconds s1 = (.ok b, s2)
      else s2 = s1)
    (httl : client.ttl (rateLimitKey clientId) s2 = (.ok ttl, s3)) :
    rateLimitFor client maxRequests windowSeconds nowMs clientId res s =
      if count > maxRequests then
        { store := s3,
          cmds := (if count = 1
            then [.incr (rateLimitKey clientId), .expire (rateLimitKey clientId) windowSeconds]
            else [.incr (rateLimitKey clientId)]) ++ [.ttl (rateLimitKey clientId)],
          res := (((withQuotaHeaders res maxRequests count ttl nowMs).setHeader
            "Retry-After" (.num ttl)).status 429).json (tooManyRequestsBody ttl),
          nextCalls := 0, errors := [] }
      else
        { store := s3,
          cmds := (if count = 1
            then [.incr (rateLimitKey clientId), .expire (rateLimitKey clientId) windowSeconds]
            else [.incr (rateLimitKey clientId)]) ++ [.ttl (rateLimitKey clientId)],
          res := withQuotaHeaders res maxRequests count ttl nowMs,
          nextCalls := 1, errors := [] } := by
  by_cases h1 : count = 1
  · rw [if_pos h1] at hexp
    obtain ⟨b, hb⟩ := hexp
    subst h1
    simp only [rateLimitFor, hincr, hb, httl, if_true, withQuotaHeaders]
  · rw [if_neg h1] at hexp
    subst hexp
    simp only [rateLimitFor, hincr, httl, if_neg h1, withQuotaHeaders]

/-- Reading back a header that was just set. -/
theorem Res.getHeader_setHeader (res : Res) (name : String) (v : HeaderValue) :
    (res.setHeader name v).getHeader name = some v := by
  simp [Res.setHeader, Res.getHeader, List.lookup]

/-- Setting one header does not change another. -/
theorem Res.getHeader_setHeader_ne (res : Res) (name other : String) (v : HeaderValue)
    (h : other ≠ name) :
    (res.setHeader name v).getHeader other = res.getHeader other := by
  have hb : (other == name) = false := by simpa using h
  simp only [Res.setHeader, Res.getHeader, List.lookup, hb]
  induction res.headers with
  | nil => rfl
  | cons x xs ih =>
    obtain ⟨k, w⟩ := x
    by_cases hk : k = name
    · subst hk
      have : (other == k) = false := hb
      simp [List.filter, List.lookup, this, ih]
    · have hk2 : (k != name) = true := by simpa using hk
      simp only [List.filter, hk2, List.lookup]
      cases other == k <;> simp [ih]

/-- The headers of a response do not depend on its status or body. -/
theorem Res.getHeader_status_json (res : Res) (code : Nat) (body : JsonValue) (name : String) :
    ((res.status code).json body).getHeader name = res.getHeader name := rfl

/-- The three quota headers, read back, and every other header as it was. -/
theorem withQuotaHeaders_get (res : Res) (maxRequests count ttl : Int) (nowMs : Nat) :
    (withQuotaHeaders res maxRequests count ttl nowMs).getHeader "X-RateLimit-Limit"
      = some (.num maxRequests)
    ∧ (withQuotaHeaders res maxRequests count ttl nowMs).getHeader "X-RateLimit-Remaining"
      = some (.num (remaining maxRequests count))
    ∧ (withQuotaHeaders res maxRequests count ttl nowMs).getHeader "X-RateLimit-Reset"
      = some (.num (epochSecondsCeil nowMs + ttl))
    ∧ (withQuotaHeaders res maxRequests count ttl nowMs).getHeader "Retry-After"
      = res.getHeader "Retry-After" := by
  refine ⟨?_, ?_, ?_, ?_⟩
  · unfold withQuotaHeaders
    rw [Res.getHeader_setHeader_ne _ _ _ _ (by decide),
      Res.getHeader_setHeader_ne _ _ _ _ (by decide), Res.getHeader_setHeader]
  · unfold withQuotaHeaders
    rw [Res.getHeader_setHeader_ne _ _ _ _ (by decide), Res.getHeader_setHeader]
  · unfold withQuotaHeaders
    rw [Res.getHeader_setHeader]
  · unfold withQuotaHeaders
    rw [Res.getHeader_setHeader_ne _ _ _ _ (by decide),
      Res.getHeader_setHeader_ne _ _ _ _ (by decide),
      Res.getHeader_setHeader_ne _ _ _ _ (by decide)]

/-- C1. Quota decision.  For a request of the client `clientId`, when the
increment returns `count`, the set-expiry (issued only for `count = 1`)
succeeds and the time-to-live read returns `ttl`, the middleware rejects
(status 429, the body `success: false` with the error `Too Many Requests`,
`statusCode: 429` and `retryAfter: ttl`, the header `Retry-After: ttl`, `next`
not called) exactly when `count > maxRequests`; otherwise it calls `next` once,
leaves status and body of the response as they were and sets no
`Retry-After`. -/
theorem rateLimit_decision {σ : Type} (client : RedisClient σ)
    (maxRequests windowSeconds : Int) (nowMs : Nat) (req : Request) (res : Res)
    (s s1 s2 s3 : σ) (count ttl : Int) (clientId : String)
    (hid : getClientIdentifier req = .ok clientId)
    (hincr : client.incr (rateLimitKey clientId) s = (.ok count, s1))
    (hexp : if count = 1
      then ∃ b, client.expire (rateLimitKey clientId) windowSeconds s1 = (.ok b, s2)
      else s2 = s1)
    (httl : client.ttl (rateLimitKey clientId) s2 = (.ok ttl, s3)) :
    (count > maxRequests ↔
      ((rateLimitMiddleware client maxRequests windowSeconds nowMs req res s).res.statusCode = 429
      ∧ (rateLimitMiddleware client maxRequests windowSeconds nowMs req res s).res.sent
          = some (.obj [("success", .bool false),
              ("error", .obj [("message", .str (codeUnits "Too Many Requests")),
                              ("statusCode", .num 429),
                              ("retryAfter", .num ttl)])])
      ∧ (rateLimitMiddleware client maxRequests windowSeconds nowMs req res s).res.getHeader
          "Retry-After" = some (.num ttl)
      ∧ (rateLimitMiddleware client maxRequests windowSeconds nowMs req res s).nextCalls = 0))
    ∧ (¬ count > maxRequests →
      ((rateLimitMiddleware client maxRequests windowSeconds nowMs req res s).nextCalls = 1
      ∧ (rateLimitMiddleware client maxRequests windowSeconds nowMs req res s).res.sent = res.sent
      ∧ (rateLimitMiddleware client maxRequests windowSeconds nowMs req res s).res.statusCode
          = res.statusCode
      ∧ (rateLimitMiddleware client maxRequests windowSeconds nowMs req res s).res.getHeader
          "Retry-After" = res.getHeader "Retry-After")) := by
  rw [rateLimitMiddleware_of_id client maxRequests windowSeconds nowMs req res s clientId hid,
    rateLimitFor_ok client maxRequests windowSeconds nowMs clientId res s s1 s2 s3 count ttl
      hincr hexp httl]
  by_cases hgt : count > maxRequests
  · rw [if_pos hgt]
    refine ⟨⟨fun _ => ⟨rfl, rfl, Res.getHeader_setHeader _ _ _, rfl⟩, fun _ => hgt⟩, ?_⟩
    intro h
    exact absurd hgt h
  · rw [if_neg hgt]
    refine ⟨⟨fun h => absurd h hgt, fun h => ?_⟩,
      fun _ => ⟨rfl, rfl, rfl, (withQuotaHeaders_get res maxRequests count ttl nowMs).2.2.2⟩⟩
    exact absurd h.2.2.2 Nat.one_ne_zero

/-- C1, at a concrete run: limit 5, window 60 s, the seventh request of a
window that has 30 s left is rejected with status 429, `retryAfter: 30` in the
body and `Retry-After: 30`, and `next` is not called. -/
theorem rateLimit_decision_witness :
    (rateLimitMiddleware redis 5 60 1500 (requestWithKey "k") Res.fresh
        ⟨30000, [("rate-limit:key:k", ⟨.int 6, some 60000⟩)]⟩).res.statusCode = 429
    ∧ (rateLimitMiddleware redis 5 60 1500 (requestWithKey "k") Res.fresh
        ⟨30000, [("rate-limit:key:k", ⟨.int 6, some 60000⟩)]⟩).res.sent
        = some (.obj [("success", .bool false),
            ("error", .obj [("message", .str (codeUnits "Too Many Requests")),
                            ("statusCode", .num 429),
                            ("retryAfter", .num 30)])])
    ∧ (rateLimitMiddleware redis 5 60 1500 (requestWithKey "k") Res.fresh
        ⟨30000, [("rate-limit:key:k", ⟨.int 6, some 60000⟩)]⟩).res.getHeader "Retry-After"
        = some (.num 30)
    ∧ (rateLimitMiddleware redis 5 60 1500 (requestWithKey "k") Res.fresh
        ⟨30000, [("rate-limit:key:k", ⟨.int 6, some 60000⟩)]⟩).nextCalls = 0 :=
  (rateLimit_decision redis 5 60 1500 (requestWithKey "k") Res.fresh
    ⟨30000, [("rate-limit:key:k", ⟨.int 6, some 60000⟩)]⟩
    ⟨30000, [("rate-limit:key:k", ⟨.int 7, some 60000⟩)]⟩
    ⟨30000, [("rate-limit:key:k", ⟨.int 7, some 60000⟩)]⟩
    ⟨30000, [("rate-limit:key:k", ⟨.int 7, some 60000⟩)]⟩
    7 30 "key:k" rfl rfl rfl rfl).1.mp (by decide)

/-- C3. Quota metadata.  On every run for a client in which the store calls
succeed the response carries `X-RateLimit-Limit = maxRequests`,
`X-RateLimit-Remaining = max(0, maxRequests - count)` and `X-RateLimit-Reset =
ceil(now / 1000) + ttl`, whether the request is admitted or rejected; the
remaining quota is never negative, is 0 whenever `count > maxRequests`, and
does not grow when `count` grows, for counts beyond `maxRequests` as well. -/
theorem rateLimit_metadata {σ : Type} (client : RedisClient σ)
    (maxRequests windowSeconds : Int) (nowMs : Nat) (req : Request) (res : Res)
    (s s1 s2 s3 : σ) (count ttl : Int) (clientId : String)
    (hid : getClientIdentifier req = .ok clientId)
    (hincr : client.incr (rateLimitKey clientId) s = (.ok count, s1))
    (hexp : if count = 1
      then ∃ b, client.expire (rateLimitKey clientId) windowSeconds s1 = (.ok b, s2)
      else s2 = s1)
    (httl : client.ttl (rateLimitKey clientId) s2 = (.ok ttl, s3)) :
    (rateLimitMiddleware client maxRequests windowSeconds nowMs req res s).res.getHeader
        "X-RateLimit-Limit" = some (.num maxRequests)
    ∧ (rateLimitMiddleware client maxRequests windowSeconds nowMs req res s).res.getHeader
        "X-RateLimit-Remaining" = some (.num (max 0 (maxRequests - count)))
    ∧ (rateLimitMiddleware client maxRequests windowSeconds nowMs req res s).res.getHeader
        "X-RateLimit-Reset" = some (.num (epochSecondsCeil nowMs + ttl))
    ∧ ((nowMs : Int) ≤ 1000 * epochSecondsCeil nowMs
        ∧ 1000 * (epochSecondsCeil nowMs - 1) < (nowMs : Int))
    ∧ 0 ≤ remaining maxRequests count
    ∧ (count > maxRequests → remaining maxRequests count = 0)
    ∧ (∀ count2 : Int, count ≤ count2 →
        remaining maxRequests count2 ≤ remaining maxRequests count) := by
  rw [rateLimitMiddleware_of_id client maxRequests windowSeconds nowMs req res s clientId hid,
    rateLimitFor_ok client maxRequests windowSeconds nowMs clientId res s s1 s2 s3 count ttl
      hincr hexp httl]
  obtain ⟨hl, hr, ht, _⟩ := withQuotaHeaders_get res maxRequests count ttl nowMs
  refine ⟨?_, ?_, ?_, ⟨?_, ?_⟩, ?_, ?_, ?_⟩
  · by_cases hgt : count > maxRequests
    · rw [if_pos hgt]
      show ((((withQuotaHeaders res maxRequests count ttl nowMs).setHeader "Retry-After"
        (.num ttl)).status 429).json (tooManyRequestsBody ttl)).getHeader _ = _
      rw [Res.getHeader_status_json, Res.getHeader_setHeader_ne _ _ _ _ (by decide), hl]
    · rw [if_neg hgt]; exact hl
  · by_cases hgt : count > maxRequests
    · rw [if_pos hgt]
      show ((((withQuotaHeaders res maxRequests count ttl nowMs).setHeader "Retry-After"
        (.num ttl)).status 429).json (tooManyRequestsBody ttl)).getHeader _ = _
      rw [Res.getHeader_status_json, Res.getHeader_setHeader_ne _ _ _ _ (by decide), hr]
      rfl
    · rw [if_neg hgt]; exact hr
  · by_cases hgt : count > maxRequests
    · rw [if_pos hgt]
      show ((((withQuotaHeaders res maxRequests count ttl nowMs).setHeader "Retry-After"
        (.num ttl)).status 429).json (tooManyRequestsBody ttl)).getHeader _ = _
      rw [Res.getHeader_status_json, Res.getHeader_setHeader_ne _ _ _ _ (by decide), ht]
    · rw [if_neg hgt]; exact ht
  · unfold epochSecondsCeil; omega
  · unfold epochSecondsCeil; omega
  · unfold remaining; exact le_max_left _ _
  · intro hgt; unfold remaining; omega
  · intro c2 hc; unfold remaining; omega

/-- C3, at a concrete run: the seventh request of a window of limit 5, 30 s
before the window ends, at epoch time 1500 ms. -/
theorem rateLimit_metadata_witness :
    (rateLimitMiddleware redis 5 60 1500 (requestWithKey "k") Res.fresh
        ⟨30000, [("rate-limit:key:k", ⟨.int 6, some 60000⟩)]⟩).res.getHeader
        "X-RateLimit-Limit" = some (.num 5)
    ∧ (rateLimitMiddleware redis 5 60 1500 (requestWithKey "k") Res.fresh
        ⟨30000, [("rate-limit:key:k", ⟨.int 6, some 60000⟩)]⟩).res.getHeader
        "X-RateLimit-Remaining" = some (.num (max 0 (5 - 7)))
    ∧ (rateLimitMiddleware redis 5 60 1500 (requestWithKey "k") Res.fresh
        ⟨30000, [("rate-limit:key:k", ⟨.int 6, some 60000⟩)]⟩).res.getHeader
        "X-RateLimit-Reset" = some (.num (epochSecondsCeil 1500 + 30))
    ∧ (((1500 : Nat) : Int) ≤ 1000 * epochSecondsCeil 1500
        ∧ 1000 * (epochSecondsCeil 1500 - 1) < ((1500 : Nat) : Int))
    ∧ 0 ≤ remaining 5 7
    ∧ ((7 : Int) > 5 → remaining 5 7 = 0)
    ∧ (∀ count2 : Int, 7 ≤ count2 → remaining 5 count2 ≤ remaining 5 7) :=
  rateLimit_metadata redis 5 60 1500 (requestWithKey "k") Res.fresh
    ⟨30000, [("rate-limit:key:k", ⟨.int 6, some 60000⟩)]⟩
    ⟨30000, [("rate-limit:key:k", ⟨.int 7, some 60000⟩)]⟩
    ⟨30000, [("rate-limit:key:k", ⟨.int 7, some 60000⟩)]⟩
    ⟨30000, [("rate-limit:key:k", ⟨.int 7, some 60000⟩)]⟩
    7 30 "key:k" rfl rfl rfl rfl

/-- The store after a successful increment on a working store whose result is
not 1: the record was present, its value is the new count and its expiry is
the one it had. -/
theorem Redis.incr_not_first (key : String) (s s1 : Redis) (count : Int)
    (hincr : Redis.incr key s = (.ok count, s1)) (hcount : count ≠ 1) :
    ∃ e, s.find? key = some e ∧ s1 = s.put key ⟨.int count, e.expireAt⟩ := by
  unfold Redis.incr at hincr
  split at hincr
  · simp only [Prod.mk.injEq, Except.ok.injEq] at hincr
    exact absurd hincr.1.symm hcount
  · rename_i e hf
    split at hincr
    · simp only [Prod.mk.injEq, Except.ok.injEq] at hincr
      obtain ⟨h1, h2⟩ := hincr
      subst h1
      exact ⟨e, hf, h2.symm⟩
    · simp at hincr

/-- Looking up the key that was just written. -/
theorem Redis.find?_put (s : Redis) (key : String) (e : Entry) :
    (s.put key e).find? key = if e.live s.now then some e else none := by
  simp [Redis.find?, Redis.put, List.lookup]

/-- Reading the time to live never fails on a working store and leaves the
store as it is. -/
theorem Redis.ttl_ok (key : String) (s : Redis) : ∃ t, Redis.ttl key s = (.ok t, s) := by
  unfold Redis.ttl
  split
  · exact ⟨_, rfl⟩
  · split <;> exact ⟨_, rfl⟩

/-- The commands one run of the middleware issues: the increment, then the
set-expiry exactly if the increment returned 1, then the time-to-live read
unless an earlier call failed. -/
theorem rateLimitFor_cmds {σ : Type} (client : RedisClient σ)
    (maxRequests windowSeconds : Int) (nowMs : Nat) (clientId : String) (res : Res) (s : σ) :
    (rateLimitFor client maxRequests windowSeconds nowMs clientId res s).cmds =
      match client.incr (rateLimitKey clientId) s with
      | (.error _, _) => [.incr (rateLimitKey clientId)]
      | (.ok count, s1) =>
        if count = 1 then
          match client.expire (rateLimitKey clientId) windowSeconds s1 with
          | (.error _, _) =>
            [.incr (rateLimitKey clientId), .expire (rateLimitKey clientId) windowSeconds]
          | (.ok _, _) =>
            [.incr (rateLimitKey clientId), .expire (rateLimitKey clientId) windowSeconds,
             .ttl (rateLimitKey clientId)]
        else [.incr (rateLimitKey clientId), .ttl (rateLimitKey clientId)] := by
  rcases hi : client.incr (rateLimitKey clientId) s with ⟨r, s1⟩
  cases r with
  | error e => simp [rateLimitFor, hi, rateLimitCatch]
  | ok count =>
    by_cases h1 : count = 1
    · subst h1
      rcases he : client.expire (rateLimitKey clientId) windowSeconds s1 with ⟨r2, s2⟩
      cases r2 with
      | error e => simp [rateLimitFor, hi, he, rateLimitCatch]
      | ok b =>
        rcases ht : client.ttl (rateLimitKey clientId) s2 with ⟨r3, s3⟩
        cases r3 with
        | error e => simp [rateLimitFor, hi, he, ht, rateLimitCatch]
        | ok t =>
          simp only [rateLimitFor, hi, he, ht, if_true]
          split <;> rfl
    · rcases ht : client.ttl (rateLimitKey clientId) s1 with ⟨r3, s3⟩
      cases r3 with
      | error e => simp [rateLimitFor, hi, h1, ht, rateLimitCatch]
      | ok t =>
        simp only [rateLimitFor, hi, h1, ht, if_false]
        split <;> rfl

/-- The store a run of the middleware leaves is the result of the store calls
the run makes: a property of the store that every call on the quota record
keeps holds after the run if it held before. -/
theorem rateLimitFor_store_keeps {σ : Type} (client : RedisClient σ)
    (maxRequests windowSeconds : Int) (nowMs : Nat) (clientId : String) (res : Res)
    (P : σ → Prop)
    (hincr : ∀ s, P s → P (client.incr (rateLimitKey clientId) s).2)
    (hexpire : ∀ s, P s → P (client.expire (rateLimitKey clientId) windowSeconds s).2)
    (httl : ∀ s, P s → P (client.ttl (rateLimitKey clientId) s).2)
    (s : σ) (hs : P s) :
    P (rateLimitFor client maxRequests windowSeconds nowMs clientId res s).store := by
  have h1 := hincr s hs
  rcases hi : client.incr (rateLimitKey clientId) s with ⟨r, s1⟩
  rw [hi] at h1
  cases r with
  | error e => simpa [rateLimitFor, hi, rateLimitCatch] using h1
  | ok count =>
    by_cases hc : count = 1
    · subst hc
      have h2 := hexpire s1 h1
      rcases he : client.expire (rateLimitKey clientId) windowSeconds s1 with ⟨r2, s2⟩
      rw [he] at h2
      cases r2 with
      | error e => simpa [rateLimitFor, hi, he, rateLimitCatch] using h2
      | ok b =>
        have h3 := httl s2 h2
        rcases ht : client.ttl (rateLimitKey clientId) s2 with ⟨r3, s3⟩
        rw [ht] at h3
        cases r3 with
        | error e => simpa [rateLimitFor, hi, he, ht, rateLimitCatch] using h3
        | ok t =>
          simp only [rateLimitFor, hi, he, ht, if_true]
          split <;> exact h3
    · have h3 := httl s1 h1
      rcases ht : client.ttl (rateLimitKey clientId) s1 with ⟨r3, s3⟩
      rw [ht] at h3
      cases r3 with
      | error e => simpa [rateLimitFor, hi, hc, ht, rateLimitCatch] using h3
      | ok t =>
        simp only [rateLimitFor, hi, hc, ht, if_false]
        split <;> exact h3

/-- A record that has not expired after `d` more milliseconds is still found. -/
theorem Redis.find?_advance_live (s : Redis) (key : String) (v : RedisValue) (T d : Nat)
    (hf : s.find? key = some ⟨v, some T⟩) (hlt : s.now + d < T) :
    (s.advance d).find? key = some ⟨v, some T⟩ := by
  unfold Redis.find? at hf ⊢
  simp only [Redis.advance]
  split at hf
  · rename_i e he
    by_cases hl : e.live s.now
    · rw [if_pos hl] at hf
      cases hf
      simp [Entry.live, hlt]
    · rw [if_neg hl] at hf
      cases hf
  · cases hf

/-- A record whose expiry has passed after `d` more milliseconds is absent. -/
theorem Redis.find?_advance_expired (s : Redis) (key : String) (v : RedisValue) (T d : Nat)
    (hf : s.find? key = some ⟨v, some T⟩) (hge : T ≤ s.now + d) :
    (s.advance d).find? key = none := by
  unfold Redis.find? at hf ⊢
  simp only [Redis.advance]
  split at hf
  · rename_i e he
    by_cases hl : e.live s.now
    · rw [if_pos hl] at hf
      cases hf
      simp [Entry.live, hge]
    · rw [if_neg hl] at hf
      cases hf
  · cases hf

/-- The decision of a run in which every store call succeeds. -/
theorem rateLimitFor_ok_decision {σ : Type} (client : RedisClient σ)
    (maxRequests windowSeconds : Int) (nowMs : Nat) (clientId : String) (res : Res)
    (s s1 s2 s3 : σ) (count ttl : Int)
    (hincr : client.incr (rateLimitKey clientId) s = (.ok count, s1))
    (hexp : if count = 1
      then ∃ b, client.expire (rateLimitKey clientId) windowSeconds s1 = (.ok b, s2)
      else s2 = s1)
    (httl : client.ttl (rateLimitKey clientId) s2 = (.ok ttl, s3)) :
    (rateLimitFor client maxRequests windowSeconds nowMs clientId res s).decision
        = (if count ≤ maxRequests then .admitted else .rejected)
    ∧ (rateLimitFor client maxRequests windowSeconds nowMs clientId res s).store = s3
    ∧ (rateLimitFor client maxRequests windowSeconds nowMs clientId res s).cmds
        = (if count = 1
            then [.incr (rateLimitKey clientId), .expire (rateLimitKey clientId) windowSeconds]
            else [.incr (rateLimitKey clientId)]) ++ [.ttl (rateLimitKey clientId)]
    ∧ (rateLimitFor client maxRequests windowSeconds nowMs clientId res s).res.getHeader
        "X-RateLimit-Remaining" = some (.num (max 0 (maxRequests - count))) := by
  rw [rateLimitFor_ok client maxRequests windowSeconds nowMs clientId res s s1 s2 s3 count ttl
    hincr hexp httl]
  obtain ⟨_, hr, _, _⟩ := withQuotaHeaders_get res maxRequests count ttl nowMs
  by_cases hgt : count > maxRequests
  · rw [if_pos hgt, if_neg (not_le.mpr hgt)]
    refine ⟨rfl, rfl, rfl, ?_⟩
    show ((((withQuotaHeaders res maxRequests count ttl nowMs).setHeader "Retry-After"
      (.num ttl)).status 429).json (tooManyRequestsBody ttl)).getHeader _ = _
    rw [Res.getHeader_status_json, Res.getHeader_setHeader_ne _ _ _ _ (by decide), hr]
    rfl
  · rw [if_neg hgt, if_pos (not_lt.mp hgt)]
    exact ⟨rfl, rfl, rfl, hr⟩

/-- A successful increment on a working store leaves a live record that
holds the new count. -/
theorem Redis.incr_ok_store (key : String) (s s1 : Redis) (count : Int)
    (hincr : Redis.incr key s = (.ok count, s1)) :
    ∃ x, s1 = s.put key ⟨.int count, x⟩ ∧ Entry.live ⟨.int count, x⟩ s.now = true := by
  unfold Redis.incr at hincr
  split at hincr
  · simp only [Prod.mk.injEq, Except.ok.injEq] at hincr
    obtain ⟨h1, h2⟩ := hincr
    subst h1
    exact ⟨none, h2.symm, rfl⟩
  · rename_i e hf
    have hlive : e.live s.now = true := by
      unfold Redis.find? at hf
      split at hf
      · rename_i e2 _
        by_cases hl : e2.live s.now
        · rw [if_pos hl] at hf
          cases hf
          exact hl
        · rw [if_neg hl] at hf
          cases hf
      · cases hf
    split at hincr
    · simp only [Prod.mk.injEq, Except.ok.injEq] at hincr
      obtain ⟨h1, h2⟩ := hincr
      subst h1
      exact ⟨e.expireAt, h2.symm, hlive⟩
    · simp at hincr

/-- C5. Quota fail-open.  If the client identifier cannot be read, or the
increment fails, or the set-expiry issued after a first increment fails, or the
time-to-live read fails, the middleware calls `next` once, leaves the response
object untouched (no quota header, no status, no body) and logs the error;
being a total function it hands no error to its caller. -/
theorem rateLimit_fail_open {σ : Type} (client : RedisClient σ)
    (maxRequests windowSeconds : Int) (nowMs : Nat) (req : Request) (res : Res) (s : σ)
    (hfail : (∃ err, getClientIdentifier req = .error err)
      ∨ (∃ clientId, getClientIdentifier req = .ok clientId
        ∧ ((∃ err s1, client.incr (rateLimitKey clientId) s = (.error err, s1))
          ∨ (∃ s1 err s2, client.incr (rateLimitKey clientId) s = (.ok 1, s1)
              ∧ client.expire (rateLimitKey clientId) windowSeconds s1 = (.error err, s2))
          ∨ (∃ count s1 s2 err s3, client.incr (rateLimitKey clientId) s = (.ok count, s1)
              ∧ (if count = 1
                  then ∃ b, client.expire (rateLimitKey clientId) windowSeconds s1 = (.ok b, s2)
                  else s2 = s1)
              ∧ client.ttl (rateLimitKey clientId) s2 = (.error err, s3))))) :
    (rateLimitMiddleware client maxRequests windowSeconds nowMs req res s).nextCalls = 1
    ∧ (rateLimitMiddleware client maxRequests windowSeconds nowMs req res s).res = res
    ∧ (rateLimitMiddleware client maxRequests windowSeconds nowMs req res s).errors.length = 1
    ∧ (res.sent = none →
        (rateLimitMiddleware client maxRequests windowSeconds nowMs req res s).res.sent = none)
    ∧ (∀ name, res.getHeader name = none →
        (rateLimitMiddleware client maxRequests windowSeconds nowMs req res s).res.getHeader name
          = none) := by
  have key : (rateLimitMiddleware client maxRequests windowSeconds nowMs req res s).nextCalls = 1
      ∧ (rateLimitMiddleware client maxRequests windowSeconds nowMs req res s).res = res
      ∧ (rateLimitMiddleware client maxRequests windowSeconds nowMs req res s).errors.length
          = 1 := by
    rcases hfail with ⟨err, hid⟩ | ⟨clientId, hid, hstore⟩
    · rw [rateLimitMiddleware_no_id client maxRequests windowSeconds nowMs req res s err hid]
      exact ⟨rfl, rfl, rfl⟩
    · rw [rateLimitMiddleware_of_id client maxRequests windowSeconds nowMs req res s clientId hid]
      rcases hstore with ⟨err, s1, hi⟩ | ⟨s1, err, s2, hi, he⟩ |
        ⟨count, s1, s2, err, s3, hi, he, ht⟩
      · simp [rateLimitFor, hi, rateLimitCatch]
      · simp [rateLimitFor, hi, he, rateLimitCatch]
      · by_cases h1 : count = 1
        · subst h1
          rw [if_pos rfl] at he
          obtain ⟨b, he⟩ := he
          simp [rateLimitFor, hi, he, ht, rateLimitCatch]
        · rw [if_neg h1] at he
          subst he
          simp [rateLimitFor, hi, h1, ht, rateLimitCatch]
  obtain ⟨h1, h2, h3⟩ := key
  refine ⟨h1, h2, h3, ?_, ?_⟩
  · intro h; rw [h2]; exact h
  · intro name h; rw [h2]; exact h

/-- C5, at a concrete run: the store rejects every increment. -/
theorem rateLimit_fail_open_witness :
    (rateLimitMiddleware (faultyRedis (fun c => c == .incr "rate-limit:key:k")) 5 60 0
        (requestWithKey "k") Res.fresh Redis.empty).nextCalls = 1
    ∧ (rateLimitMiddleware (faultyRedis (fun c => c == .incr "rate-limit:key:k")) 5 60 0
        (requestWithKey "k") Res.fresh Redis.empty).res = Res.fresh
    ∧ (rateLimitMiddleware (faultyRedis (fun c => c == .incr "rate-limit:key:k")) 5 60 0
        (requestWithKey "k") Res.fresh Redis.empty).errors.length = 1
    ∧ (Res.fresh.sent = none →
        (rateLimitMiddleware (faultyRedis (fun c => c == .incr "rate-limit:key:k")) 5 60 0
          (requestWithKey "k") Res.fresh Redis.empty).res.sent = none)
    ∧ (∀ name, Res.fresh.getHeader name = none →
        (rateLimitMiddleware (faultyRedis (fun c => c == .incr "rate-limit:key:k")) 5 60 0
          (requestWithKey "k") Res.fresh Redis.empty).res.getHeader name = none) :=
  rateLimit_fail_open (faultyRedis (fun c => c == .incr "rate-limit:key:k")) 5 60 0
    (requestWithKey "k") Res.fresh Redis.empty
    (Or.inr ⟨"key:k", rfl, Or.inl ⟨"store unavailable", Redis.empty, rfl⟩⟩)

/-- The code-unit comparison is total. -/
theorem lexLe_total : ∀ a b : List Nat, lexLe a b = true ∨ lexLe b a = true
  | [], _ => Or.inl rfl
  | _ :: _, [] => Or.inr rfl
  | a :: as, b :: bs => by
    rcases Nat.lt_trichotomy a b with h | h | h
    · left; simp [lexLe, h]
    · subst h
      rcases lexLe_total as bs with h2 | h2
      · left; simp [lexLe, h2]
      · right; simp [lexLe, h2]
    · right; simp [lexLe, h]

/-- The code-unit comparison is transitive. -/
theorem lexLe_trans : ∀ a b c : List Nat, lexLe a b = true → lexLe b c = true →
    lexLe a c = true
  | [], _, _ => fun _ _ => rfl
  | _ :: _, [], _ => fun h _ => by simp [lexLe] at h
  | _ :: _, _ :: _, [] => fun _ h => by simp [lexLe] at h
  | a :: as, b :: bs, c :: cs => fun h1 h2 => by
    simp only [lexLe, Bool.or_eq_true, decide_eq_true_eq, Bool.and_eq_true, beq_iff_eq] at h1 h2 ⊢
    rcases h1 with h1 | ⟨h1, h1t⟩
    · rcases h2 with h2 | ⟨h2, _⟩
      · left; omega
      · left; omega
    · rcases h2 with h2 | ⟨h2, h2t⟩
      · left; omega
      · right; exact ⟨by omega, lexLe_trans as bs cs h1t h2t⟩

/-- The code-unit comparison is antisymmetric. -/
theorem lexLe_antisymm : ∀ a b : List Nat, lexLe a b = true → lexLe b a = true → a = b
  | [], [] => fun _ _ => rfl
  | [], _ :: _ => fun _ h => by simp [lexLe] at h
  | _ :: _, [] => fun h _ => by simp [lexLe] at h
  | a :: as, b :: bs => fun h1 h2 => by
    simp only [lexLe, Bool.or_eq_true, decide_eq_true_eq, Bool.and_eq_true, beq_iff_eq] at h1 h2
    rcases h1 with h1 | ⟨h1, h1t⟩
    · rcases h2 with h2 | ⟨h2, _⟩ <;> omega
    · rcases h2 with h2 | ⟨_, h2t⟩
      · omega
      · rw [h1, lexLe_antisymm as bs h1t h2t]

/-- The numeric value of a character is a Unicode scalar value: below the
surrogate range, or above it and below 0x110000. -/
theorem Char.toNat_valid (c : Char) :
    c.toNat < 0xD800 ∨ (0xDFFF < c.toNat ∧ c.toNat < 0x110000) := c.valid

/-- A character is determined by its UTF-16 code units, also in front of
further code units. -/
theorem utf16_append_inj (c d : Char) (x y : List Nat)
    (h : utf16 c ++ x = utf16 d ++ y) : c = d ∧ x = y := by
  have hc := Char.toNat_valid c
  have hd := Char.toNat_valid d
  have key : c.toNat = d.toNat ∧ x = y := by
    unfold utf16 at h
    by_cases h1 : c.toNat < 0x10000
    · by_cases h2 : d.toNat < 0x10000
      · rw [if_pos h1, if_pos h2] at h
        simp only [List.singleton_append, List.cons.injEq] at h
        exact h
      · rw [if_pos h1, if_neg h2] at h
        simp only [List.singleton_append, List.cons_append, List.nil_append,
          List.cons.injEq] at h
        omega
    · by_cases h2 : d.toNat < 0x10000
      · rw [if_neg h1, if_pos h2] at h
        simp only [List.singleton_append, List.cons_append, List.nil_append,
          List.cons.injEq] at h
        omega
      · rw [if_neg h1, if_neg h2] at h
        simp only [List.cons_append, List.nil_append, List.cons.injEq] at h
        obtain ⟨ha, hb, hxy⟩ := h
        exact ⟨by omega, hxy⟩
  refine ⟨?_, key.2⟩
  apply Char.ext
  apply UInt32.ext
  exact key.1

/-- Two strings with the same UTF-16 code units are equal. -/
theorem codeUnits_injective (a b : String) (h : codeUnits a = codeUnits b) : a = b := by
  apply String.ext
  unfold codeUnits at h
  generalize a.data = l at h
  generalize b.data = m at h
  induction l generalizing m with
  | nil =>
    cases m with
    | nil => rfl
    | cons d ds =>
      exfalso
      simp only [List.flatMap_nil, List.flatMap_cons] at h
      unfold utf16 at h
      split at h <;> simp at h
  | cons c cs ih =>
    cases m with
    | nil =>
      exfalso
      simp only [List.flatMap_nil, List.flatMap_cons] at h
      unfold utf16 at h
      split at h <;> simp at h
    | cons d ds =>
      simp only [List.flatMap_cons] at h
      obtain ⟨h1, h2⟩ := utf16_append_inj c d _ _ h
      rw [h1, ih ds h2]

/-- The sort order is total. -/
theorem StrLe.total : IsTotal String StrLe :=
  ⟨fun a b => lexLe_total (codeUnits a) (codeUnits b)⟩

/-- The sort order is transitive. -/
theorem StrLe.trans : IsTrans String StrLe :=
  ⟨fun a b c => lexLe_trans (codeUnits a) (codeUnits b) (codeUnits c)⟩

/-- The sort order is antisymmetric. -/
theorem StrLe.antisymm : IsAntisymm String StrLe :=
  ⟨fun a b h1 h2 => codeUnits_injective a b (lexLe_antisymm _ _ h1 h2)⟩

/-- The result of `sortKeys` is sorted. -/
theorem sortKeys_sorted (keys : List String) : (sortKeys keys).Sorted StrLe :=
  @List.sorted_insertionSort String StrLe _ StrLe.total StrLe.trans keys

/-- The result of `sortKeys` holds the names it was given. -/
theorem sortKeys_perm (keys : List String) : (sortKeys keys).Perm keys :=
  List.perm_insertionSort StrLe keys

/-- Sorting two arrays that hold the same distinct names gives the same
array. -/
theorem sortKeys_eq_of_same_members (k1 k2 : List String) (h1 : k1.Nodup) (h2 : k2.Nodup)
    (hmem : ∀ k, k ∈ k1 ↔ k ∈ k2) : sortKeys k1 = sortKeys k2 := by
  have hperm : k1.Perm k2 := (List.perm_ext_iff_of_nodup h1 h2).mpr hmem
  exact @List.eq_of_perm_of_sorted String StrLe StrLe.antisymm _ _
    (((sortKeys_perm k1).trans hperm).trans (sortKeys_perm k2).symm)
    (sortKeys_sorted k1) (sortKeys_sorted k2)

/-- A name is a property of the query object exactly if looking it up gives a
value. -/
theorem mem_keys_iff_lookup (q : List (String × String)) (k : String) :
    k ∈ q.map Prod.fst ↔ ∃ v, q.lookup k = some v := by
  induction q with
  | nil => simp
  | cons x xs ih =>
    obtain ⟨k2, v2⟩ := x
    by_cases hk : k = k2
    · subst hk
      simp [List.lookup]
    · have hb : (k == k2) = false := by simpa using hk
      simp only [List.map_cons, List.mem_cons, hk, false_or, List.lookup, hb]
      exact ih

/-- C6. Cache key order-independence.  For every path and every two query
objects that hold the same names with the same values, in whatever order the
names were inserted, `generateCacheKey` returns the same key; as a function it
is total and deterministic. -/
theorem generateCacheKey_order_independent (req1 req2 : Request)
    (hpath : req1.path = req2.path)
    (hnodup1 : (queryKeys req1).Nodup) (hnodup2 : (queryKeys req2).Nodup)
    (hsame : ∀ k, req1.query.lookup k = req2.query.lookup k) :
    generateCacheKey req1 = generateCacheKey req2 := by
  have hmem : ∀ k, k ∈ queryKeys req1 ↔ k ∈ queryKeys req2 := by
    intro k
    unfold queryKeys
    rw [mem_keys_iff_lookup, mem_keys_iff_lookup, hsame k]
  have hsort := sortKeys_eq_of_same_members _ _ hnodup1 hnodup2 hmem
  have hpair : queryPair req1 = queryPair req2 := by
    funext k
    unfold queryPair
    rw [hsame k]
  have hq : queryParams req1 = queryParams req2 := by
    unfold queryParams
    rw [hsort, hpair]
  unfold generateCacheKey
  rw [hq, hpath]

/-- C6, at the example of the specification: `/daily` with `{b:2, a:1}` and
with `{a:1, b:2}`. -/
theorem generateCacheKey_order_independent_witness :
    generateCacheKey (getRequest "/daily" [("b", "2"), ("a", "1")])
      = generateCacheKey (getRequest "/daily" [("a", "1"), ("b", "2")])
    ∧ generateCacheKey (getRequest "/daily" [("b", "2"), ("a", "1")])
      = "metrics::daily:a=1&b=2" :=
  ⟨generateCacheKey_order_independent (getRequest "/daily" [("b", "2"), ("a", "1")])
    (getRequest "/daily" [("a", "1"), ("b", "2")]) rfl (by decide) (by decide)
    (by
      intro k
      by_cases hb : k = "b"
      · subst hb; decide
      · by_cases ha : k = "a"
        · subst ha; decide
        · have h1 : (k == "b") = false := by simpa using hb
          have h2 : (k == "a") = false := by simpa using ha
          simp [getRequest, List.lookup, h1, h2]),
   by decide⟩

/-- A list is cut at the first occurrence of a separator in one way only. -/
theorem split_first_unique {α : Type} (c : α) :
    ∀ (a b x y : List α), c ∉ a → c ∉ b → a ++ c :: x = b ++ c :: y → a = b ∧ x = y
  | [], [], _, _ => fun _ _ h => ⟨rfl, (List.cons.inj h).2⟩
  | [], b :: bs, _, _ => fun _ hb h => by
    simp only [List.nil_append, List.cons_append, List.cons.injEq] at h
    exact absurd (h.1 ▸ List.mem_cons_self _ _) hb
  | a :: as, [], _, _ => fun ha _ h => by
    simp only [List.nil_append, List.cons_append, List.cons.injEq] at h
    exact absurd (h.1 ▸ List.mem_cons_self _ _) ha
  | a :: as, b :: bs, x, y => fun ha hb h => by
    simp only [List.cons_append, List.cons.injEq] at h
    obtain ⟨h1, h2⟩ := split_first_unique c as bs x y
      (fun hm => ha (List.mem_cons_of_mem _ hm)) (fun hm => hb (List.mem_cons_of_mem _ hm)) h.2
    exact ⟨by rw [h.1, h1], h2⟩

/-- A list is cut at the last occurrence of a separator in one way only. -/
theorem split_last_unique {α : Type} (c : α) (a b x y : List α) (hx : c ∉ x) (hy : c ∉ y)
    (h : a ++ c :: x = b ++ c :: y) : a = b ∧ x = y := by
  have hr := congrArg List.reverse h
  simp only [List.reverse_append, List.reverse_cons, List.append_assoc, List.singleton_append]
    at hr
  obtain ⟨h1, h2⟩ := split_first_unique c x.reverse y.reverse a.reverse b.reverse
    (by simpa using hx) (by simpa using hy) hr
  exact ⟨List.reverse_injective h2, List.reverse_injective h1⟩

/-- The characters of `parts.join(sep)` for two parts or more. -/
theorem join_cons_cons_data (sep x y : String) (rest : List String) :
    (join sep (x :: y :: rest)).data = x.data ++ sep.data ++ (join sep (y :: rest)).data := by
  simp [join, String.data_append]

/-- The characters of one `key=value` pair. -/
theorem queryPair_data (req : Request) (key : String) :
    (queryPair req key).data = key.data ++ '=' :: (render (req.query.lookup key)).data := by
  simp [queryPair, String.data_append]

/-- The characters of the cache key: the literal `metrics:`, the path with
its slashes replaced, a colon, and the parameter string or `default`. -/
theorem generateCacheKey_data (req : Request) :
    (generateCacheKey req).data =
      "metrics:".data ++ (req.path.data.map (fun x => if x = '/' then ':' else x)
        ++ ':' :: (if queryParams req != "" then queryParams req else "default").data) := by
  simp only [generateCacheKey, replaceAll, String.data_append, List.append_assoc]
  rfl

/-- The joined string of a query that has a parameter contains `=`. -/
theorem join_pairs_has_eq (sep : String) (f : String → String) (hf : ∀ k, '=' ∈ (f k).data) :
    ∀ (keys : List String), keys ≠ [] → '=' ∈ (join sep (keys.map f)).data
  | [], h => absurd rfl h
  | [k], _ => hf k
  | k :: k2 :: rest, _ => by
    simp only [List.map_cons]
    rw [join_cons_cons_data]
    exact List.mem_append_left _ (List.mem_append_left _ (hf k))

/-- The parameter string of a query that has a parameter contains `=`. -/
theorem queryParams_has_eq (req : Request) (h : req.query ≠ []) :
    '=' ∈ (queryParams req).data := by
  unfold queryParams
  apply join_pairs_has_eq
  · intro k
    rw [queryPair_data]
    exact List.mem_append_right _ (List.mem_cons_self _ _)
  · intro hs
    have hp := sortKeys_perm (queryKeys req)
    rw [hs] at hp
    have := hp.symm.eq_nil
    unfold queryKeys at this
    exact h (List.map_eq_nil_iff.mp this)

/-- What follows the path in the cache key of a query that has a parameter is
the parameter string. -/
theorem queryParams_or_default (req : Request) (h : req.query ≠ []) :
    (if queryParams req != "" then queryParams req else "default") = queryParams req := by
  have hne : queryParams req ≠ "" := by
    intro he
    have := queryParams_has_eq req h
    rw [he] at this
    exact absurd this (by decide)
  have : (queryParams req != "") = true := by simpa using hne
  rw [if_pos this]

/-- C8. Sentinel key.  With an empty query `generateCacheKey` returns
`metrics:` followed by the path with every `/` replaced by `:` and by
`:default`, and the key of the same path with a query that has at least one
parameter is a different string. -/
theorem generateCacheKey_sentinel (req : Request) (hq : req.query = []) :
    generateCacheKey req = "metrics:" ++ replaceAll req.path '/' ':' ++ ":default"
    ∧ (replaceAll req.path '/' ':').data
        = req.path.data.map (fun x => if x = '/' then ':' else x)
    ∧ (∀ req2 : Request, req2.path = req.path → req2.query ≠ [] →
        generateCacheKey req2 ≠ generateCacheKey req) := by
  have hdef : (if queryParams req != "" then queryParams req else "default") = "default" := by
    have : queryParams req = "" := by
      unfold queryParams queryKeys
      rw [hq]
      rfl
    rw [this]
    rfl
  refine ⟨?_, rfl, ?_⟩
  · unfold generateCacheKey
    simp only [hdef]
    apply String.ext
    simp [String.data_append]
  · intro req2 hpath hne heq
    have hd := congrArg String.data heq
    rw [generateCacheKey_data, generateCacheKey_data, hdef, queryParams_or_default req2 hne,
      hpath] at hd
    have h1 := List.append_cancel_left (List.append_cancel_left hd)
    have h2 : (queryParams req2).data = "default".data := (List.cons.inj h1).2
    have h3 := queryParams_has_eq req2 hne
    rw [h2] at h3
    exact absurd h3 (by decide)

/-- C8, at the example of the specification: the key of `/daily` without
parameters, against the key of `/daily` with one parameter. -/
theorem generateCacheKey_sentinel_witness :
    generateCacheKey (getRequest "/daily" []) = "metrics::daily:default"
    ∧ generateCacheKey (getRequest "/daily" [("default", "")])
        ≠ generateCacheKey (getRequest "/daily" []) :=
  ⟨(generateCacheKey_sentinel (getRequest "/daily" []) rfl).1.trans (by decide),
   (generateCacheKey_sentinel (getRequest "/daily" []) rfl).2.2
     (getRequest "/daily" [("default", "")]) rfl (by decide)⟩

/-- A value found by a lookup belongs to the query. -/
theorem mem_of_lookup (q : List (String × String)) (k v : String)
    (h : q.lookup k = some v) : (k, v) ∈ q := by
  induction q with
  | nil => simp at h
  | cons x xs ih =>
    obtain ⟨k2, v2⟩ := x
    by_cases hk : k = k2
    · subst hk
      simp only [List.lookup, beq_self_eq_true, Option.some.injEq] at h
      rw [h]
      exact List.mem_cons_self _ _
    · have hb : (k == k2) = false := by simpa using hk
      simp only [List.lookup, hb] at h
      exact List.mem_cons_of_mem _ (ih h)

/-- Every sorted name is a name of the query. -/
theorem mem_queryKeys_of_mem_sortKeys (req : Request) (k : String)
    (h : k ∈ sortKeys (queryKeys req)) : k ∈ queryKeys req :=
  (sortKeys_perm (queryKeys req)).mem_iff.mp h

/-- Joined `key=value` strings over the same names, with values free of `&`,
are equal only if the values are equal name by name. -/
theorem join_pairs_inj (f g : String → String) :
    ∀ (keys : List String),
      (∀ k ∈ keys, '&' ∉ (f k).data ∧ '&' ∉ (g k).data) →
      join "&" (keys.map (fun k => k ++ "=" ++ f k))
        = join "&" (keys.map (fun k => k ++ "=" ++ g k)) →
      ∀ k ∈ keys, f k = g k
  | [], _, _ => fun k hk => by simp at hk
  | [k0], hfree, h => by
    intro k hk
    rw [List.mem_singleton] at hk
    subst hk
    simp only [List.map_cons, List.map_nil, join] at h
    have hd := congrArg String.data h
    simp only [String.data_append, List.append_assoc] at hd
    exact String.ext (List.append_cancel_left (List.append_cancel_left hd))
  | k0 :: k1 :: rest, hfree, h => by
    have hd := congrArg String.data h
    simp only [List.map_cons] at hd
    rw [join_cons_cons_data, join_cons_cons_data] at hd
    simp only [String.data_append, List.append_assoc] at hd
    have hd2 := List.append_cancel_left (List.append_cancel_left hd)
    simp only [List.singleton_append] at hd2
    obtain ⟨hv, hrest⟩ := split_first_unique '&' _ _ _ _
      (hfree k0 (List.mem_cons_self _ _)).1 (hfree k0 (List.mem_cons_self _ _)).2 hd2
    have ih := join_pairs_inj f g (k1 :: rest)
      (fun k hk => hfree k (List.mem_cons_of_mem _ hk))
      (by simpa only [List.map_cons] using String.ext hrest)
    intro k hk
    rcases List.mem_cons.mp hk with hk | hk
    · subst hk; exact String.ext hv
    · exact ih k hk

/-- C7, as stated, fails: over the names `a` and `b` the values `("", "&b=")`
and `("&b=", "")` differ and give the same key. -/
theorem generateCacheKey_values_collide :
    (queryKeys (getRequest "/daily" [("a", ""), ("b", "&b=")])).Nodup
    ∧ queryKeys (getRequest "/daily" [("a", ""), ("b", "&b=")])
        = queryKeys (getRequest "/daily" [("a", "&b="), ("b", "")])
    ∧ (getRequest "/daily" [("a", ""), ("b", "&b=")]).query.lookup "a"
        ≠ (getRequest "/daily" [("a", "&b="), ("b", "")]).query.lookup "a"
    ∧ generateCacheKey (getRequest "/daily" [("a", ""), ("b", "&b=")])
        = generateCacheKey (getRequest "/daily" [("a", "&b="), ("b", "")])
    ∧ generateCacheKey (getRequest "/daily" [("a", ""), ("b", "&b=")])
        = "metrics::daily:a=&b=&b=" := by
  decide

/-- C7, amended.  For two requests with the same path whose query objects hold
the same names, if no parameter value contains the character `&` and the two
queries differ in the value of at least one name, `generateCacheKey` returns
different keys. -/
theorem generateCacheKey_separates_values (req1 req2 : Request)
    (hpath : req1.path = req2.path)
    (hnodup1 : (queryKeys req1).Nodup) (hnodup2 : (queryKeys req2).Nodup)
    (hkeys : ∀ k, k ∈ queryKeys req1 ↔ k ∈ queryKeys req2)
    (hamp1 : ∀ kv ∈ req1.query, '&' ∉ kv.2.data)
    (hamp2 : ∀ kv ∈ req2.query, '&' ∉ kv.2.data)
    (hdiff : ∃ k ∈ queryKeys req1, req1.query.lookup k ≠ req2.query.lookup k) :
    generateCacheKey req1 ≠ generateCacheKey req2 := by
  intro heq
  obtain ⟨k, hk, hne⟩ := hdiff
  have hq1 : req1.query ≠ [] := by
    intro h; unfold queryKeys at hk; rw [h] at hk; simp at hk
  have hq2 : req2.query ≠ [] := by
    intro h
    have hk2 := (hkeys k).mp hk
    unfold queryKeys at hk2; rw [h] at hk2; simp at hk2
  have hsort := sortKeys_eq_of_same_members _ _ hnodup1 hnodup2 hkeys
  have hd := congrArg String.data heq
  rw [generateCacheKey_data, generateCacheKey_data, queryParams_or_default req1 hq1,
    queryParams_or_default req2 hq2, hpath] at hd
  have h1 := (List.cons.inj (List.append_cancel_left (List.append_cancel_left hd))).2
  have h2 : queryParams req1 = queryParams req2 := String.ext h1
  unfold queryParams at h2
  rw [← hsort] at h2
  have hfree : ∀ k ∈ sortKeys (queryKeys req1),
      '&' ∉ (render (req1.query.lookup k)).data ∧ '&' ∉ (render (req2.query.lookup k)).data := by
    intro k hk
    have hk1 := mem_queryKeys_of_mem_sortKeys req1 k hk
    have hk2 := (hkeys k).mp hk1
    obtain ⟨v1, hv1⟩ := (mem_keys_iff_lookup _ _).mp hk1
    obtain ⟨v2, hv2⟩ := (mem_keys_iff_lookup _ _).mp hk2
    rw [hv1, hv2]
    exact ⟨hamp1 _ (mem_of_lookup _ _ _ hv1), hamp2 _ (mem_of_lookup _ _ _ hv2)⟩
  have hall := join_pairs_inj (fun k => render (req1.query.lookup k))
    (fun k => render (req2.query.lookup k)) (sortKeys (queryKeys req1)) hfree h2
  have hks : k ∈ sortKeys (queryKeys req1) := (sortKeys_perm (queryKeys req1)).mem_iff.mpr hk
  have hrk := hall k hks
  obtain ⟨v1, hv1⟩ := (mem_keys_iff_lookup _ _).mp hk
  obtain ⟨v2, hv2⟩ := (mem_keys_iff_lookup _ _).mp ((hkeys k).mp hk)
  rw [hv1, hv2] at hne
  simp only [hv1, hv2, render] at hrk
  exact hne (by rw [hrk])

/-- C7 amended, at a concrete pair of requests: the same two names, values
with `=` in them, one value different. -/
theorem generateCacheKey_separates_values_witness :
    generateCacheKey (getRequest "/daily" [("a", "x=1"), ("b", "2")])
      ≠ generateCacheKey (getRequest "/daily" [("b", "2"), ("a", "x=2")]) :=
  generateCacheKey_separates_values (getRequest "/daily" [("a", "x=1"), ("b", "2")])
    (getRequest "/daily" [("b", "2"), ("a", "x=2")]) rfl (by decide) (by decide)
    (by intro k; simp [queryKeys, getRequest]; tauto)
    (by decide) (by decide) ⟨"a", by decide, by decide⟩

/-- Replacing `/` by `:` loses nothing on paths that contain no `:`. -/
theorem map_slash_injective :
    ∀ (p q : List Char), ':' ∉ p → ':' ∉ q →
      p.map (fun x => if x = '/' then ':' else x) = q.map (fun x => if x = '/' then ':' else x) →
      p = q
  | [], [], _, _, _ => rfl
  | [], _ :: _, _, _, h => by simp at h
  | _ :: _, [], _, _, h => by simp at h
  | a :: as, b :: bs, hp, hq, h => by
    simp only [List.map_cons, List.cons.injEq] at h
    have ha : a ≠ ':' := fun e => hp (e ▸ List.mem_cons_self _ _)
    have hb : b ≠ ':' := fun e => hq (e ▸ List.mem_cons_self _ _)
    have hab : a = b := by
      by_cases h1 : a = '/'
      · by_cases h2 : b = '/'
        · rw [h1, h2]
        · rw [if_pos h1, if_neg h2] at h
          exact absurd h.1.symm hb
      · by_cases h2 : b = '/'
        · rw [if_neg h1, if_pos h2] at h
          exact absurd h.1 ha
        · rw [if_neg h1, if_neg h2] at h
          exact h.1
    rw [hab, map_slash_injective as bs (fun hm => hp (List.mem_cons_of_mem _ hm))
      (fun hm => hq (List.mem_cons_of_mem _ hm)) h.2]

/-- Joining with `&` brings in no `:`. -/
theorem join_no_colon :
    ∀ (parts : List String), (∀ x ∈ parts, ':' ∉ x.data) → ':' ∉ (join "&" parts).data
  | [], _ => by simp [join]
  | [x], h => h x (List.mem_cons_self _ _)
  | x :: y :: rest, h => by
    rw [join_cons_cons_data]
    intro hm
    rcases List.mem_append.mp hm with hm | hm
    · rcases List.mem_append.mp hm with hm | hm
      · exact h x (List.mem_cons_self _ _) hm
      · exact absurd hm (by decide)
    · exact join_no_colon (y :: rest) (fun z hz => h z (List.mem_cons_of_mem _ hz)) hm

/-- What follows the path in the cache key contains no `:` if no parameter
name and no parameter value does. -/
theorem queryPart_no_colon (req : Request)
    (hq : ∀ kv ∈ req.query, ':' ∉ kv.1.data ∧ ':' ∉ kv.2.data) :
    ':' ∉ (if queryParams req != "" then queryParams req else "default").data := by
  have hjoin : ':' ∉ (queryParams req).data := by
    unfold queryParams
    apply join_no_colon
    intro x hx
    obtain ⟨k, hk, rfl⟩ := List.mem_map.mp hx
    have hk1 := mem_queryKeys_of_mem_sortKeys req k hk
    obtain ⟨v, hv⟩ := (mem_keys_iff_lookup _ _).mp hk1
    have hkv := hq _ (mem_of_lookup _ _ _ hv)
    rw [queryPair_data, hv]
    intro hm
    rcases List.mem_append.mp hm with hm | hm
    · exact hkv.1 hm
    · rcases List.mem_cons.mp hm with hm | hm
      · exact absurd hm (by decide)
      · exact hkv.2 hm
  split
  · exact hjoin
  · decide

/-- C9, as stated, fails: the paths `/a/b` and `/a:b` give the same key; so
do `/a` with the parameter name `b:c` and `/a/b` with the name `c`; so do `/a`
with the parameter value `b:j=1` and `/a/k=b` with the parameter `j`. -/
theorem generateCacheKey_paths_collide :
    ((getRequest "/a/b" []).path ≠ (getRequest "/a:b" []).path
      ∧ generateCacheKey (getRequest "/a/b" []) = generateCacheKey (getRequest "/a:b" []))
    ∧ ((getRequest "/a" [("b:c", "1")]).path ≠ (getRequest "/a/b" [("c", "1")]).path
      ∧ generateCacheKey (getRequest "/a" [("b:c", "1")])
          = generateCacheKey (getRequest "/a/b" [("c", "1")]))
    ∧ ((getRequest "/a" [("k", "b:j=1")]).path ≠ (getRequest "/a/k=b" [("j", "1")]).path
      ∧ generateCacheKey (getRequest "/a" [("k", "b:j=1")])
          = generateCacheKey (getRequest "/a/k=b" [("j", "1")])) := by
  decide

/-- C9, amended.  For two requests whose paths differ, if neither path and no
parameter name or value of either request contains the character `:`,
`generateCacheKey` returns different keys. -/
theorem generateCacheKey_separates_paths (req1 req2 : Request)
    (hpath : req1.path ≠ req2.path)
    (hp1 : ':' ∉ req1.path.data) (hp2 : ':' ∉ req2.path.data)
    (hq1 : ∀ kv ∈ req1.query, ':' ∉ kv.1.data ∧ ':' ∉ kv.2.data)
    (hq2 : ∀ kv ∈ req2.query, ':' ∉ kv.1.data ∧ ':' ∉ kv.2.data) :
    generateCacheKey req1 ≠ generateCacheKey req2 := by
  intro heq
  have hd := congrArg String.data heq
  rw [generateCacheKey_data, generateCacheKey_data] at hd
  obtain ⟨h1, _⟩ := split_last_unique ':' _ _ _ _ (queryPart_no_colon req1 hq1)
    (queryPart_no_colon req2 hq2) (List.append_cancel_left hd)
  exact hpath (String.ext (map_slash_injective _ _ hp1 hp2 h1))

/-- C9 amended, at a concrete pair of requests: `/daily` and `/hourly` with
the same date range. -/
theorem generateCacheKey_separates_paths_witness :
    generateCacheKey (getRequest "/daily" [("start_date", "2024-01-01")])
      ≠ generateCacheKey (getRequest "/hourly" [("start_date", "2024-01-01")]) :=
  generateCacheKey_separates_paths (getRequest "/daily" [("start_date", "2024-01-01")])
    (getRequest "/hourly" [("start_date", "2024-01-01")])
    (by decide) (by decide) (by decide) (by decide) (by decide)

/-- A key that was erased is absent. -/
theorem Redis.find?_erase (s : Redis) (key : String) : (s.erase key).find? key = none := by
  have h : List.lookup key (s.entries.filter (fun kv => kv.1 != key)) = none := by
    rw [List.lookup_eq_none_iff]
    intro p hp
    have := (List.mem_filter.mp hp).2
    simp only [bne_iff_ne, ne_eq] at this ⊢
    exact fun e => this e.symm
  simp only [Redis.find?, Redis.erase, h]

/-- `getFromCache` on a working store that holds no live record under the
key. -/
theorem getFromCache_absent (JSON : JsonCodec) (key : String) (s : Redis)
    (h : s.find? key = none) : (getFromCache JSON redis key s).result = .null := by
  have hget : redis.get key s = (.ok none, s) := by
    show Redis.get key s = _
    unfold Redis.get
    rw [h]
  simp [getFromCache, hget, truthy]

/-- `getFromCache` on a working store that holds the text `text` under the
key, when the text is not empty and parses. -/
theorem getFromCache_present (JSON : JsonCodec) (key : String) (s : Redis) (text : String)
    (expireAt : Option Nat) (value : JsonValue)
    (h : s.find? key = some ⟨.str text, expireAt⟩) (hne : text ≠ "")
    (hparse : JSON.parse text = some value) :
    (getFromCache JSON redis key s).result = value := by
  have hget : redis.get key s = (.ok (some text), s) := by
    show Redis.get key s = _
    unfold Redis.get
    rw [h]
    rfl
  have ht : truthy (some text) = true := by simpa [truthy] using hne
  simp [getFromCache, hget, ht, render, hparse]

/-- `setInCache` on a working store with a positive time to live: it resolves
to `true` and leaves the text of the value under the key, to expire after
that time. -/
theorem setInCache_ok (JSON : JsonCodec) (defaultTtl : Int) (key : String) (value : JsonValue)
    (T : Int) (s : Redis) (hT : 0 < T) :
    (setInCache JSON redis defaultTtl key value (some T) s).result = true
    ∧ (setInCache JSON redis defaultTtl key value (some T) s).store
        = s.put key ⟨.str (JSON.stringify value), some (s.now + T.toNat * 1000)⟩ := by
  have httl : ttlOrDefault (some T) defaultTtl = T := by
    have hne : T ≠ 0 := by omega
    simp only [ttlOrDefault, if_pos hne]
  have hset : redis.setEx key T (JSON.stringify value) s
      = (.ok (), s.put key ⟨.str (JSON.stringify value), some (s.now + T.toNat * 1000)⟩) := by
    show Redis.setEx key T _ s = _
    have hle : ¬ T ≤ 0 := by omega
    simp only [Redis.setEx, if_neg hle]
  simp [setInCache, httl, hset]

/-- C10. Memoization round trip.  On a working store, for every key, every
payload that `JSON.parse` reads back from its `JSON.stringify` text and every
positive time to live `T` (seconds), `setInCache` resolves to `true` and a
`getFromCache` made less than `T` seconds later returns the payload; a
`getFromCache` of a key that has no live record, of the stored key once `T`
seconds have passed, or of the stored key after `deleteFromCache`, returns
`null`. -/
theorem cache_round_trip (JSON : JsonCodec) (hempty : JSON.parse "" = none)
    (defaultTtl : Int) (K : String) (P : JsonValue) (T : Int) (s : Redis)
    (hT : 0 < T) (hP : JSON.parse (JSON.stringify P) = some P) :
    (setInCache JSON redis defaultTtl K P (some T) s).result = true
    ∧ (∀ d : Nat, (d : Int) < T * 1000 →
        (getFromCache JSON redis K
          ((setInCache JSON redis defaultTtl K P (some T) s).store.advance d)).result = P)
    ∧ (∀ s0 : Redis, s0.find? K = none → (getFromCache JSON redis K s0).result = .null)
    ∧ (∀ d : Nat, T * 1000 ≤ (d : Int) →
        (getFromCache JSON redis K
          ((setInCache JSON redis defaultTtl K P (some T) s).store.advance d)).result = .null)
    ∧ (deleteFromCache redis K (setInCache JSON redis defaultTtl K P (some T) s).store).result
        = true
    ∧ (getFromCache JSON redis K
        (deleteFromCache redis K
          (setInCache JSON redis defaultTtl K P (some T) s).store).store).result = .null := by
  obtain ⟨hres, hstore⟩ := setInCache_ok JSON defaultTtl K P T s hT
  have hne : JSON.stringify P ≠ "" := by
    intro h
    rw [h, hempty] at hP
    cases hP
  have hfind : (setInCache JSON redis defaultTtl K P (some T) s).store.find? K
      = some ⟨.str (JSON.stringify P), some (s.now + T.toNat * 1000)⟩ := by
    rw [hstore, Redis.find?_put]
    have : Entry.live ⟨.str (JSON.stringify P), some (s.now + T.toNat * 1000)⟩ s.now = true := by
      simp only [Entry.live, decide_eq_true_eq]
      omega
    rw [if_pos this]
  have hnow : (setInCache JSON redis defaultTtl K P (some T) s).store.now = s.now := by
    rw [hstore]; rfl
  refine ⟨hres, ?_, ?_, ?_, ?_, ?_⟩
  · intro d hd
    have hlive := Redis.find?_advance_live _ K _ _ d hfind (by rw [hnow]; omega)
    exact getFromCache_present JSON K _ _ _ P hlive hne hP
  · intro s0 h0
    exact getFromCache_absent JSON K s0 h0
  · intro d hd
    have hgone := Redis.find?_advance_expired _ K _ _ d hfind (by rw [hnow]; omega)
    exact getFromCache_absent JSON K _ hgone
  · rfl
  · apply getFromCache_absent
    show (Redis.erase _ K).find? K = none
    exact Redis.find?_erase _ K

/-- C10, at a concrete run: the payload `true` stored for 300 s under
`test:key` in an empty store, read back 299.999 s later, and gone after
300 s. -/
theorem cache_round_trip_witness :
    (setInCache literalCodec redis 300 "test:key" (.bool true) (some 300) Redis.empty).result
      = true
    ∧ (getFromCache literalCodec redis "test:key"
        ((setInCache literalCodec redis 300 "test:key" (.bool true) (some 300)
          Redis.empty).store.advance 299999)).result = .bool true
    ∧ (getFromCache literalCodec redis "test:key"
        ((setInCache literalCodec redis 300 "test:key" (.bool true) (some 300)
          Redis.empty).store.advance 300000)).result = .null :=
  have h := cache_round_trip literalCodec rfl 300 "test:key" (.bool true) 300 Redis.empty
    (by decide) rfl
  ⟨h.1, h.2.1 299999 (by decide), h.2.2.2.1 300000 (by decide)⟩

/-- `getFromCache` when the store returns a text that is not empty and
parses. -/
theorem getFromCache_found {σ : Type} (JSON : JsonCodec) (client : RedisClient σ)
    (key : String) (s s1 : σ) (text : String) (R : JsonValue)
    (hget : client.get key s = (.ok (some text), s1)) (hne : text ≠ "")
    (hparse : JSON.parse text = some R) :
    getFromCache JSON client key s
      = { result := R, store := s1, cmds := [.get key], errors := [] } := by
  have ht : truthy (some text) = true := by simpa [truthy] using hne
  simp [getFromCache, hget, ht, render, hparse]

/-- The run of the cache middleware on a GET request whose derived key is an
acceptable header value, in terms of the lookup: a hit if the looked-up value
is truthy, a miss otherwise. -/
theorem cacheMiddleware_get {σ : Type} (JSON : JsonCodec) (client : RedisClient σ)
    (nowIso : String) (req : Request) (res : Res) (s : σ) (hget : req.method = "GET")
    (hkey : (HeaderValue.str (generateCacheKey req)).valid = true) :
    cacheMiddleware JSON client nowIso req res s =
      if (getFromCache JSON client (generateCacheKey req) s).result.truthy then
        { store := (getFromCache JSON client (generateCacheKey req) s).store,
          cmds := (getFromCache JSON client (generateCacheKey req) s).cmds,
          res := (((res.setHeader "X-Cache-Status" (.str "HIT")).setHeader "X-Cache-Key"
            (.str (generateCacheKey req))).status 200).json
              (hitBody (getFromCache JSON client (generateCacheKey req) s).result nowIso),
          nextCalls := 0,
          errors := (getFromCache JSON client (generateCacheKey req) s).errors,
          logs := ["Cache HIT: " ++ generateCacheKey req],
          reqCacheKey := some (generateCacheKey req), reqCached := none, wrapped := false }
      else
        { store := (getFromCache JSON client (generateCacheKey req) s).store,
          cmds := (getFromCache JSON client (generateCacheKey req) s).cmds,
          res := (res.setHeader "X-Cache-Status" (.str "MISS")).setHeader "X-Cache-Key"
            (.str (generateCacheKey req)),
          nextCalls := 1,
          errors := (getFromCache JSON client (generateCacheKey req) s).errors,
          logs := ["Cache MISS: " ++ generateCacheKey req],
          reqCacheKey := some (generateCacheKey req), reqCached := some false,
          wrapped := true } := by
  have hm : (req.method != "GET") = false := by simp [hget]
  have hhit : (HeaderValue.str "HIT").valid = true := by decide
  have hmiss : (HeaderValue.str "MISS").valid = true := by decide
  simp only [cacheMiddleware, hm, Res.trySetHeader, hkey, hhit, hmiss]
  rfl

/-- The run of the cache middleware on a GET request whose derived key is not
an acceptable header value: the `catch` block, after the header
`X-Cache-Status` was set. -/
theorem cacheMiddleware_get_invalid {σ : Type} (JSON : JsonCodec) (client : RedisClient σ)
    (nowIso : String) (req : Request) (res : Res) (s : σ) (hget : req.method = "GET")
    (hkey : (HeaderValue.str (generateCacheKey req)).valid = false) :
    cacheMiddleware JSON client nowIso req res s =
      if (getFromCache JSON client (generateCacheKey req) s).result.truthy then
        cacheCatch (getFromCache JSON client (generateCacheKey req) s)
          (res.setHeader "X-Cache-Status" (.str "HIT"))
          ["Cache HIT: " ++ generateCacheKey req] (generateCacheKey req)
          ("TypeError: Invalid character in header content [\"" ++ "X-Cache-Key" ++ "\"]")
      else
        cacheCatch (getFromCache JSON client (generateCacheKey req) s)
          (res.setHeader "X-Cache-Status" (.str "MISS"))
          ["Cache MISS: " ++ generateCacheKey req] (generateCacheKey req)
          ("TypeError: Invalid character in header content [\"" ++ "X-Cache-Key" ++ "\"]") := by
  have hm : (req.method != "GET") = false := by simp [hget]
  have hhit : (HeaderValue.str "HIT").valid = true := by decide
  have hmiss : (HeaderValue.str "MISS").valid = true := by decide
  simp only [cacheMiddleware, hm, Res.trySetHeader, hkey, hhit, hmiss]
  rfl

/-- Looking up a name in a property list in which every value under one name
was replaced. -/
theorem lookup_map_replace (fields : List (String × JsonValue)) (name other : String)
    (value : JsonValue) :
    (fields.map (fun kv => if kv.1 == name then (kv.1, value) else kv)).lookup other
      = if other = name then (fields.lookup other).map (fun _ => value)
        else fields.lookup other := by
  induction fields with
  | nil => simp
  | cons x xs ih =>
    obtain ⟨k, v⟩ := x
    rw [List.map_cons]
    by_cases hk : k = name
    · have e : (if ((k, v).1 == name) = true then ((k, v).1, value) else (k, v))
          = (k, value) := by
        rw [if_pos (by simpa using hk)]
      rw [e]
      by_cases ho : other = k
      · have hb : (other == k) = true := by simpa using ho
        simp only [List.lookup, hb]
        rw [if_pos (ho.trans hk)]
        rfl
      · have hb : (other == k) = false := by simpa using ho
        simp only [List.lookup, hb]
        exact ih
    · have e : (if ((k, v).1 == name) = true then ((k, v).1, value) else (k, v))
          = (k, v) := by
        rw [if_neg (by simpa using hk)]
      rw [e]
      by_cases ho : other = k
      · have hb : (other == k) = true := by simpa using ho
        simp only [List.lookup, hb]
        rw [if_neg (fun h => hk (ho.symm.trans h))]
      · have hb : (other == k) = false := by simpa using ho
        simp only [List.lookup, hb]
        exact ih

/-- A name is found in a property list exactly if some entry carries it. -/
theorem lookup_isSome_iff_any (fields : List (String × JsonValue)) (name : String) :
    (fields.lookup name).isSome = fields.any (fun kv => kv.1 == name) := by
  induction fields with
  | nil => rfl
  | cons x xs ih =>
    obtain ⟨k, v⟩ := x
    by_cases hk : name = k
    · subst hk
      simp [List.lookup]
    · have hb : (name == k) = false := by simpa using hk
      have hb2 : (k == name) = false := by simpa using fun e => hk e.symm
      simp only [List.lookup, hb, List.any_cons, hb2, Bool.false_or, ih]

/-- Looking up a name at the end of a property list. -/
theorem lookup_append_singleton (fields : List (String × JsonValue)) (name other : String)
    (value : JsonValue) :
    (fields ++ [(name, value)]).lookup other
      = match fields.lookup other with
        | some v => some v
        | none => if other = name then some value else none := by
  induction fields with
  | nil =>
    by_cases ho : other = name
    · subst ho; simp [List.lookup]
    · have hb : (other == name) = false := by simpa using ho
      simp [List.lookup, hb, ho]
  | cons x xs ih =>
    obtain ⟨k, v⟩ := x
    by_cases ho : other = k
    · subst ho; simp [List.lookup]
    · have hb : (other == k) = false := by simpa using ho
      simp only [List.cons_append, List.lookup, hb]
      exact ih

/-- The property that was assigned has the assigned value. -/
theorem lookup_setField_same (fields : List (String × JsonValue)) (name : String)
    (value : JsonValue) : (setField fields name value).lookup name = some value := by
  unfold setField
  by_cases h : fields.any (fun kv => kv.1 == name) = true
  · rw [if_pos h, lookup_map_replace, if_pos rfl]
    rw [← lookup_isSome_iff_any] at h
    obtain ⟨v, hv⟩ := Option.isSome_iff_exists.mp h
    rw [hv]; rfl
  · rw [if_neg h, lookup_append_singleton]
    have hn : fields.lookup name = none := by
      rw [← lookup_isSome_iff_any] at h
      cases hl : fields.lookup name with
      | none => rfl
      | some v => rw [hl] at h; exact absurd rfl h
    rw [hn]
    simp

/-- Every other property is as it was. -/
theorem lookup_setField_other (fields : List (String × JsonValue)) (name other : String)
    (value : JsonValue) (hne : other ≠ name) :
    (setField fields name value).lookup other = fields.lookup other := by
  unfold setField
  by_cases h : fields.any (fun kv => kv.1 == name) = true
  · rw [if_pos h, lookup_map_replace, if_neg hne]
  · rw [if_neg h, lookup_append_singleton]
    cases fields.lookup other with
    | none => simp [hne]
    | some v => rfl

/-- The properties of the body sent on a hit. -/
theorem hitBody_getField (R : JsonValue) (nowIso : String) :
    (hitBody R nowIso).getField "cached" = some (.bool true)
    ∧ (hitBody R nowIso).getField "timestamp" = some (.str (codeUnits nowIso))
    ∧ (∀ name, name ≠ "cached" → name ≠ "timestamp" →
        (hitBody R nowIso).getField name = R.spread.lookup name) := by
  refine ⟨?_, ?_, ?_⟩
  · show (setField _ "timestamp" _).lookup "cached" = _
    rw [lookup_setField_other _ _ _ _ (by decide), lookup_setField_same]
  · show (setField _ "timestamp" _).lookup "timestamp" = _
    rw [lookup_setField_same]
  · intro name h1 h2
    show (setField _ "timestamp" _).lookup name = _
    rw [lookup_setField_other _ _ _ _ h2, lookup_setField_other _ _ _ _ h1]

/-- C11, as stated, fails: the derived key of `GET /daily?x=€` is not an
acceptable header value.  With a stored response under that key the middleware
sets `X-Cache-Status` to `HIT`, then `res.setHeader('X-Cache-Key', ...)` throws;
the `catch` block calls `next`, no header `X-Cache-Key` is set and nothing is
sent. -/
theorem cache_hit_invalid_key_calls_next :
    ((⟨0, [("metrics::daily:x=€", ⟨.str sampleText, some 300000⟩)]⟩ : Redis).find?
        (generateCacheKey (getRequest "/daily" [("x", "€")]))).isSome = true
    ∧ (getFromCache sampleCodec redis (generateCacheKey (getRequest "/daily" [("x", "€")]))
        ⟨0, [("metrics::daily:x=€", ⟨.str sampleText, some 300000⟩)]⟩).result.truthy = true
    ∧ (cacheMiddleware sampleCodec redis "2024-06-01T12:00:00.000Z"
        (getRequest "/daily" [("x", "€")]) Res.fresh
        ⟨0, [("metrics::daily:x=€", ⟨.str sampleText, some 300000⟩)]⟩).nextCalls = 1
    ∧ (cacheMiddleware sampleCodec redis "2024-06-01T12:00:00.000Z"
        (getRequest "/daily" [("x", "€")]) Res.fresh
        ⟨0, [("metrics::daily:x=€", ⟨.str sampleText, some 300000⟩)]⟩).res.getHeader
        "X-Cache-Key" = none
    ∧ (cacheMiddleware sampleCodec redis "2024-06-01T12:00:00.000Z"
        (getRequest "/daily" [("x", "€")]) Res.fresh
        ⟨0, [("metrics::daily:x=€", ⟨.str sampleText, some 300000⟩)]⟩).res.sent.isNone = true
    ∧ (cacheMiddleware sampleCodec redis "2024-06-01T12:00:00.000Z"
        (getRequest "/daily" [("x", "€")]) Res.fresh
        ⟨0, [("metrics::daily:x=€", ⟨.str sampleText, some 300000⟩)]⟩).res.getHeader
        "X-Cache-Status" = some (.str "HIT") :=
  ⟨rfl, rfl, rfl, rfl, rfl, rfl⟩

/-- C11, amended.  For every GET request whose derived key is an acceptable
header value and holds a stored response (a text that parses to a truthy
value, as every object is), the cache middleware answers with status 200, sets
`X-Cache-Status` to `HIT` and `X-Cache-Key` to the derived key, sends a body
marked `cached: true`, does not call `next`, does not install the caching
writer, and issues the one `get` of the lookup and no other store command. -/
theorem cache_hit_short_circuits {σ : Type} (JSON : JsonCodec) (client : RedisClient σ)
    (nowIso : String) (req : Request) (res : Res) (s s1 : σ) (text : String) (R : JsonValue)
    (hmethod : req.method = "GET")
    (hkey : (HeaderValue.str (generateCacheKey req)).valid = true)
    (hget : client.get (generateCacheKey req) s = (.ok (some text), s1))
    (hne : text ≠ "") (hparse : JSON.parse text = some R) (hR : R.truthy = true) :
    (cacheMiddleware JSON client nowIso req res s).res.statusCode = 200
    ∧ (cacheMiddleware JSON client nowIso req res s).res.getHeader "X-Cache-Status"
        = some (.str "HIT")
    ∧ (cacheMiddleware JSON client nowIso req res s).res.getHeader "X-Cache-Key"
        = some (.str (generateCacheKey req))
    ∧ (∃ body, (cacheMiddleware JSON client nowIso req res s).res.sent = some body
        ∧ body.getField "cached" = some (.bool true))
    ∧ (cacheMiddleware JSON client nowIso req res s).nextCalls = 0
    ∧ (cacheMiddleware JSON client nowIso req res s).wrapped = false
    ∧ (cacheMiddleware JSON client nowIso req res s).cmds = [.get (generateCacheKey req)]
    ∧ (cacheMiddleware JSON client nowIso req res s).store = s1 := by
  rw [cacheMiddleware_get JSON client nowIso req res s hmethod hkey,
    getFromCache_found JSON client _ s s1 text R hget hne hparse]
  rw [if_pos hR]
  refine ⟨rfl, ?_, ?_, ⟨hitBody R nowIso, rfl, (hitBody_getField R nowIso).1⟩, rfl, rfl, rfl, rfl⟩
  · rw [Res.getHeader_status_json, Res.getHeader_setHeader_ne _ _ _ _ (by decide),
      Res.getHeader_setHeader]
  · rw [Res.getHeader_status_json, Res.getHeader_setHeader]

/-- C11 amended, at a concrete run: the store holds the text of a successful
answer under the key of `/daily`. -/
theorem cache_hit_short_circuits_witness :
    (cacheMiddleware sampleCodec redis "2024-06-01T12:00:00.000Z" (getRequest "/daily" [])
        Res.fresh ⟨0, [("metrics::daily:default", ⟨.str sampleText, some 300000⟩)]⟩).res.statusCode
      = 200
    ∧ (cacheMiddleware sampleCodec redis "2024-06-01T12:00:00.000Z" (getRequest "/daily" [])
        Res.fresh ⟨0, [("metrics::daily:default", ⟨.str sampleText, some 300000⟩)]⟩).res.getHeader
        "X-Cache-Status" = some (.str "HIT")
    ∧ (cacheMiddleware sampleCodec redis "2024-06-01T12:00:00.000Z" (getRequest "/daily" [])
        Res.fresh ⟨0, [("metrics::daily:default", ⟨.str sampleText, some 300000⟩)]⟩).res.getHeader
        "X-Cache-Key" = some (.str "metrics::daily:default")
    ∧ (cacheMiddleware sampleCodec redis "2024-06-01T12:00:00.000Z" (getRequest "/daily" [])
        Res.fresh ⟨0, [("metrics::daily:default", ⟨.str sampleText, some 300000⟩)]⟩).nextCalls
      = 0
    ∧ (cacheMiddleware sampleCodec redis "2024-06-01T12:00:00.000Z" (getRequest "/daily" [])
        Res.fresh ⟨0, [("metrics::daily:default", ⟨.str sampleText, some 300000⟩)]⟩).cmds
      = [.get "metrics::daily:default"] :=
  have h := cache_hit_short_circuits sampleCodec redis "2024-06-01T12:00:00.000Z"
    (getRequest "/daily" []) Res.fresh
    ⟨0, [("metrics::daily:default", ⟨.str sampleText, some 300000⟩)]⟩
    ⟨0, [("metrics::daily:default", ⟨.str sampleText, some 300000⟩)]⟩
    sampleText sampleResponse rfl (by decide) rfl (by decide) rfl rfl
  ⟨h.1, h.2.1, h.2.2.1, h.2.2.2.2.1, h.2.2.2.2.2.2.1⟩

/-- C12, as stated, fails: the stored answer of `/daily` carries the time
stamp of its computation, and the body sent on a hit carries the time stamp of
the hit under the same name.  And for the stored answer under the key of
`GET /hourly?x=€`, which is not an acceptable header value, the middleware
sends no body at all. -/
theorem cache_hit_overwrites_timestamp :
    sampleResponse.getField "timestamp"
      = some (.str (codeUnits "2024-01-01T00:00:00.000Z"))
    ∧ ((cacheMiddleware sampleCodec redis "2024-06-01T12:00:00.000Z" (getRequest "/daily" [])
        Res.fresh ⟨0, [("metrics::daily:default", ⟨.str sampleText, some 300000⟩)]⟩).res.sent.bind
        (fun body => body.getField "timestamp"))
      = some (.str (codeUnits "2024-06-01T12:00:00.000Z"))
    ∧ (getFromCache sampleCodec redis (generateCacheKey (getRequest "/hourly" [("x", "€")]))
        ⟨0, [("metrics::hourly:x=€", ⟨.str sampleText, some 300000⟩)]⟩).result.truthy = true
    ∧ (cacheMiddleware sampleCodec redis "2024-06-01T12:00:00.000Z"
        (getRequest "/hourly" [("x", "€")]) Res.fresh
        ⟨0, [("metrics::hourly:x=€", ⟨.str sampleText, some 300000⟩)]⟩).res.sent.isNone = true
    ∧ ((cacheMiddleware sampleCodec redis "2024-06-01T12:00:00.000Z" (getRequest "/daily" [])
        Res.fresh ⟨0, [("metrics::daily:default", ⟨.str sampleText, some 300000⟩)]⟩).res.sent.bind
        (fun body => body.getField "timestamp")) ≠ sampleResponse.getField "timestamp" := by
  have h1 : sampleResponse.getField "timestamp"
      = some (.str (codeUnits "2024-01-01T00:00:00.000Z")) := rfl
  have h2 : ((cacheMiddleware sampleCodec redis "2024-06-01T12:00:00.000Z"
      (getRequest "/daily" []) Res.fresh
      ⟨0, [("metrics::daily:default", ⟨.str sampleText, some 300000⟩)]⟩).res.sent.bind
      (fun body => body.getField "timestamp"))
      = some (.str (codeUnits "2024-06-01T12:00:00.000Z")) := rfl
  refine ⟨h1, h2, rfl, rfl, ?_⟩
  rw [h1, h2]
  intro h
  have h3 := JsonValue.str.inj (Option.some.inj h)
  exact absurd h3 (by decide)

/-- C12, amended.  For every stored response object `R` under a derived key
that is an acceptable header value, the body sent on a hit has `cached` set to
`true` and `timestamp` set to the time of the hit, and agrees with `R` on every
other name: it has the property exactly if `R` has it, with the same value. -/
theorem cache_hit_body {σ : Type} (JSON : JsonCodec) (client : RedisClient σ)
    (nowIso : String) (req : Request) (res : Res) (s s1 : σ) (text : String)
    (fields : List (String × JsonValue))
    (hmethod : req.method = "GET")
    (hkey : (HeaderValue.str (generateCacheKey req)).valid = true)
    (hget : client.get (generateCacheKey req) s = (.ok (some text), s1))
    (hne : text ≠ "") (hparse : JSON.parse text = some (.obj fields)) :
    ∃ body, (cacheMiddleware JSON client nowIso req res s).res.sent = some body
      ∧ body.getField "cached" = some (.bool true)
      ∧ body.getField "timestamp" = some (.str (codeUnits nowIso))
      ∧ (∀ name, name ≠ "cached" → name ≠ "timestamp" →
          body.getField name = fields.lookup name) := by
  have hsent : (cacheMiddleware JSON client nowIso req res s).res.sent
      = some (hitBody (.obj fields) nowIso) := by
    rw [cacheMiddleware_get JSON client nowIso req res s hmethod hkey,
      getFromCache_found JSON client _ s s1 text (.obj fields) hget hne hparse]
    rfl
  obtain ⟨h1, h2, h3⟩ := hitBody_getField (.obj fields) nowIso
  exact ⟨_, hsent, h1, h2, h3⟩

/-- C12 amended, at a concrete run: the stored answer of `/daily`; the name
`success` is carried over with its value `true`, and so is `count`. -/
theorem cache_hit_body_witness :
    ∃ body, (cacheMiddleware sampleCodec redis "2024-06-01T12:00:00.000Z"
        (getRequest "/daily" []) Res.fresh
        ⟨0, [("metrics::daily:default", ⟨.str sampleText, some 300000⟩)]⟩).res.sent = some body
      ∧ body.getField "cached" = some (.bool true)
      ∧ body.getField "timestamp" = some (.str (codeUnits "2024-06-01T12:00:00.000Z"))
      ∧ body.getField "success" = some (.bool true)
      ∧ body.getField "count" = some (.num 0) :=
  have h := cache_hit_body sampleCodec redis "2024-06-01T12:00:00.000Z"
    (getRequest "/daily" []) Res.fresh
    ⟨0, [("metrics::daily:default", ⟨.str sampleText, some 300000⟩)]⟩
    ⟨0, [("metrics::daily:default", ⟨.str sampleText, some 300000⟩)]⟩
    sampleText
    [("success", .bool true), ("data", .arr []), ("count", .num 0),
     ("timestamp", .str (codeUnits "2024-01-01T00:00:00.000Z")), ("cached", .bool false)]
    rfl (by decide) rfl (by decide) rfl
  h.elim fun body hb =>
    ⟨body, hb.1, hb.2.1, hb.2.2.1,
      (hb.2.2.2 "success" (by decide) (by decide)).trans rfl,
      (hb.2.2.2 "count" (by decide) (by decide)).trans rfl⟩

/-- A key that is absent stays absent as time passes. -/
theorem Redis.find?_advance_none (s : Redis) (key : String) (d : Nat)
    (h : s.find? key = none) : (s.advance d).find? key = none := by
  unfold Redis.find? at h ⊢
  simp only [Redis.advance]
  split at h
  · rename_i e he
    by_cases hl : e.live s.now
    · rw [if_pos hl] at h; cases h
    · have hl2 : ¬ e.live (s.now + d) = true := by
        cases hx : e.expireAt with
        | none => simp [Entry.live, hx] at hl
        | some t =>
          simp only [Entry.live, hx, decide_eq_true_eq] at hl ⊢
          omega
      rw [if_neg hl2]
  · rfl

/-- The caching writer when the status is 200 and the `success` property of
the output is truthy: it starts the write and hands the output on. -/
theorem wrappedJson_success {σ : Type} (JSON : JsonCodec) (client : RedisClient σ)
    (cacheTtl : Option Int) (key : String) (res : Res) (data : JsonValue) (s : σ)
    (hstatus : res.statusCode = 200) (hsucc : truthyOpt (data.getField "success") = true) :
    wrappedJson JSON client cacheTtl key res data s
      = .ok { store := (setInCache JSON client (cacheTtl.getD 300) key data cacheTtl s).store,
              cmds := (setInCache JSON client (cacheTtl.getD 300) key data cacheTtl s).cmds,
              res := res.json data, sends := [data],
              errors := (setInCache JSON client (cacheTtl.getD 300) key data cacheTtl s).errors } := by
  cases data with
  | null => simp [JsonValue.getField, truthyOpt] at hsucc
  | bool b => simp [JsonValue.getField, truthyOpt] at hsucc
  | num n => simp [JsonValue.getField, truthyOpt] at hsucc
  | str t => simp [JsonValue.getField, truthyOpt] at hsucc
  | arr items => simp [JsonValue.getField, truthyOpt] at hsucc
  | obj fields => simp only [wrappedJson, hstatus, if_true, readSuccess, hsucc]

/-- The caching writer when the status is not 200 or the `success` property
of the output is not truthy: if it returns, it has issued no store command and
handed the output on. -/
theorem wrappedJson_no_success {σ : Type} (JSON : JsonCodec) (client : RedisClient σ)
    (cacheTtl : Option Int) (key : String) (res : Res) (data : JsonValue) (s : σ)
    (w : WriterCall σ)
    (hnot : ¬ (res.statusCode = 200 ∧ truthyOpt (data.getField "success") = true))
    (hw : wrappedJson JSON client cacheTtl key res data s = .ok w) :
    w = { store := s, cmds := [], res := res.json data, sends := [data], errors := [] } := by
  unfold wrappedJson at hw
  by_cases hstatus : res.statusCode = 200
  · have hsucc : truthyOpt (data.getField "success") = false := by
      cases h : truthyOpt (data.getField "success") with
      | false => rfl
      | true => exact absurd ⟨hstatus, h⟩ hnot
    rw [if_pos hstatus] at hw
    cases data with
    | null => simp [readSuccess] at hw
    | bool b => simpa [readSuccess, hsucc] using hw.symm
    | num n => simpa [readSuccess, hsucc] using hw.symm
    | str t => simpa [readSuccess, hsucc] using hw.symm
    | arr items => simpa [readSuccess, hsucc] using hw.symm
    | obj fields => simpa [readSuccess, hsucc] using hw.symm
  · rw [if_neg hstatus] at hw
    simpa using hw.symm

/-- The commands of `setInCache`: one write of the text of the value under the
key. -/
theorem setInCache_cmds {σ : Type} (JSON : JsonCodec) (client : RedisClient σ)
    (defaultTtl : Int) (key : String) (value : JsonValue) (ttl : Option Int) (s : σ) :
    (setInCache JSON client defaultTtl key value ttl s).cmds
      = [.setEx key (ttlOrDefault ttl defaultTtl) (JSON.stringify value)] := by
  unfold setInCache
  rcases h : client.setEx key (ttlOrDefault ttl defaultTtl) (JSON.stringify value) s with ⟨r, s1⟩
  cases r <;> simp [h]

/-- The run of the cache middleware on a GET request whose lookup gives
`null`: the miss path.  Whatever the derived key, the header `X-Cache-Status`
is `MISS`, `next` is called once and nothing is sent; if the key is an
acceptable header value, the header `X-Cache-Key` carries it and the caching
writer is installed. -/
theorem cacheMiddleware_miss {σ : Type} (JSON : JsonCodec) (client : RedisClient σ)
    (nowIso : String) (req : Request) (res : Res) (s : σ) (hmethod : req.method = "GET")
    (hnull : (getFromCache JSON client (generateCacheKey req) s).result = .null) :
    (cacheMiddleware JSON client nowIso req res s).res.getHeader "X-Cache-Status"
        = some (.str "MISS")
    ∧ (cacheMiddleware JSON client nowIso req res s).nextCalls = 1
    ∧ (cacheMiddleware JSON client nowIso req res s).res.sent = res.sent
    ∧ (cacheMiddleware JSON client nowIso req res s).res.statusCode = res.statusCode
    ∧ (cacheMiddleware JSON client nowIso req res s).cmds
        = (getFromCache JSON client (generateCacheKey req) s).cmds
    ∧ (cacheMiddleware JSON client nowIso req res s).store
        = (getFromCache JSON client (generateCacheKey req) s).store
    ∧ ((HeaderValue.str (generateCacheKey req)).valid = true →
        (cacheMiddleware JSON client nowIso req res s).res.getHeader "X-Cache-Key"
          = some (.str (generateCacheKey req))
        ∧ (cacheMiddleware JSON client nowIso req res s).wrapped = true) := by
  have hfalse : JsonValue.null.truthy = false := rfl
  cases hv : (HeaderValue.str (generateCacheKey req)).valid with
  | true =>
    rw [cacheMiddleware_get JSON client nowIso req res s hmethod hv, hnull]
    simp only [hfalse]
    refine ⟨?_, rfl, rfl, rfl, rfl, rfl, fun _ => ⟨?_, rfl⟩⟩
    · show ((res.setHeader "X-Cache-Status" (.str "MISS")).setHeader "X-Cache-Key" _).getHeader _
        = _
      rw [Res.getHeader_setHeader_ne _ _ _ _ (by decide), Res.getHeader_setHeader]
    · show ((res.setHeader "X-Cache-Status" (.str "MISS")).setHeader "X-Cache-Key" _).getHeader _
        = _
      rw [Res.getHeader_setHeader]
  | false =>
    rw [cacheMiddleware_get_invalid JSON client nowIso req res s hmethod hv, hnull]
    simp only [hfalse]
    refine ⟨?_, rfl, rfl, rfl, rfl, rfl, fun h => absurd h (by simp)⟩
    show (res.setHeader "X-Cache-Status" (.str "MISS")).getHeader _ = _
    rw [Res.getHeader_setHeader]

/-- The lookup of the cache middleware on a working store that has no live
record under the derived key: a miss. -/
theorem cacheMiddleware_absent (JSON : JsonCodec) (nowIso : String) (req : Request) (res : Res)
    (s : Redis) (hmethod : req.method = "GET") (h : s.find? (generateCacheKey req) = none) :
    (cacheMiddleware JSON redis nowIso req res s).nextCalls = 1
    ∧ (cacheMiddleware JSON redis nowIso req res s).res.getHeader "X-Cache-Status"
        = some (.str "MISS")
    ∧ (cacheMiddleware JSON redis nowIso req res s).res.sent = res.sent := by
  have hnull := getFromCache_absent JSON (generateCacheKey req) s h
  obtain ⟨h1, h2, h3, _⟩ := cacheMiddleware_miss JSON redis nowIso req res s hmethod hnull
  exact ⟨h2, h1, h3⟩

/-- C13. Store only on success.  Over every store client, the caching writer
issues a store command exactly if the status is 200 and the `success` property
of the output is truthy, and then it is the one write of the text of that
output under the derived key; otherwise, if it returns, the store is as it
was.  On a working store a key that was absent then stays absent, and a later
GET request with that key is a miss; whereas an output that signals success is
found under the key (for a positive time to live). -/
theorem store_only_on_success {σ : Type} (JSON : JsonCodec) (client : RedisClient σ)
    (cacheTtl : Option Int) (key : String) (res : Res) (data : JsonValue) (s : σ) :
    ((∃ w, wrappedJson JSON client cacheTtl key res data s = .ok w ∧ w.cmds ≠ [])
        ↔ (res.statusCode = 200 ∧ truthyOpt (data.getField "success") = true))
    ∧ (res.statusCode = 200 → truthyOpt (data.getField "success") = true →
        ∃ w, wrappedJson JSON client cacheTtl key res data s = .ok w
          ∧ w.cmds = [.setEx key (ttlOrDefault cacheTtl (cacheTtl.getD 300))
              (JSON.stringify data)])
    ∧ (¬ (res.statusCode = 200 ∧ truthyOpt (data.getField "success") = true) →
        ∀ w, wrappedJson JSON client cacheTtl key res data s = .ok w →
          w.cmds = [] ∧ w.store = s)
    ∧ (¬ (res.statusCode = 200 ∧ truthyOpt (data.getField "success") = true) →
        ∀ (s0 : Redis) (w : WriterCall Redis) (req : Request) (nowIso : String) (res2 : Res)
          (d : Nat), req.method = "GET" → generateCacheKey req = key → s0.find? key = none →
          wrappedJson JSON redis cacheTtl key res data s0 = .ok w →
          (w.store.advance d).find? key = none
          ∧ (cacheMiddleware JSON redis nowIso req res2 (w.store.advance d)).nextCalls = 1
          ∧ (cacheMiddleware JSON redis nowIso req res2 (w.store.advance d)).res.getHeader
              "X-Cache-Status" = some (.str "MISS"))
    ∧ (res.statusCode = 200 → truthyOpt (data.getField "success") = true →
        ∀ (s0 : Redis) (T : Int), cacheTtl = some T → 0 < T →
          ∃ w, wrappedJson JSON redis cacheTtl key res data s0 = .ok w
            ∧ w.store.find? key
              = some ⟨.str (JSON.stringify data), some (s0.now + T.toNat * 1000)⟩) := by
  refine ⟨⟨?_, ?_⟩, ?_, ?_, ?_, ?_⟩
  · rintro ⟨w, hw, hcmds⟩
    by_contra hnot
    have := wrappedJson_no_success JSON client cacheTtl key res data s w hnot hw
    rw [this] at hcmds
    exact hcmds rfl
  · rintro ⟨hstatus, hsucc⟩
    refine ⟨_, wrappedJson_success JSON client cacheTtl key res data s hstatus hsucc, ?_⟩
    show (setInCache JSON client (cacheTtl.getD 300) key data cacheTtl s).cmds ≠ []
    rw [setInCache_cmds]
    exact List.cons_ne_nil _ _
  · intro hstatus hsucc
    exact ⟨_, wrappedJson_success JSON client cacheTtl key res data s hstatus hsucc,
      setInCache_cmds JSON client _ key data cacheTtl s⟩
  · intro hnot w hw
    rw [wrappedJson_no_success JSON client cacheTtl key res data s w hnot hw]
    exact ⟨rfl, rfl⟩
  · intro hnot s0 w req nowIso res2 d hmethod hkey habsent hw
    rw [wrappedJson_no_success JSON redis cacheTtl key res data s0 w hnot hw]
    have hgone : (s0.advance d).find? key = none := Redis.find?_advance_none s0 key d habsent
    refine ⟨hgone, ?_⟩
    rw [← hkey] at hgone
    obtain ⟨h1, h2, _⟩ := cacheMiddleware_absent JSON nowIso req res2 (s0.advance d) hmethod hgone
    exact ⟨h1, h2⟩
  · intro hstatus hsucc s0 T hT hpos
    subst hT
    refine ⟨_, wrappedJson_success JSON redis (some T) key res data s0 hstatus hsucc, ?_⟩
    obtain ⟨_, hstore⟩ := setInCache_ok JSON ((some T).getD 300) key data T s0 hpos
    show (setInCache JSON redis ((some T).getD 300) key data (some T) s0).store.find? key = _
    rw [hstore, Redis.find?_put]
    have : Entry.live ⟨.str (JSON.stringify data), some (s0.now + T.toNat * 1000)⟩ s0.now
        = true := by
      simp only [Entry.live, decide_eq_true_eq]
      omega
    rw [if_pos this]

/-- C13, at a concrete run: the answer of the error handler to a bad date,
status 400 and `success: false`, on an empty store; nothing is written and the
next GET of the key is a miss. -/
theorem store_only_on_success_witness :
    (Redis.empty.advance 1000).find? "metrics::daily:start_date=bad" = none
    ∧ (cacheMiddleware sampleCodec redis "2024-06-01T12:00:00.000Z"
        (getRequest "/daily" [("start_date", "bad")]) Res.fresh
        (Redis.empty.advance 1000)).nextCalls = 1
    ∧ (cacheMiddleware sampleCodec redis "2024-06-01T12:00:00.000Z"
        (getRequest "/daily" [("start_date", "bad")]) Res.fresh
        (Redis.empty.advance 1000)).res.getHeader "X-Cache-Status" = some (.str "MISS") :=
  (store_only_on_success sampleCodec redis none "metrics::daily:start_date=bad"
    (Res.fresh.status 400)
    (.obj [("success", .bool false),
           ("error", .obj [("message", .str (codeUnits "Invalid start_date format. Use YYYY-MM-DD")),
                           ("statusCode", .num 400)])])
    Redis.empty).2.2.2.1 (by decide) Redis.empty
    { store := Redis.empty, cmds := [], res := (Res.fresh.status 400).json
        (.obj [("success", .bool false),
           ("error", .obj [("message", .str (codeUnits "Invalid start_date format. Use YYYY-MM-DD")),
                           ("statusCode", .num 400)])]),
      sends := [.obj [("success", .bool false),
           ("error", .obj [("message", .str (codeUnits "Invalid start_date format. Use YYYY-MM-DD")),
                           ("statusCode", .num 400)])]], errors := [] }
    (getRequest "/daily" [("start_date", "bad")]) "2024-06-01T12:00:00.000Z" Res.fresh 1000
    rfl (by decide) rfl rfl

/-- `getFromCache` when the store fails, returns nothing, or returns a text
that does not parse: `null`, after the one `get`. -/
theorem getFromCache_null {σ : Type} (JSON : JsonCodec) (client : RedisClient σ)
    (key : String) (s : σ)
    (h : (∃ err s1, client.get key s = (.error err, s1))
      ∨ (∃ s1, client.get key s = (.ok none, s1))
      ∨ (∃ text s1, client.get key s = (.ok (some text), s1) ∧ JSON.parse text = none)) :
    (getFromCache JSON client key s).result = .null
    ∧ (getFromCache JSON client key s).cmds = [.get key]
    ∧ (getFromCache JSON client key s).store = (client.get key s).2 := by
  rcases h with ⟨err, s1, hget⟩ | ⟨s1, hget⟩ | ⟨text, s1, hget, hparse⟩
  · simp [getFromCache, hget]
  · simp [getFromCache, hget, truthy]
  · by_cases ht : truthy (some text) = true
    · simp [getFromCache, hget, ht, render, hparse]
    · simp [getFromCache, hget, ht]

/-- C14, as stated, fails: the derived key of `GET /daily?x=€` is not an
acceptable header value.  On a lookup that finds nothing the middleware sets
`X-Cache-Status` to `MISS`, then `res.setHeader('X-Cache-Key', ...)` throws; the
`catch` block calls `next`, but no header `X-Cache-Key` is set, `req.cached` is
not assigned and the caching writer is not installed. -/
theorem cache_miss_invalid_key_sets_no_key :
    (getFromCache sampleCodec redis (generateCacheKey (getRequest "/daily" [("x", "€")]))
        Redis.empty).result = .null
    ∧ (cacheMiddleware sampleCodec redis "2024-06-01T12:00:00.000Z"
        (getRequest "/daily" [("x", "€")]) Res.fresh Redis.empty).res.getHeader
        "X-Cache-Status" = some (.str "MISS")
    ∧ (cacheMiddleware sampleCodec redis "2024-06-01T12:00:00.000Z"
        (getRequest "/daily" [("x", "€")]) Res.fresh Redis.empty).res.getHeader
        "X-Cache-Key" = none
    ∧ (cacheMiddleware sampleCodec redis "2024-06-01T12:00:00.000Z"
        (getRequest "/daily" [("x", "€")]) Res.fresh Redis.empty).nextCalls = 1
    ∧ (cacheMiddleware sampleCodec redis "2024-06-01T12:00:00.000Z"
        (getRequest "/daily" [("x", "€")]) Res.fresh Redis.empty).reqCached = none
    ∧ (cacheMiddleware sampleCodec redis "2024-06-01T12:00:00.000Z"
        (getRequest "/daily" [("x", "€")]) Res.fresh Redis.empty).wrapped = false
    ∧ (cacheMiddleware sampleCodec redis "2024-06-01T12:00:00.000Z"
        (getRequest "/daily" [("x", "€")]) Res.fresh Redis.empty).errors.length = 1 :=
  ⟨rfl, rfl, rfl, rfl, rfl, rfl, rfl⟩

/-- C14, amended.  `getFromCache`, a total function, returns `null` when the
`get` of the store fails, when the key is absent and when the stored text does
not parse; in each of these cases the cache middleware, for a GET request, sets
`X-Cache-Status` to `MISS`, calls `next` once and sends nothing itself; and if
the derived key is an acceptable header value it sets `X-Cache-Key` to the
derived key, installs the caching writer and logs no error beyond the one of
the lookup. -/
theorem cache_lookup_fail_open {σ : Type} (JSON : JsonCodec) (client : RedisClient σ)
    (nowIso : String) (req : Request) (res : Res) (s : σ) (hmethod : req.method = "GET")
    (h : (∃ err s1, client.get (generateCacheKey req) s = (.error err, s1))
      ∨ (∃ s1, client.get (generateCacheKey req) s = (.ok none, s1))
      ∨ (∃ text s1, client.get (generateCacheKey req) s = (.ok (some text), s1)
          ∧ JSON.parse text = none)) :
    (getFromCache JSON client (generateCacheKey req) s).result = .null
    ∧ (cacheMiddleware JSON client nowIso req res s).res.getHeader "X-Cache-Status"
        = some (.str "MISS")
    ∧ (cacheMiddleware JSON client nowIso req res s).nextCalls = 1
    ∧ (cacheMiddleware JSON client nowIso req res s).res.sent = res.sent
    ∧ (cacheMiddleware JSON client nowIso req res s).res.statusCode = res.statusCode
    ∧ ((HeaderValue.str (generateCacheKey req)).valid = true →
        (cacheMiddleware JSON client nowIso req res s).res.getHeader "X-Cache-Key"
          = some (.str (generateCacheKey req))
        ∧ (cacheMiddleware JSON client nowIso req res s).wrapped = true
        ∧ (cacheMiddleware JSON client nowIso req res s).errors
          = (getFromCache JSON client (generateCacheKey req) s).errors) := by
  obtain ⟨hnull, _, _⟩ := getFromCache_null JSON client (generateCacheKey req) s h
  obtain ⟨h1, h2, h3, h4, _, _, h7⟩ :=
    cacheMiddleware_miss JSON client nowIso req res s hmethod hnull
  refine ⟨hnull, h1, h2, h3, h4, fun hv => ⟨(h7 hv).1, (h7 hv).2, ?_⟩⟩
  rw [cacheMiddleware_get JSON client nowIso req res s hmethod hv, hnull]
  rfl

/-- C14 amended, at a concrete run: the store rejects every `get`. -/
theorem cache_lookup_fail_open_witness :
    (getFromCache sampleCodec (faultyRedis (fun c => c == .get "metrics::daily:default"))
        (generateCacheKey (getRequest "/daily" [])) Redis.empty).result = .null
    ∧ (cacheMiddleware sampleCodec (faultyRedis (fun c => c == .get "metrics::daily:default"))
        "2024-06-01T12:00:00.000Z" (getRequest "/daily" []) Res.fresh
        Redis.empty).res.getHeader "X-Cache-Status" = some (.str "MISS")
    ∧ (cacheMiddleware sampleCodec (faultyRedis (fun c => c == .get "metrics::daily:default"))
        "2024-06-01T12:00:00.000Z" (getRequest "/daily" []) Res.fresh
        Redis.empty).nextCalls = 1
    ∧ (cacheMiddleware sampleCodec (faultyRedis (fun c => c == .get "metrics::daily:default"))
        "2024-06-01T12:00:00.000Z" (getRequest "/daily" []) Res.fresh
        Redis.empty).res.getHeader "X-Cache-Key" = some (.str "metrics::daily:default")
    ∧ (cacheMiddleware sampleCodec (faultyRedis (fun c => c == .get "metrics::daily:default"))
        "2024-06-01T12:00:00.000Z" (getRequest "/daily" []) Res.fresh
        Redis.empty).wrapped = true :=
  have h := cache_lookup_fail_open sampleCodec
    (faultyRedis (fun c => c == .get "metrics::daily:default")) "2024-06-01T12:00:00.000Z"
    (getRequest "/daily" []) Res.fresh Redis.empty rfl
    (Or.inl ⟨"store unavailable", Redis.empty, rfl⟩)
  ⟨h.1, h.2.1, h.2.2.1, (h.2.2.2.2.2 (by decide)).1, (h.2.2.2.2.2 (by decide)).2.1⟩

/-- C15, as stated, fails: the store holds the text `data1`, which does not
parse, under the key of `/daily`; the lookup is a miss, and after it the
record is still there. -/
theorem corrupt_entry_survives_lookup :
    literalCodec.parse "data1" = none
    ∧ (cacheMiddleware literalCodec redis "2024-06-01T12:00:00.000Z" (getRequest "/daily" [])
        Res.fresh ⟨0, [("metrics::daily:default", ⟨.str "data1", none⟩)]⟩).nextCalls = 1
    ∧ (cacheMiddleware literalCodec redis "2024-06-01T12:00:00.000Z" (getRequest "/daily" [])
        Res.fresh ⟨0, [("metrics::daily:default", ⟨.str "data1", none⟩)]⟩).store.find?
          "metrics::daily:default" = some ⟨.str "data1", none⟩ := by
  refine ⟨rfl, rfl, rfl⟩

/-- C15, amended.  For every key whose stored text cannot be deserialized, a
lookup of that key by the cache middleware is a miss (`MISS` header, `next`
called once, nothing sent), and the lookup issues the one `get` and no delete;
on a working store the store is after the lookup exactly as before, the corrupt
record included. -/
theorem corrupt_entry_is_miss {σ : Type} (JSON : JsonCodec) (client : RedisClient σ)
    (nowIso : String) (req : Request) (res : Res) (s s1 : σ) (text : String)
    (hmethod : req.method = "GET")
    (hget : client.get (generateCacheKey req) s = (.ok (some text), s1))
    (hparse : JSON.parse text = none) :
    (cacheMiddleware JSON client nowIso req res s).res.getHeader "X-Cache-Status"
        = some (.str "MISS")
    ∧ (cacheMiddleware JSON client nowIso req res s).nextCalls = 1
    ∧ (cacheMiddleware JSON client nowIso req res s).res.sent = res.sent
    ∧ (cacheMiddleware JSON client nowIso req res s).cmds = [.get (generateCacheKey req)]
    ∧ (cacheMiddleware JSON client nowIso req res s).store = s1
    ∧ (∀ (s0 : Redis) (nowIso2 : String) (res2 : Res),
        (cacheMiddleware JSON redis nowIso2 req res2 s0).store = s0) := by
  have h : (∃ err s1, client.get (generateCacheKey req) s = (.error err, s1))
      ∨ (∃ s1, client.get (generateCacheKey req) s = (.ok none, s1))
      ∨ (∃ text s1, client.get (generateCacheKey req) s = (.ok (some text), s1)
          ∧ JSON.parse text = none) := Or.inr (Or.inr ⟨text, s1, hget, hparse⟩)
  obtain ⟨hnull, hcmds, hstore⟩ := getFromCache_null JSON client (generateCacheKey req) s h
  obtain ⟨h1, h3, h5, _, h7, h8, _⟩ :=
    cacheMiddleware_miss JSON client nowIso req res s hmethod hnull
  refine ⟨h1, h3, h5, by rw [h7, hcmds], by rw [h8, hstore, hget], ?_⟩
  intro s0 nowIso2 res2
  have hs : (getFromCache JSON redis (generateCacheKey req) s0).store = s0 := by
    have hg : (redis.get (generateCacheKey req) s0).2 = s0 := by
      show (Redis.get _ s0).2 = s0
      unfold Redis.get
      split <;> rfl
    unfold getFromCache
    rcases hr : redis.get (generateCacheKey req) s0 with ⟨r, s2⟩
    rw [hr] at hg
    simp only at hg
    subst hg
    cases r with
    | error e => rfl
    | ok data =>
      simp only
      split
      · split <;> rfl
      · rfl
  cases hv : (HeaderValue.str (generateCacheKey req)).valid with
  | true =>
    rw [cacheMiddleware_get JSON redis nowIso2 req res2 s0 hmethod hv]
    split <;> exact hs
  | false =>
    rw [cacheMiddleware_get_invalid JSON redis nowIso2 req res2 s0 hmethod hv]
    split <;> exact hs

/-- C15 amended, at a concrete run: the text `data1` under the key of
`/daily`. -/
theorem corrupt_entry_is_miss_witness :
    (cacheMiddleware literalCodec redis "2024-06-01T12:00:00.000Z" (getRequest "/daily" [])
        Res.fresh ⟨0, [("metrics::daily:default", ⟨.str "data1", none⟩)]⟩).nextCalls = 1
    ∧ (cacheMiddleware literalCodec redis "2024-06-01T12:00:00.000Z" (getRequest "/daily" [])
        Res.fresh ⟨0, [("metrics::daily:default", ⟨.str "data1", none⟩)]⟩).cmds
      = [.get (generateCacheKey (getRequest "/daily" []))] :=
  have h := corrupt_entry_is_miss literalCodec redis "2024-06-01T12:00:00.000Z"
    (getRequest "/daily" []) Res.fresh
    ⟨0, [("metrics::daily:default", ⟨.str "data1", none⟩)]⟩
    ⟨0, [("metrics::daily:default", ⟨.str "data1", none⟩)]⟩ "data1" rfl rfl rfl
  ⟨h.2.1, h.2.2.2.1⟩

/-- C19, as stated, fails: called with `null` at status 200, the caching
writer throws on reading `data.success` and hands nothing to the original
`res.json`. -/
theorem wrappedJson_null_throws :
    Res.fresh.statusCode = 200
    ∧ wrappedJson sampleCodec redis none "metrics::daily:default" Res.fresh .null Redis.empty
      = .error "TypeError: Cannot read properties of null (reading 'success')" :=
  ⟨rfl, rfl⟩

/-- C19, amended.  For every output other than `null`, and for `null` too when
the status is not 200, the caching writer returns without throwing, hands that
same output to the original `res.json` exactly once and returns its result,
over every store client: whether the write to the store is skipped, succeeds
or fails. -/
theorem wrappedJson_passes_output {σ : Type} (JSON : JsonCodec) (client : RedisClient σ)
    (cacheTtl : Option Int) (key : String) (res : Res) (data : JsonValue) (s : σ)
    (hdata : data ≠ .null ∨ res.statusCode ≠ 200) :
    ∃ w, wrappedJson JSON client cacheTtl key res data s = .ok w
      ∧ w.sends = [data] ∧ w.res = res.json data := by
  by_cases hcond : res.statusCode = 200 ∧ truthyOpt (data.getField "success") = true
  · exact ⟨_, wrappedJson_success JSON client cacheTtl key res data s hcond.1 hcond.2, rfl, rfl⟩
  · have hok : ∃ w, wrappedJson JSON client cacheTtl key res data s = .ok w := by
      unfold wrappedJson
      by_cases hstatus : res.statusCode = 200
      · rw [if_pos hstatus]
        cases data with
        | null =>
          rcases hdata with h | h
          · exact absurd rfl h
          · exact absurd hstatus h
        | bool b => simp only [readSuccess]; split <;> exact ⟨_, rfl⟩
        | num n => simp only [readSuccess]; split <;> exact ⟨_, rfl⟩
        | str t => simp only [readSuccess]; split <;> exact ⟨_, rfl⟩
        | arr items => simp only [readSuccess]; split <;> exact ⟨_, rfl⟩
        | obj fields => simp only [readSuccess]; split <;> exact ⟨_, rfl⟩
      · rw [if_neg hstatus]
        exact ⟨_, rfl⟩
    obtain ⟨w, hw⟩ := hok
    have := wrappedJson_no_success JSON client cacheTtl key res data s w hcond hw
    exact ⟨w, hw, by rw [this], by rw [this]⟩

/-- C19 amended, at a concrete run: a successful answer at status 200 on a
store that rejects every write. -/
theorem wrappedJson_passes_output_witness :
    ∃ w, wrappedJson sampleCodec (faultyRedis (fun _ => true)) none "metrics::daily:default"
        Res.fresh sampleResponse Redis.empty = .ok w
      ∧ w.sends = [sampleResponse] ∧ w.res = Res.fresh.json sampleResponse :=
  wrappedJson_passes_output sampleCodec (faultyRedis (fun _ => true)) none
    "metrics::daily:default" Res.fresh sampleResponse Redis.empty
    (Or.inl (by intro h; cases h))

/-- Erasing one key does not touch the record of another. -/
theorem Redis.find?_erase_ne (s : Redis) (key k : String) (h : k ≠ key) :
    (s.erase key).find? k = s.find? k := by
  have hl : List.lookup k (s.entries.filter (fun kv => kv.1 != key)) = List.lookup k s.entries := by
    induction s.entries with
    | nil => rfl
    | cons x xs ih =>
      obtain ⟨k2, e⟩ := x
      by_cases hk : k2 = key
      · have hb : (k2 != key) = false := by simp [hk]
        have hb2 : (k == k2) = false := by simpa [hk] using h
        simp only [List.filter, hb, List.lookup, hb2]
        exact ih
      · have hb : (k2 != key) = true := by simpa using hk
        simp only [List.filter, hb, List.lookup]
        cases k == k2
        · exact ih
        · rfl
  simp only [Redis.find?, Redis.erase, hl]

/-- After a run of erasures a key is absent if it was erased and as before
otherwise. -/
theorem Redis.find?_foldl_erase (keys : List String) :
    ∀ (s : Redis) (k : String),
      (keys.foldl (fun acc key => acc.erase key) s).find? k
        = if k ∈ keys then none else s.find? k := by
  induction keys with
  | nil => intro s k; simp
  | cons key rest ih =>
    intro s k
    rw [List.foldl_cons, ih]
    by_cases hr : k ∈ rest
    · rw [if_pos hr, if_pos (List.mem_cons_of_mem _ hr)]
    · rw [if_neg hr]
      by_cases hk : k = key
      · subst hk
        rw [if_pos (List.mem_cons_self _ _), Redis.find?_erase]
      · rw [if_neg (by simpa [hk] using hr), Redis.find?_erase_ne _ _ _ hk]

/-- A key that a lookup finds is among the keys of the list. -/
theorem mem_keys_of_lookup_entry (entries : List (String × Entry)) (k : String) (e : Entry)
    (h : entries.lookup k = some e) : k ∈ entries.map Prod.fst := by
  induction entries with
  | nil => cases h
  | cons x xs ih =>
    obtain ⟨k2, e2⟩ := x
    by_cases hk : k = k2
    · subst hk; exact List.mem_cons_self _ _
    · have hb : (k == k2) = false := by simpa using hk
      simp only [List.lookup, hb] at h
      exact List.mem_cons_of_mem _ (ih h)

/-- A key with a live record is among the keys of the store. -/
theorem Redis.mem_keys_of_find? (s : Redis) (k : String) (h : (s.find? k).isSome = true) :
    k ∈ s.entries.map Prod.fst := by
  cases hl : s.entries.lookup k with
  | some e => exact mem_keys_of_lookup_entry _ _ _ hl
  | none =>
    simp only [Redis.find?, hl] at h
    cases h

/-- The live keys are the keys under which a record is found, each once. -/
theorem Redis.mem_liveKeys (s : Redis) (k : String) :
    k ∈ s.liveKeys ↔ (s.find? k).isSome = true := by
  unfold Redis.liveKeys
  rw [List.mem_filter, List.mem_dedup]
  exact ⟨fun h => h.2, fun h => ⟨Redis.mem_keys_of_find? s k h, h⟩⟩

/-- What the error handler answers to a plain `Error`: 400 if the message
contains `Invalid`, 500 otherwise, and `success: false` either way. -/
theorem errorHandler_plain (message : String) (res : Res) :
    (errorHandler { message := message, api := none } res).statusCode
        = (if message != "" && includes message "Invalid" then 400 else 500)
    ∧ ((errorHandler { message := message, api := none } res).sent.bind
        (fun body => body.getField "success")) = some (.bool false) := by
  unfold errorHandler
  simp only
  split <;> exact ⟨rfl, rfl⟩

/-- The two format errors of `sanitizeQueryParams` are answered with 400. -/
theorem metricsRoute_format_error
    (getMetrics : Option String → Option String → List JsonValue) (nowIso : String)
    (reqCached : Option Bool) (query : List (String × String)) (res : Res)
    (h : sanitizeQueryParams query = .error "Invalid start_date format. Use YYYY-MM-DD"
      ∨ sanitizeQueryParams query = .error "Invalid end_date format. Use YYYY-MM-DD") :
    (metricsRoute getMetrics nowIso reqCached query res).statusCode = 400 := by
  unfold metricsRoute
  rcases h with h | h
  · rw [h]
    exact (errorHandler_plain _ res).1.trans (by decide)
  · rw [h]
    exact (errorHandler_plain _ res).1.trans (by decide)

/-- C17: the code at the failing input.  For `start_date=2023-12-31` and
`end_date=2023-01-01`, whatever the data, `sanitizeQueryParams` throws
`start_date must not be after end_date`, a message without `Invalid`, and the
error handler answers 500 with `success: false`, where the integration test
`should validate date range` expects 400. -/
theorem metricsRoute_date_range_is_500
    (getMetrics : Option String → Option String → List JsonValue) (nowIso : String)
    (reqCached : Option Bool) (res : Res) :
    sanitizeQueryParams [("start_date", "2023-12-31"), ("end_date", "2023-01-01")]
      = .error "start_date must not be after end_date"
    ∧ (metricsRoute getMetrics nowIso reqCached
        [("start_date", "2023-12-31"), ("end_date", "2023-01-01")] res).statusCode = 500
    ∧ ((metricsRoute getMetrics nowIso reqCached
        [("start_date", "2023-12-31"), ("end_date", "2023-01-01")] res).sent.bind
        (fun body => body.getField "success")) = some (.bool false)
    ∧ (metricsRoute getMetrics nowIso reqCached [("start_date", "invalid-date")] res).statusCode
      = 400 := by
  have h : sanitizeQueryParams [("start_date", "2023-12-31"), ("end_date", "2023-01-01")]
      = .error "start_date must not be after end_date" := rfl
  refine ⟨h, ?_, ?_, ?_⟩
  · unfold metricsRoute
    rw [h]
    exact (errorHandler_plain _ res).1.trans (by decide)
  · unfold metricsRoute
    rw [h]
    exact (errorHandler_plain _ res).2
  · exact metricsRoute_format_error getMetrics nowIso reqCached _ res (Or.inl rfl)

/-- No string begins with two different strings of the same length. -/
theorem startsWith_both (s a b : String) (hlen : a.data.length = b.data.length)
    (ha : startsWith s a = true) (hb : startsWith s b = true) : a = b := by
  unfold startsWith at ha hb
  rw [List.isPrefixOf_iff_prefix] at ha hb
  apply String.ext
  rcases List.prefix_or_prefix_of_prefix ha hb with h | h
  · exact h.eq_of_length hlen
  · exact (h.eq_of_length hlen.symm).symm

/-- C18: the code at the failing input.  Over every data set,
`getHourlyMetrics('2024-01-01', '2024-01-02')` is empty: the second filter
keeps the records whose time stamp begins with the end date, and none of those
that begin with the start date does; so the records of 1 January 2024, which
lie in the range, are not returned, where the unit test expects a result that
is not empty and `getDailyMetrics` filters by `>=` and `<=`. -/
theorem getHourlyMetrics_range_is_empty (data : List HourlyMetric) :
    getHourlyMetrics data (some "2024-01-01") (some "2024-01-02") = []
    ∧ getHourlyMetrics
        [⟨"2024-01-01T00:00:00Z", 120, 1500, 25000⟩, ⟨"2024-01-01T01:00:00Z", 80, 900, 31000⟩,
         ⟨"2024-01-02T00:00:00Z", 95, 700, 18000⟩]
        (some "2024-01-01") (some "2024-01-02") = []
    ∧ getDailyMetrics
        [⟨"2024-01-01", 120, 1500, 25000⟩, ⟨"2024-01-02", 95, 700, 18000⟩,
         ⟨"2024-01-03", 95, 700, 18000⟩]
        (some "2024-01-01") (some "2024-01-02")
      = [⟨"2024-01-01", 120, 1500, 25000⟩, ⟨"2024-01-02", 95, 700, 18000⟩] := by
  have hgen : ∀ data : List HourlyMetric,
      getHourlyMetrics data (some "2024-01-01") (some "2024-01-02") = [] := by
    intro data
    have h1 : truthy (some "2024-01-01") = true := by decide
    have h2 : truthy (some "2024-01-02") = true := by decide
    simp only [getHourlyMetrics, h1, h2, Bool.not_true, Bool.and_self, Bool.false_eq_true,
      if_false, if_true, render]
    rw [List.filter_filter, List.filter_eq_nil_iff]
    intro d _ hd
    rw [Bool.and_eq_true] at hd
    have := startsWith_both d.timestamp "2024-01-02" "2024-01-01" (by decide) hd.1 hd.2
    exact absurd this (by decide)
  exact ⟨hgen data, hgen _, by decide⟩

/-- Removing the records of one key does not change what is stored under
another. -/
theorem lookup_filter_ne (entries : List (String × Entry)) (key k : String) (h : k ≠ key) :
    List.lookup k (entries.filter (fun kv => kv.1 != key)) = List.lookup k entries := by
  induction entries with
  | nil => rfl
  | cons x xs ih =>
    obtain ⟨k2, e⟩ := x
    by_cases hk : k2 = key
    · have hb : (k2 != key) = false := by simp [hk]
      have hb2 : (k == k2) = false := by simpa [hk] using h
      simp only [List.filter, hb, List.lookup, hb2]
      exact ih
    · have hb : (k2 != key) = true := by simpa using hk
      simp only [List.filter, hb, List.lookup]
      cases k == k2
      · exact ih
      · rfl

/-- What is stored under the key that was just written. -/
theorem Redis.lookup_put (s : Redis) (key : String) (e : Entry) :
    (s.put key e).entries.lookup key = some e := by
  simp [Redis.put, List.lookup]

/-- Writing one key does not change what is stored under another. -/
theorem Redis.lookup_put_ne (s : Redis) (key k : String) (e : Entry) (h : k ≠ key) :
    (s.put key e).entries.lookup k = s.entries.lookup k := by
  have hb : (k == key) = false := by simpa using h
  simp only [Redis.put, List.lookup, hb]
  exact lookup_filter_ne s.entries key k h

/-- Erasing one key does not change what is stored under another. -/
theorem Redis.lookup_erase_ne (s : Redis) (key k : String) (h : k ≠ key) :
    (s.erase key).entries.lookup k = s.entries.lookup k :=
  lookup_filter_ne s.entries key k h

/-- A live record is a stored record. -/
theorem Redis.lookup_of_find? (s : Redis) (key : String) (e : Entry)
    (h : s.find? key = some e) : s.entries.lookup key = some e := by
  unfold Redis.find? at h
  split at h
  · rename_i e2 he
    by_cases hl : e2.live s.now
    · rw [if_pos hl] at h
      cases h
      exact he
    · rw [if_neg hl] at h
      cases h
  · cases h

/-- A stored record whose expiry lies ahead is live. -/
theorem Redis.find?_of_lookup (s : Redis) (key : String) (v : RedisValue) (T : Nat)
    (h : s.entries.lookup key = some ⟨v, some T⟩) (hlt : s.now < T) :
    s.find? key = some ⟨v, some T⟩ := by
  simp [Redis.find?, h, Entry.live, hlt]

/-- A stored record whose expiry has passed is absent. -/
theorem Redis.find?_of_lookup_expired (s : Redis) (key : String) (v : RedisValue) (T : Nat)
    (h : s.entries.lookup key = some ⟨v, some T⟩) (hge : T ≤ s.now) :
    s.find? key = none := by
  simp [Redis.find?, h, Entry.live, hge]

/-- `INCR` leaves the clock and the records of every other key as they
are. -/
theorem Redis.incr_other (key k : String) (s : Redis) (h : k ≠ key) :
    (Redis.incr key s).2.entries.lookup k = s.entries.lookup k
    ∧ (Redis.incr key s).2.now = s.now := by
  unfold Redis.incr
  split
  · exact ⟨Redis.lookup_put_ne s key k _ h, rfl⟩
  · split
    · exact ⟨Redis.lookup_put_ne s key k _ h, rfl⟩
    · exact ⟨rfl, rfl⟩

/-- `EXPIRE` leaves the clock and the records of every other key as they
are. -/
theorem Redis.expire_other (key k : String) (seconds : Int) (s : Redis) (h : k ≠ key) :
    (Redis.expire key seconds s).2.entries.lookup k = s.entries.lookup k
    ∧ (Redis.expire key seconds s).2.now = s.now := by
  unfold Redis.expire
  split
  · exact ⟨rfl, rfl⟩
  · split
    · exact ⟨Redis.lookup_erase_ne s key k h, rfl⟩
    · exact ⟨Redis.lookup_put_ne s key k _ h, rfl⟩

/-- `TTL` leaves the store as it is. -/
theorem Redis.ttl_store (key : String) (s : Redis) : (Redis.ttl key s).2 = s := by
  obtain ⟨t, ht⟩ := Redis.ttl_ok key s
  rw [ht]

/-- The time on the clock plus the waits still to come does not change when a
command reaches the store. -/
theorem Timed.tick_budget (t : Timed) :
    t.tick.store.now + t.tick.waits.sum = t.store.now + t.waits.sum := by
  obtain ⟨s, ws⟩ := t
  cases ws with
  | nil => simp [Timed.tick, Redis.advance]
  | cons d ds =>
    simp only [Timed.tick, Redis.advance, List.headD_cons, List.tail_cons, List.sum_cons]
    omega

/-- The clock does not run backwards. -/
theorem Timed.tick_now (t : Timed) : t.store.now ≤ t.tick.store.now := by
  simp [Timed.tick, Redis.advance]

/-- A command through the client keeps a stored record that it does not touch,
and the time on the clock plus the waits to come stays below a bound it was
below. -/
theorem Timed.run_keeps {α : Type} (failed : Bool) (command : Redis → Except String α × Redis)
    (key : String) (e : Entry) (T : Nat)
    (hframe : ∀ s, (command s).2.entries.lookup key = s.entries.lookup key
      ∧ (command s).2.now = s.now)
    (t : Timed)
    (h : t.store.entries.lookup key = some e ∧ t.store.now + t.waits.sum < T) :
    (Timed.run failed command t).2.store.entries.lookup key = some e
    ∧ (Timed.run failed command t).2.store.now + (Timed.run failed command t).2.waits.sum
        < T := by
  have hb := Timed.tick_budget t
  have he : t.tick.store.entries.lookup key = some e := h.1
  cases failed with
  | true =>
    show t.tick.store.entries.lookup key = some e ∧ t.tick.store.now + t.tick.waits.sum < T
    exact ⟨he, by omega⟩
  | false =>
    show (command t.tick.store).2.entries.lookup key = some e
      ∧ (command t.tick.store).2.now + t.tick.waits.sum < T
    obtain ⟨h1, h2⟩ := hframe t.tick.store
    rw [h1, h2]
    exact ⟨he, by omega⟩

/-- Different clients have different quota records. -/
theorem rateLimitKey_injective (a b : String) (h : rateLimitKey a = rateLimitKey b) : a = b := by
  unfold rateLimitKey at h
  have h2 := congrArg String.data h
  simp only [String.data_append] at h2
  exact String.ext (List.append_cancel_left h2)

/-- A request of another client, or one whose client cannot be identified,
leaves the quota record of this client as it is stored, and the time on the
clock plus the waits to come below the bound it was below. -/
theorem rateLimitMiddleware_other_client (fails : RedisCmd → Bool)
    (maxRequests windowSeconds : Int) (nowMs : Nat) (req : Request) (res : Res)
    (clientId : String) (e : Entry) (T : Nat) (t : Timed)
    (hother : madeBy clientId req = false)
    (h : t.store.entries.lookup (rateLimitKey clientId) = some e
      ∧ t.store.now + t.waits.sum < T) :
    (rateLimitMiddleware (timedRedis fails) maxRequests windowSeconds nowMs req res
        t).store.store.entries.lookup (rateLimitKey clientId) = some e
    ∧ (rateLimitMiddleware (timedRedis fails) maxRequests windowSeconds nowMs req res
        t).store.store.now
      + (rateLimitMiddleware (timedRedis fails) maxRequests windowSeconds nowMs req res
        t).store.waits.sum < T := by
  cases hid : getClientIdentifier req with
  | error err =>
    rw [rateLimitMiddleware_no_id _ _ _ _ _ _ _ err hid]
    exact h
  | ok other =>
    have hne : rateLimitKey clientId ≠ rateLimitKey other := by
      intro heq
      have := rateLimitKey_injective _ _ heq
      subst this
      simp [madeBy, hid] at hother
    rw [rateLimitMiddleware_of_id _ _ _ _ _ _ _ other hid]
    exact rateLimitFor_store_keeps (timedRedis fails) maxRequests windowSeconds nowMs other res
      (fun t => t.store.entries.lookup (rateLimitKey clientId) = some e
        ∧ t.store.now + t.waits.sum < T)
      (fun t ht => Timed.run_keeps _ _ _ e T
        (fun s => Redis.incr_other _ _ s hne) t ht)
      (fun t ht => Timed.run_keeps _ _ _ e T
        (fun s => Redis.expire_other _ _ _ s hne) t ht)
      (fun t ht => Timed.run_keeps _ _ _ e T
        (fun s => by rw [Redis.ttl_store]; exact ⟨rfl, rfl⟩) t ht)
      t h

/-- The time-to-live read through the client of a working store. -/
theorem timedRedis_ttl (key : String) (t : Timed) :
    ∃ ttl, (timedRedis (fun _ => false)).ttl key t = (.ok ttl, t.tick) := by
  obtain ⟨ttl, ht⟩ := Redis.ttl_ok key t.tick.store
  refine ⟨ttl, ?_⟩
  show ((Redis.ttl key t.tick.store).1, (⟨(Redis.ttl key t.tick.store).2, t.tick.waits⟩ : Timed))
    = _
  rw [ht]

/-- A later request of a window: the record of the client is stored with count
`j` and does not expire during the waits to come; the request is counted
`j + 1` and the record keeps its expiry. -/
theorem rateLimit_timed_next (maxRequests windowSeconds : Int) (nowMs : Nat)
    (clientId : String) (res : Res) (t : Timed) (j : Int) (T : Nat)
    (hrec : t.store.entries.lookup (rateLimitKey clientId) = some ⟨.int j, some T⟩)
    (hbudget : t.store.now + t.waits.sum < T) (hj : j ≠ 0) :
    (rateLimitFor (timedRedis (fun _ => false)) maxRequests windowSeconds nowMs clientId res
        t).decision = (if j + 1 ≤ maxRequests then .admitted else .rejected)
    ∧ (rateLimitFor (timedRedis (fun _ => false)) maxRequests windowSeconds nowMs clientId res
        t).store.store.entries.lookup (rateLimitKey clientId) = some ⟨.int (j + 1), some T⟩
    ∧ (rateLimitFor (timedRedis (fun _ => false)) maxRequests windowSeconds nowMs clientId res
        t).store.store.now
      + (rateLimitFor (timedRedis (fun _ => false)) maxRequests windowSeconds nowMs clientId res
        t).store.waits.sum < T := by
  have hb := Timed.tick_budget t
  have hfind : t.tick.store.find? (rateLimitKey clientId) = some ⟨.int j, some T⟩ :=
    Redis.find?_of_lookup _ _ _ _ hrec (by omega)
  have hincr : (timedRedis (fun _ => false)).incr (rateLimitKey clientId) t
      = (.ok (j + 1),
          ⟨t.tick.store.put (rateLimitKey clientId) ⟨.int (j + 1), some T⟩, t.tick.waits⟩) := by
    show ((Redis.incr (rateLimitKey clientId) t.tick.store).1,
      (⟨(Redis.incr (rateLimitKey clientId) t.tick.store).2, t.tick.waits⟩ : Timed)) = _
    unfold Redis.incr
    rw [hfind]
    rfl
  have hne : j + 1 ≠ 1 := by omega
  obtain ⟨ttl, httl⟩ := timedRedis_ttl (rateLimitKey clientId)
    ⟨t.tick.store.put (rateLimitKey clientId) ⟨.int (j + 1), some T⟩, t.tick.waits⟩
  obtain ⟨hd, hs, _, _⟩ := rateLimitFor_ok_decision (timedRedis (fun _ => false)) maxRequests
    windowSeconds nowMs clientId res t _ _ _ (j + 1) ttl hincr (by rw [if_neg hne]) httl
  refine ⟨hd, ?_, ?_⟩
  · rw [hs]
    exact Redis.lookup_put _ _ _
  · rw [hs]
    have hb2 := Timed.tick_budget
      ⟨t.tick.store.put (rateLimitKey clientId) ⟨.int (j + 1), some T⟩, t.tick.waits⟩
    have hnow : (t.tick.store.put (rateLimitKey clientId) ⟨.int (j + 1), some T⟩).now
        = t.tick.store.now := rfl
    simp only [hnow] at hb2
    omega

/-- The first request of a window: the record of the client is absent when
the increment reaches the store; the request is counted 1, the set-expiry is
issued, and the record is stored with count 1 and an expiry `windowSeconds`
after the moment the set-expiry reached the store. -/
theorem rateLimit_timed_first (maxRequests windowSeconds : Int) (nowMs : Nat)
    (clientId : String) (res : Res) (t : Timed)
    (hf : t.tick.store.find? (rateLimitKey clientId) = none) (hw : 0 < windowSeconds) :
    (rateLimitFor (timedRedis (fun _ => false)) maxRequests windowSeconds nowMs clientId res
        t).decision = (if 1 ≤ maxRequests then .admitted else .rejected)
    ∧ (rateLimitFor (timedRedis (fun _ => false)) maxRequests windowSeconds nowMs clientId res
        t).cmds = [.incr (rateLimitKey clientId), .expire (rateLimitKey clientId) windowSeconds,
          .ttl (rateLimitKey clientId)]
    ∧ (rateLimitFor (timedRedis (fun _ => false)) maxRequests windowSeconds nowMs clientId res
        t).res.getHeader "X-RateLimit-Remaining" = some (.num (max 0 (maxRequests - 1)))
    ∧ (rateLimitFor (timedRedis (fun _ => false)) maxRequests windowSeconds nowMs clientId res
        t).store.store.entries.lookup (rateLimitKey clientId)
        = some ⟨.int 1, some (t.tick.tick.store.now + windowSeconds.toNat * 1000)⟩
    ∧ (rateLimitFor (timedRedis (fun _ => false)) maxRequests windowSeconds nowMs clientId res
        t).store.store.now
      + (rateLimitFor (timedRedis (fun _ => false)) maxRequests windowSeconds nowMs clientId res
        t).store.waits.sum = t.tick.tick.store.now + t.tick.tick.waits.sum := by
  have hincr : (timedRedis (fun _ => false)).incr (rateLimitKey clientId) t
      = (.ok 1, ⟨t.tick.store.put (rateLimitKey clientId) ⟨.int 1, none⟩, t.tick.waits⟩) := by
    show ((Redis.incr (rateLimitKey clientId) t.tick.store).1,
      (⟨(Redis.incr (rateLimitKey clientId) t.tick.store).2, t.tick.waits⟩ : Timed)) = _
    unfold Redis.incr
    rw [hf]
  have hfind1 : ((t.tick.store.put (rateLimitKey clientId) ⟨.int 1, none⟩).advance
      (t.tick.waits.headD 0)).find? (rateLimitKey clientId) = some ⟨.int 1, none⟩ := by
    have hl : ((t.tick.store.put (rateLimitKey clientId) ⟨.int 1, none⟩).advance
        (t.tick.waits.headD 0)).entries.lookup (rateLimitKey clientId) = some ⟨.int 1, none⟩ :=
      Redis.lookup_put _ _ _
    unfold Redis.find?
    rw [hl]
    rfl
  have hexp : (timedRedis (fun _ => false)).expire (rateLimitKey clientId) windowSeconds
      ⟨t.tick.store.put (rateLimitKey clientId) ⟨.int 1, none⟩, t.tick.waits⟩
      = (.ok true,
          ⟨((t.tick.store.put (rateLimitKey clientId) ⟨.int 1, none⟩).advance
              (t.tick.waits.headD 0)).put (rateLimitKey clientId)
              ⟨.int 1, some (t.tick.tick.store.now + windowSeconds.toNat * 1000)⟩,
            t.tick.tick.waits⟩) := by
    show ((Redis.expire (rateLimitKey clientId) windowSeconds
        ((t.tick.store.put (rateLimitKey clientId) ⟨.int 1, none⟩).advance
          (t.tick.waits.headD 0))).1,
      (⟨(Redis.expire (rateLimitKey clientId) windowSeconds
        ((t.tick.store.put (rateLimitKey clientId) ⟨.int 1, none⟩).advance
          (t.tick.waits.headD 0))).2, t.tick.waits.tail⟩ : Timed)) = _
    unfold Redis.expire
    rw [hfind1]
    simp only [if_neg (not_le.mpr hw)]
    rfl
  obtain ⟨ttl, httl⟩ := timedRedis_ttl (rateLimitKey clientId)
    ⟨((t.tick.store.put (rateLimitKey clientId) ⟨.int 1, none⟩).advance
        (t.tick.waits.headD 0)).put (rateLimitKey clientId)
        ⟨.int 1, some (t.tick.tick.store.now + windowSeconds.toNat * 1000)⟩,
      t.tick.tick.waits⟩
  obtain ⟨hd, hs, hc, hr⟩ := rateLimitFor_ok_decision (timedRedis (fun _ => false)) maxRequests
    windowSeconds nowMs clientId res t _ _ _ 1 ttl hincr (by rw [if_pos rfl]; exact ⟨true, hexp⟩)
    httl
  refine ⟨hd, ?_, hr, ?_, ?_⟩
  · rw [hc, if_pos rfl]
    rfl
  · rw [hs]
    exact Redis.lookup_put _ _ _
  · rw [hs]
    exact Timed.tick_budget _

/-- The decisions on the requests of a client, when the first run is of a
request the client made. -/
theorem decisionsOf_cons_own (clientId : String) (req : Request) (out : Outcome Timed)
    (runs : List (Request × Outcome Timed)) (h : madeBy clientId req = true) :
    decisionsOf clientId ((req, out) :: runs) = out.decision :: decisionsOf clientId runs := by
  simp [decisionsOf, List.filter, h]

/-- The decisions on the requests of a client, when the first run is of a
request somebody else made. -/
theorem decisionsOf_cons_other (clientId : String) (req : Request) (out : Outcome Timed)
    (runs : List (Request × Outcome Timed)) (h : madeBy clientId req = false) :
    decisionsOf clientId ((req, out) :: runs) = decisionsOf clientId runs := by
  simp [decisionsOf, List.filter, h]

/-- A request made by the client has the identifier of the client. -/
theorem getClientIdentifier_of_madeBy (clientId : String) (req : Request)
    (h : madeBy clientId req = true) : getClientIdentifier req = .ok clientId := by
  unfold madeBy at h
  cases hid : getClientIdentifier req with
  | error err => rw [hid] at h; cases h
  | ok identifier =>
    rw [hid] at h
    have : identifier = clientId := by simpa using h
    rw [this]

/-- Requests inside a running window: if the record of the client is stored
with count `j` and does not expire during the waits to come, then, whatever
requests other clients make in between, the `i`-th request of the client (from
0) is counted `j + i + 1`, and the record ends with the count raised by the
number of requests of the client and with the expiry it had. -/
theorem requestsFrom_in_window (maxRequests windowSeconds : Int) (clientId : String) (T : Nat) :
    ∀ (reqs : List Request) (t : Timed) (j : Nat), j ≠ 0 →
      t.store.entries.lookup (rateLimitKey clientId) = some ⟨.int j, some T⟩ →
      t.store.now + t.waits.sum < T →
      decisionsOf clientId (requestsFrom maxRequests windowSeconds t reqs)
          = (List.range (reqs.filter (madeBy clientId)).length).map
              (fun i : Nat => if ((j + i + 1 : Nat) : Int) ≤ maxRequests then Decision.admitted
                else Decision.rejected)
        ∧ (storeAfterRequests maxRequests windowSeconds t reqs).store.entries.lookup
            (rateLimitKey clientId)
          = some ⟨.int ((j + (reqs.filter (madeBy clientId)).length : Nat) : Int), some T⟩
        ∧ (storeAfterRequests maxRequests windowSeconds t reqs).store.now
            + (storeAfterRequests maxRequests windowSeconds t reqs).waits.sum < T := by
  intro reqs
  induction reqs with
  | nil =>
    intro t j _ hrec hb
    exact ⟨rfl, by simpa [storeAfterRequests] using hrec, by simpa [storeAfterRequests] using hb⟩
  | cons req rest ih =>
    intro t j hj hrec hb
    cases hm : madeBy clientId req with
    | true =>
      have hid := getClientIdentifier_of_madeBy clientId req hm
      have hrun := rateLimitMiddleware_of_id (timedRedis (fun _ => false)) maxRequests
        windowSeconds t.store.now req Res.fresh t clientId hid
      obtain ⟨hd, hl, hb2⟩ := rateLimit_timed_next maxRequests windowSeconds t.store.now clientId
        Res.fresh t j T hrec hb (by exact_mod_cast hj)
      rw [← hrun] at hd hl hb2
      have hl2 : (rateLimitMiddleware (timedRedis (fun _ => false)) maxRequests windowSeconds
          t.store.now req Res.fresh t).store.store.entries.lookup (rateLimitKey clientId)
          = some ⟨.int ((j + 1 : Nat) : Int), some T⟩ := by
        rw [hl]; push_cast; rfl
      obtain ⟨ih1, ih2, ih3⟩ := ih _ (j + 1) (by omega) hl2 hb2
      have hlen : ((req :: rest).filter (madeBy clientId)).length
          = (rest.filter (madeBy clientId)).length + 1 := by
        simp [List.filter, hm]
      refine ⟨?_, ?_, ?_⟩
      · simp only [requestsFrom]
        rw [decisionsOf_cons_own _ _ _ _ hm, ih1, hd, hlen, List.range_succ_eq_map,
          List.map_cons, List.map_map]
        have hhead : (if (j : Int) + 1 ≤ maxRequests then Decision.admitted
            else Decision.rejected)
            = (if ((j + 0 + 1 : Nat) : Int) ≤ maxRequests then Decision.admitted
              else Decision.rejected) := by
          push_cast
          simp
        have htail : List.map
            (fun i : Nat => if ((j + 1 + i + 1 : Nat) : Int) ≤ maxRequests then Decision.admitted
              else Decision.rejected)
            (List.range (rest.filter (madeBy clientId)).length)
            = List.map
              ((fun i : Nat => if ((j + i + 1 : Nat) : Int) ≤ maxRequests then Decision.admitted
                else Decision.rejected) ∘ Nat.succ)
              (List.range (rest.filter (madeBy clientId)).length) := by
          apply List.map_congr_left
          intro i _
          simp only [Function.comp_apply]
          have : j + 1 + i + 1 = j + (i + 1) + 1 := by omega
          rw [this]
        exact congrArg₂ List.cons hhead htail
      · simp only [storeAfterRequests]
        rw [ih2, hlen]
        have : j + 1 + (rest.filter (madeBy clientId)).length
            = j + ((rest.filter (madeBy clientId)).length + 1) := by omega
        rw [this]
      · simp only [storeAfterRequests]
        exact ih3
    | false =>
      obtain ⟨hl, hb2⟩ := rateLimitMiddleware_other_client (fun _ => false) maxRequests
        windowSeconds t.store.now req Res.fresh clientId _ T t hm ⟨hrec, hb⟩
      obtain ⟨ih1, ih2, ih3⟩ := ih _ j hj hl hb2
      have hlen : ((req :: rest).filter (madeBy clientId)).length
          = (rest.filter (madeBy clientId)).length := by
        simp [List.filter, hm]
      refine ⟨?_, ?_, ?_⟩
      · simp only [requestsFrom]
        rw [decisionsOf_cons_other _ _ _ _ hm, ih1, hlen]
      · simp only [storeAfterRequests]
        rw [ih2, hlen]
      · simp only [storeAfterRequests]
        exact ih3

/-- C2. Fixed-window sequence.  Requests of any clients reach a working store
one after the other, every command after the wait that is due.  When the quota
record of a client is absent (never created, or expired) at the moment the
increment of one of its requests reaches the store, that request opens a
window; as long as less than `windowSeconds` pass after its set-expiry, and
whatever requests other clients make in between, the `k`-th request of the
client (from 1, the opening one included) is admitted exactly if
`k ≤ maxRequests`; and a request of the client whose increment reaches the
store once the window has passed is counted 1 again (the set-expiry is issued
and the remaining quota is `maxRequests - 1`), is admitted, and leaves a record
of count 1 with a new expiry. -/
theorem fixed_window_sequence (maxRequests windowSeconds : Int) (clientId : String)
    (first : Request) (others : List Request) (t : Timed)
    (hid : getClientIdentifier first = .ok clientId)
    (habsent : t.tick.store.find? (rateLimitKey clientId) = none)
    (hmax : 1 ≤ maxRequests)
    (hwin : ((t.waits.drop 2).sum : Int) < windowSeconds * 1000) :
    decisionsOf clientId (requestsFrom maxRequests windowSeconds t (first :: others))
        = (List.range ((others.filter (madeBy clientId)).length + 1)).map
            (fun k : Nat => if (k : Int) + 1 ≤ maxRequests then Decision.admitted
              else Decision.rejected)
    ∧ (∀ (waits : List Nat) (req : Request) (nowMs : Nat),
        getClientIdentifier req = .ok clientId →
        t.tick.tick.store.now + windowSeconds.toNat * 1000
          ≤ (storeAfterRequests maxRequests windowSeconds t (first :: others)).store.now
              + waits.headD 0 →
        (rateLimitMiddleware (timedRedis (fun _ => false)) maxRequests windowSeconds nowMs req
            Res.fresh
            ⟨(storeAfterRequests maxRequests windowSeconds t (first :: others)).store,
              waits⟩).decision = .admitted
        ∧ (rateLimitMiddleware (timedRedis (fun _ => false)) maxRequests windowSeconds nowMs req
            Res.fresh
            ⟨(storeAfterRequests maxRequests windowSeconds t (first :: others)).store,
              waits⟩).cmds
          = [.incr (rateLimitKey clientId), .expire (rateLimitKey clientId) windowSeconds,
              .ttl (rateLimitKey clientId)]
        ∧ (rateLimitMiddleware (timedRedis (fun _ => false)) maxRequests windowSeconds nowMs req
            Res.fresh
            ⟨(storeAfterRequests maxRequests windowSeconds t (first :: others)).store,
              waits⟩).res.getHeader "X-RateLimit-Remaining"
          = some (.num (max 0 (maxRequests - 1)))
        ∧ (rateLimitMiddleware (timedRedis (fun _ => false)) maxRequests windowSeconds nowMs req
            Res.fresh
            ⟨(storeAfterRequests maxRequests windowSeconds t (first :: others)).store,
              waits⟩).store.store.entries.lookup (rateLimitKey clientId)
          = some ⟨.int 1,
              some ((storeAfterRequests maxRequests windowSeconds t (first :: others)).store.now
                + waits.headD 0 + waits.tail.headD 0 + windowSeconds.toNat * 1000)⟩) := by
  have hw : 0 < windowSeconds := by
    have : (0 : Int) ≤ ((t.waits.drop 2).sum : Int) := Int.natCast_nonneg _
    omega
  have hm : madeBy clientId first = true := by simp [madeBy, hid]
  have hrun := rateLimitMiddleware_of_id (timedRedis (fun _ => false)) maxRequests
    windowSeconds t.store.now first Res.fresh t clientId hid
  obtain ⟨hd, _, _, hl, hb⟩ := rateLimit_timed_first maxRequests windowSeconds t.store.now
    clientId Res.fresh t habsent hw
  rw [← hrun] at hd hl hb
  have hdrop : t.tick.tick.waits = t.waits.drop 2 := by
    obtain ⟨s, ws⟩ := t
    cases ws with
    | nil => rfl
    | cons a as => cases as <;> rfl
  have hb2 : (rateLimitMiddleware (timedRedis (fun _ => false)) maxRequests windowSeconds
      t.store.now first Res.fresh t).store.store.now
      + (rateLimitMiddleware (timedRedis (fun _ => false)) maxRequests windowSeconds
      t.store.now first Res.fresh t).store.waits.sum
      < t.tick.tick.store.now + windowSeconds.toNat * 1000 := by
    rw [hb, hdrop]
    omega
  have hl2 : (rateLimitMiddleware (timedRedis (fun _ => false)) maxRequests windowSeconds
      t.store.now first Res.fresh t).store.store.entries.lookup (rateLimitKey clientId)
      = some ⟨.int ((1 : Nat) : Int),
          some (t.tick.tick.store.now + windowSeconds.toNat * 1000)⟩ := by
    rw [hl]; rfl
  obtain ⟨h1, h2, _⟩ := requestsFrom_in_window maxRequests windowSeconds clientId
    (t.tick.tick.store.now + windowSeconds.toNat * 1000) others _ 1 (by decide) hl2 hb2
  refine ⟨?_, ?_⟩
  · simp only [requestsFrom]
    rw [decisionsOf_cons_own _ _ _ _ hm, h1, hd, if_pos hmax, List.range_succ_eq_map,
      List.map_cons, List.map_map]
    simp only [Nat.cast_zero, zero_add, if_pos hmax]
    congr 1
    apply List.map_congr_left
    intro i _
    simp only [Function.comp_apply]
    have : (((1 + i + 1 : Nat) : Int)) = ((i.succ : Nat) : Int) + 1 := by push_cast; omega
    rw [this]
  · intro waits req nowMs hid2 hlate
    have hstore : storeAfterRequests maxRequests windowSeconds t (first :: others)
        = storeAfterRequests maxRequests windowSeconds
            (rateLimitMiddleware (timedRedis (fun _ => false)) maxRequests windowSeconds
              t.store.now first Res.fresh t).store others := rfl
    rw [hstore] at hlate ⊢
    have hgone : (Timed.tick
        ⟨(storeAfterRequests maxRequests windowSeconds
            (rateLimitMiddleware (timedRedis (fun _ => false)) maxRequests windowSeconds
              t.store.now first Res.fresh t).store others).store, waits⟩).store.find?
        (rateLimitKey clientId) = none :=
      Redis.find?_of_lookup_expired _ _ _ _ h2 hlate
    obtain ⟨hd3, hc3, hr3, hl3, _⟩ := rateLimit_timed_first maxRequests windowSeconds nowMs
      clientId Res.fresh _ hgone hw
    rw [rateLimitMiddleware_of_id _ _ _ _ _ _ _ clientId hid2]
    refine ⟨by rw [hd3, if_pos hmax], hc3, hr3, ?_⟩
    rw [hl3]
    rfl

/-- C2, at a concrete run: limit 5, window 60 s; the record of client `a`,
left over from an earlier window, expires 1 s before the first request
arrives.  Six requests of `a`, with requests of client `b` and of the address
`10.0.0.1` in between and some milliseconds between the commands, are admitted
five times and then rejected, while the requests of `b` are all admitted; a
request of `a` 60 s later is admitted with count 1. -/
theorem fixed_window_sequence_witness :
    decisionsOf "key:a"
        (requestsFrom 5 60 ⟨⟨0, [("rate-limit:key:a", ⟨.int 9, some 1000⟩)]⟩, [2000, 1, 1, 5]⟩
          [requestWithKey "a", requestWithKey "b", requestWithKey "a", requestWithKey "a",
           requestFromIp "10.0.0.1", requestWithKey "b", requestWithKey "a", requestWithKey "a",
           requestWithKey "b", requestWithKey "a"])
      = [.admitted, .admitted, .admitted, .admitted, .admitted, .rejected]
    ∧ decisionsOf "key:b"
        (requestsFrom 5 60 ⟨⟨0, [("rate-limit:key:a", ⟨.int 9, some 1000⟩)]⟩, [2000, 1, 1, 5]⟩
          [requestWithKey "a", requestWithKey "b", requestWithKey "a", requestWithKey "a",
           requestFromIp "10.0.0.1", requestWithKey "b", requestWithKey "a", requestWithKey "a",
           requestWithKey "b", requestWithKey "a"])
      = [.admitted, .admitted, .admitted]
    ∧ (rateLimitMiddleware (timedRedis (fun _ => false)) 5 60 70000 (requestWithKey "a")
        Res.fresh
        ⟨(storeAfterRequests 5 60
            ⟨⟨0, [("rate-limit:key:a", ⟨.int 9, some 1000⟩)]⟩, [2000, 1, 1, 5]⟩
            [requestWithKey "a", requestWithKey "b", requestWithKey "a", requestWithKey "a",
             requestFromIp "10.0.0.1", requestWithKey "b", requestWithKey "a",
             requestWithKey "a", requestWithKey "b", requestWithKey "a"]).store,
          [60000]⟩).decision = .admitted
    ∧ (rateLimitMiddleware (timedRedis (fun _ => false)) 5 60 70000 (requestWithKey "a")
        Res.fresh
        ⟨(storeAfterRequests 5 60
            ⟨⟨0, [("rate-limit:key:a", ⟨.int 9, some 1000⟩)]⟩, [2000, 1, 1, 5]⟩
            [requestWithKey "a", requestWithKey "b", requestWithKey "a", requestWithKey "a",
             requestFromIp "10.0.0.1", requestWithKey "b", requestWithKey "a",
             requestWithKey "a", requestWithKey "b", requestWithKey "a"]).store,
          [60000]⟩).res.getHeader "X-RateLimit-Remaining" = some (.num 4) :=
  have h := fixed_window_sequence 5 60 "key:a" (requestWithKey "a")
    [requestWithKey "b", requestWithKey "a", requestWithKey "a",
     requestFromIp "10.0.0.1", requestWithKey "b", requestWithKey "a", requestWithKey "a",
     requestWithKey "b", requestWithKey "a"]
    ⟨⟨0, [("rate-limit:key:a", ⟨.int 9, some 1000⟩)]⟩, [2000, 1, 1, 5]⟩
    rfl (by decide) (by decide) (by decide)
  ⟨h.1.trans (by decide), by decide,
    (h.2 [60000] (requestWithKey "a") 70000 rfl (by decide)).1,
    (h.2 [60000] (requestWithKey "a") 70000 rfl (by decide)).2.2.1.trans (by decide)⟩

/-- An increment that fails on a working store leaves the store as it was. -/
theorem Redis.incr_error_store (key : String) (s s1 : Redis) (err : String)
    (h : Redis.incr key s = (.error err, s1)) : s1 = s := by
  unfold Redis.incr at h
  split at h
  · simp at h
  · split at h
    · simp at h
    · simp only [Prod.mk.injEq] at h
      exact h.2.symm

/-- `EXPIRE` does not fail on a working store. -/
theorem Redis.expire_ok (key : String) (seconds : Int) (s : Redis) :
    ∃ b, Redis.expire key seconds s = (.ok b, (Redis.expire key seconds s).2) := by
  unfold Redis.expire
  split
  · exact ⟨false, rfl⟩
  · split <;> exact ⟨true, rfl⟩

/-- A call through the client that fails leaves the store as the command
found it, for the commands of the quota gate. -/
theorem Timed.run_error {α : Type} (failed : Bool) (command : Redis → Except String α × Redis)
    (t t1 : Timed) (err : String)
    (hkeep : ∀ s e s1, command s = (.error e, s1) → s1 = s)
    (h : Timed.run failed command t = (.error err, t1)) : t1 = t.tick := by
  cases failed with
  | true =>
    simp only [Timed.run, if_true, Prod.mk.injEq] at h
    exact h.2.symm
  | false =>
    simp only [Timed.run, Bool.false_eq_true, if_false, Prod.mk.injEq] at h
    obtain ⟨h1, h2⟩ := h
    have := hkeep t.tick.store err (command t.tick.store).2 (Prod.ext h1 rfl)
    rw [this] at h2
    exact h2.symm

/-- The store a run leaves once the increment has succeeded: the store after
the set-expiry if that was issued and failed, the store after the time-to-live
read otherwise. -/
theorem rateLimitFor_store {σ : Type} (client : RedisClient σ)
    (maxRequests windowSeconds : Int) (nowMs : Nat) (clientId : String) (res : Res)
    (s s1 : σ) (count : Int)
    (hincr : client.incr (rateLimitKey clientId) s = (.ok count, s1)) :
    (rateLimitFor client maxRequests windowSeconds nowMs clientId res s).store =
      if count = 1 then
        match client.expire (rateLimitKey clientId) windowSeconds s1 with
        | (.error _, s2) => s2
        | (.ok _, s2) => (client.ttl (rateLimitKey clientId) s2).2
      else (client.ttl (rateLimitKey clientId) s1).2 := by
  by_cases h1 : count = 1
  · subst h1
    rcases he : client.expire (rateLimitKey clientId) windowSeconds s1 with ⟨r2, s2⟩
    cases r2 with
    | error e => simp [rateLimitFor, hincr, he, rateLimitCatch]
    | ok b =>
      rcases ht : client.ttl (rateLimitKey clientId) s2 with ⟨r3, s3⟩
      cases r3 with
      | error e => simp [rateLimitFor, hincr, he, ht, rateLimitCatch]
      | ok t =>
        simp only [rateLimitFor, hincr, he, ht, if_true]
        split <;> rfl
  · rcases ht : client.ttl (rateLimitKey clientId) s1 with ⟨r3, s3⟩
    cases r3 with
    | error e => simp [rateLimitFor, hincr, h1, ht, rateLimitCatch]
    | ok t =>
      simp only [rateLimitFor, hincr, h1, ht, if_false]
      split <;> rfl

/-- A command through the client that does not touch the stored record of a
key leaves it as it is, whether the command fails or not. -/
theorem Timed.run_lookup {α : Type} (failed : Bool) (command : Redis → Except String α × Redis)
    (key : String)
    (hframe : ∀ s, (command s).2.entries.lookup key = s.entries.lookup key) (t : Timed) :
    (Timed.run failed command t).2.store.entries.lookup key = t.store.entries.lookup key := by
  cases failed with
  | true => rfl
  | false => exact hframe t.tick.store

/-- A successful call through the client is a call that was not made to
fail, and its result is that of the command on the store it reached. -/
theorem Timed.run_ok {α : Type} (failed : Bool) (command : Redis → Except String α × Redis)
    (t t1 : Timed) (value : α) (h : Timed.run failed command t = (.ok value, t1)) :
    failed = false ∧ command t.tick.store = (.ok value, t1.store)
      ∧ t1.waits = t.tick.waits := by
  cases failed with
  | true => simp [Timed.run] at h
  | false =>
    simp only [Timed.run, Bool.false_eq_true, if_false, Prod.mk.injEq] at h
    obtain ⟨h1, h2⟩ := h
    subst h2
    exact ⟨rfl, Prod.ext h1 rfl, rfl⟩

/-- `EXPIRE` with a positive timeout keeps the value of the record. -/
theorem Redis.expire_value (key : String) (seconds : Int) (s : Redis) (v : RedisValue)
    (x : Option Nat) (hw : 0 < seconds) (h : s.entries.lookup key = some ⟨v, x⟩) :
    ∃ y, (Redis.expire key seconds s).2.entries.lookup key = some ⟨v, y⟩ := by
  unfold Redis.expire
  split
  · exact ⟨x, h⟩
  · rename_i e hf
    have he := Redis.lookup_of_find? s key e hf
    rw [h] at he
    cases he
    rw [if_neg (not_le.mpr hw)]
    exact ⟨_, Redis.lookup_put _ _ _⟩

/-- C4, as stated, fails: with `windowSeconds = 0` the set-expiry that follows
a first increment removes the record.  On an empty working store the run
issues the increment, which creates the record with count 1, then `EXPIRE` with
0 seconds, and leaves the store without the record; so every request is
counted 1 and, over a limit of 1, three requests in a row are admitted. -/
theorem rateLimit_zero_window_removes_record :
    (rateLimitMiddleware redis 1 0 0 (requestWithKey "k") Res.fresh Redis.empty).cmds
      = [.incr "rate-limit:key:k", .expire "rate-limit:key:k" 0, .ttl "rate-limit:key:k"]
    ∧ (Redis.incr "rate-limit:key:k" Redis.empty).2.entries.lookup "rate-limit:key:k"
      = some ⟨.int 1, none⟩
    ∧ (rateLimitMiddleware redis 1 0 0 (requestWithKey "k") Res.fresh
        Redis.empty).store.entries.lookup "rate-limit:key:k" = none
    ∧ decisionsOf "key:k"
        (requestsFrom 1 0 ⟨Redis.empty, []⟩
          [requestWithKey "k", requestWithKey "k", requestWithKey "k"])
      = [.admitted, .admitted, .admitted] := by
  decide

/-- C4, amended.  In every run for a client, over every store client, the
set-expiry command for the quota record is among the commands issued exactly
if the increment returned 1; every command of the run is the increment, the
set-expiry with `windowSeconds`, or the time-to-live read of that record, so no
run issues a delete or a write that resets the counter.  On a store that every
command reaches after some wait and on which commands may fail: a run whose
increment returns a count other than 1 finds the record present and leaves it
stored with that count and the expiry it had; for a positive `windowSeconds` a
run whose increment returns `count` leaves the record stored with that count;
when the record is absent as the increment arrives, no command fails and
`windowSeconds` is positive, the record is left with count 1 and an expiry
`windowSeconds` after the moment the set-expiry reached the store; and a run
whose increment fails leaves every record as it was. -/
theorem rateLimit_expiry_once {σ : Type} (client : RedisClient σ)
    (maxRequests windowSeconds : Int) (nowMs : Nat) (req : Request) (res : Res) (s : σ)
    (clientId : String) (hid : getClientIdentifier req = .ok clientId) :
    ((∃ key seconds, RedisCmd.expire key seconds
          ∈ (rateLimitMiddleware client maxRequests windowSeconds nowMs req res s).cmds)
        ↔ (client.incr (rateLimitKey clientId) s).1 = .ok 1)
    ∧ (∀ c ∈ (rateLimitMiddleware client maxRequests windowSeconds nowMs req res s).cmds,
        c = .incr (rateLimitKey clientId) ∨ c = .expire (rateLimitKey clientId) windowSeconds
          ∨ c = .ttl (rateLimitKey clientId))
    ∧ (∀ (fails : RedisCmd → Bool) (t t1 : Timed) (count : Int),
        (timedRedis fails).incr (rateLimitKey clientId) t = (.ok count, t1) → count ≠ 1 →
        ∃ e, t.tick.store.find? (rateLimitKey clientId) = some e
          ∧ (rateLimitMiddleware (timedRedis fails) maxRequests windowSeconds nowMs req res
              t).store.store.entries.lookup (rateLimitKey clientId)
            = some ⟨.int count, e.expireAt⟩)
    ∧ (∀ (fails : RedisCmd → Bool) (t t1 : Timed) (count : Int),
        (timedRedis fails).incr (rateLimitKey clientId) t = (.ok count, t1) →
        0 < windowSeconds →
        ∃ x, (rateLimitMiddleware (timedRedis fails) maxRequests windowSeconds nowMs req res
              t).store.store.entries.lookup (rateLimitKey clientId)
            = some ⟨.int count, x⟩)
    ∧ (∀ t : Timed, t.tick.store.find? (rateLimitKey clientId) = none → 0 < windowSeconds →
        (rateLimitMiddleware (timedRedis (fun _ => false)) maxRequests windowSeconds nowMs req
            res t).store.store.entries.lookup (rateLimitKey clientId)
          = some ⟨.int 1, some (t.tick.tick.store.now + windowSeconds.toNat * 1000)⟩)
    ∧ (∀ (fails : RedisCmd → Bool) (t t1 : Timed) (err : String),
        (timedRedis fails).incr (rateLimitKey clientId) t = (.error err, t1) →
        (rateLimitMiddleware (timedRedis fails) maxRequests windowSeconds nowMs req res
            t).store.store.entries = t.store.entries) := by
  have httl : ∀ (fails : RedisCmd → Bool) (t : Timed),
      ((timedRedis fails).ttl (rateLimitKey clientId) t).2.store.entries.lookup
          (rateLimitKey clientId) = t.store.entries.lookup (rateLimitKey clientId) := by
    intro fails t
    exact Timed.run_lookup _ _ _ (fun s => by rw [Redis.ttl_store]) t
  refine ⟨?_, ?_, ?_, ?_, ?_, ?_⟩
  · rw [rateLimitMiddleware_of_id client maxRequests windowSeconds nowMs req res s clientId hid,
      rateLimitFor_cmds]
    rcases hi : client.incr (rateLimitKey clientId) s with ⟨r, s1⟩
    cases r with
    | error e => simp
    | ok count =>
      by_cases h1 : count = 1
      · subst h1
        rcases he : client.expire (rateLimitKey clientId) windowSeconds s1 with ⟨r2, s2⟩
        cases r2 <;> simp [he]
      · simp [h1]
  · rw [rateLimitMiddleware_of_id client maxRequests windowSeconds nowMs req res s clientId hid,
      rateLimitFor_cmds]
    rcases hi : client.incr (rateLimitKey clientId) s with ⟨r, s1⟩
    cases r with
    | error e => simp
    | ok count =>
      by_cases h1 : count = 1
      · subst h1
        rcases he : client.expire (rateLimitKey clientId) windowSeconds s1 with ⟨r2, s2⟩
        cases r2 <;> simp [he]
      · simp [h1]
  · intro fails t t1 count hincr hne
    obtain ⟨_, hcmd, _⟩ := Timed.run_ok _ _ t t1 count hincr
    obtain ⟨e, hf, hs1⟩ := Redis.incr_not_first _ _ _ _ hcmd hne
    refine ⟨e, hf, ?_⟩
    rw [rateLimitMiddleware_of_id _ _ _ _ _ _ _ clientId hid,
      rateLimitFor_store _ _ _ _ _ _ t t1 count hincr, if_neg hne, httl, hs1]
    exact Redis.lookup_put _ _ _
  · intro fails t t1 count hincr hw
    obtain ⟨_, hcmd, _⟩ := Timed.run_ok _ _ t t1 count hincr
    obtain ⟨x0, hs1, _⟩ := Redis.incr_ok_store _ _ _ _ hcmd
    have hl1 : t1.store.entries.lookup (rateLimitKey clientId) = some ⟨.int count, x0⟩ := by
      rw [hs1]
      exact Redis.lookup_put _ _ _
    rw [rateLimitMiddleware_of_id _ _ _ _ _ _ _ clientId hid,
      rateLimitFor_store _ _ _ _ _ _ t t1 count hincr]
    by_cases h1 : count = 1
    · rw [if_pos h1]
      rcases he : (timedRedis fails).expire (rateLimitKey clientId) windowSeconds t1 with ⟨r2, t2⟩
      have ht2 : t2 = ((timedRedis fails).expire (rateLimitKey clientId) windowSeconds t1).2 := by
        rw [he]
      have hl2 : ∃ y, t2.store.entries.lookup (rateLimitKey clientId)
          = some ⟨.int count, y⟩ := by
        rw [ht2]
        show ∃ y, (Timed.run (fails (.expire (rateLimitKey clientId) windowSeconds))
          (Redis.expire (rateLimitKey clientId) windowSeconds) t1).2.store.entries.lookup
            (rateLimitKey clientId) = some ⟨.int count, y⟩
        cases fails (.expire (rateLimitKey clientId) windowSeconds) with
        | true => exact ⟨x0, hl1⟩
        | false =>
          exact Redis.expire_value _ _ t1.tick.store _ x0 hw hl1
      obtain ⟨y, hy⟩ := hl2
      cases r2 with
      | error err => exact ⟨y, hy⟩
      | ok b =>
        refine ⟨y, ?_⟩
        show ((timedRedis fails).ttl (rateLimitKey clientId) t2).2.store.entries.lookup _ = _
        rw [httl, hy]
    · rw [if_neg h1, httl]
      exact ⟨x0, hl1⟩
  · intro t hf hw
    rw [rateLimitMiddleware_of_id _ _ _ _ _ _ _ clientId hid]
    exact (rateLimit_timed_first maxRequests windowSeconds nowMs clientId res t hf hw).2.2.2.1
  · intro fails t t1 err hincr
    have ht1 : t1 = t.tick :=
      Timed.run_error _ _ t t1 err (fun s e s1 h => Redis.incr_error_store _ s s1 e h) hincr
    rw [rateLimitMiddleware_of_id _ _ _ _ _ _ _ clientId hid]
    simp only [rateLimitFor, hincr, rateLimitCatch, ht1]
    rfl

/-- C4 amended, at a concrete run: the seventh request of a window finds the
record with 30 s left and leaves it with count 7 and the same expiry, the
time-to-live read reaching the store 7 ms after the increment; and the first
request on an empty store, its set-expiry reaching the store at 8 ms, leaves a
record of count 1 that expires at 60.008 s. -/
theorem rateLimit_expiry_once_witness :
    (∃ e, (Timed.tick ⟨⟨30000, [("rate-limit:key:k", ⟨.int 6, some 60000⟩)]⟩, [5, 7]⟩).store.find?
          (rateLimitKey "key:k") = some e
      ∧ (rateLimitMiddleware (timedRedis (fun _ => false)) 5 60 0 (requestWithKey "k") Res.fresh
          ⟨⟨30000, [("rate-limit:key:k", ⟨.int 6, some 60000⟩)]⟩, [5, 7]⟩).store.store.entries.lookup
            (rateLimitKey "key:k") = some ⟨.int 7, e.expireAt⟩)
    ∧ (rateLimitMiddleware (timedRedis (fun _ => false)) 5 60 0 (requestWithKey "k") Res.fresh
        ⟨Redis.empty, [5, 3, 4]⟩).store.store.entries.lookup (rateLimitKey "key:k")
      = some ⟨.int 1, some 60008⟩ :=
  have h := rateLimit_expiry_once redis 5 60 0 (requestWithKey "k") Res.fresh Redis.empty
    "key:k" rfl
  ⟨h.2.2.1 (fun _ => false) ⟨⟨30000, [("rate-limit:key:k", ⟨.int 6, some 60000⟩)]⟩, [5, 7]⟩
      ⟨⟨30005, [("rate-limit:key:k", ⟨.int 7, some 60000⟩)]⟩, [7]⟩ 7 rfl (by decide),
    (h.2.2.2.2.1 ⟨Redis.empty, [5, 3, 4]⟩ rfl (by decide)).trans rfl⟩

/-- A quota record that is absent or expires within the window is so still
when time has passed. -/
theorem quotaRecordOk_advance (windowSeconds : Int) (key : String) (s : Redis) (d : Nat)
    (h : quotaRecordOk windowSeconds key s = true) :
    quotaRecordOk windowSeconds key (s.advance d) = true := by
  unfold quotaRecordOk Redis.find? at h ⊢
  simp only [Redis.advance]
  cases hl : s.entries.lookup key with
  | none => simp
  | some e =>
    simp only [hl] at h
    obtain ⟨v, x⟩ := e
    cases x with
    | none => simp [Entry.live] at h
    | some T =>
      simp only [Entry.live] at h ⊢
      by_cases h1 : s.now + d < T
      · have h0 : s.now < T := by omega
        simp only [h0, decide_True, if_true, decide_eq_true_eq] at h
        simp only [h1, decide_True, if_true, decide_eq_true_eq]
        omega
      · simp [h1]

/-- After a set-expiry with `windowSeconds` that worked, the quota record is
absent or expires within the window, whatever it was before. -/
theorem quotaRecordOk_expire (windowSeconds : Int) (key : String) (s : Redis) :
    quotaRecordOk windowSeconds key (Redis.expire key windowSeconds s).2 = true := by
  unfold Redis.expire
  split
  · rename_i hf
    show quotaRecordOk windowSeconds key s = true
    unfold quotaRecordOk
    rw [hf]
  · rename_i e hf
    by_cases hw : windowSeconds ≤ 0
    · rw [if_pos hw]
      show quotaRecordOk windowSeconds key (s.erase key) = true
      unfold quotaRecordOk
      rw [Redis.find?_erase]
    · rw [if_neg hw]
      show quotaRecordOk windowSeconds key
        (s.put key ⟨e.value, some (s.now + windowSeconds.toNat * 1000)⟩) = true
      have hl : Entry.live ⟨e.value, some (s.now + windowSeconds.toNat * 1000)⟩ s.now = true := by
        simp only [Entry.live, decide_eq_true_eq]
        omega
      unfold quotaRecordOk
      rw [Redis.find?_put, if_pos hl]
      simp [Redis.put]

/-- An increment that does not return 1 keeps the expiry of the quota
record. -/
theorem quotaRecordOk_incr (windowSeconds : Int) (key : String) (s s1 : Redis) (count : Int)
    (h : quotaRecordOk windowSeconds key s = true)
    (hincr : Redis.incr key s = (.ok count, s1)) (hne : count ≠ 1) :
    quotaRecordOk windowSeconds key s1 = true := by
  obtain ⟨e, hf, hs1⟩ := Redis.incr_not_first _ _ _ _ hincr hne
  have hlive := Redis.incr_ok_store _ _ _ _ hincr
  unfold quotaRecordOk at h
  rw [hf] at h
  obtain ⟨v, x⟩ := e
  cases x with
  | none => simp at h
  | some T =>
    simp only [decide_eq_true_eq] at h
    have hl : Entry.live ⟨.int count, some T⟩ s.now = true := by
      have := Redis.lookup_of_find? s key _ hf
      unfold Redis.find? at hf
      rw [this] at hf
      by_cases hl : Entry.live ⟨v, some T⟩ s.now = true
      · exact hl
      · simp [hl] at hf
    rw [hs1]
    unfold quotaRecordOk
    rw [Redis.find?_put, if_pos hl]
    simpa [Redis.put] using h

/-- The time to live of a quota record that is absent or expires within the
window: between 0 and `windowSeconds`, or -2 for an absent record. -/
theorem Redis.ttl_of_quotaRecordOk (windowSeconds : Int) (key : String) (s : Redis)
    (h : quotaRecordOk windowSeconds key s = true) :
    ∃ ttl : Int, Redis.ttl key s = (.ok ttl, s)
      ∧ ((0 ≤ ttl ∧ ttl ≤ windowSeconds) ∨ (ttl = -2 ∧ s.find? key = none)) := by
  unfold quotaRecordOk at h
  unfold Redis.ttl
  cases hf : s.find? key with
  | none => exact ⟨-2, rfl, Or.inr ⟨rfl, rfl⟩⟩
  | some e =>
    rw [hf] at h
    obtain ⟨v, x⟩ := e
    cases x with
    | none => simp at h
    | some T =>
      simp only [decide_eq_true_eq] at h
      have hl : s.now < T := by
        have hlook := Redis.lookup_of_find? s key _ hf
        unfold Redis.find? at hf
        rw [hlook] at hf
        by_cases hl : s.now < T
        · exact hl
        · simp [Entry.live, hl] at hf
      refine ⟨(((T - s.now + 500) / 1000 : Nat) : Int), rfl, Or.inl ⟨Int.natCast_nonneg _, ?_⟩⟩
      have hw : 0 < windowSeconds.toNat := by
        by_contra hc
        have : windowSeconds.toNat = 0 := by omega
        rw [this] at h
        omega
      have h2 : (T - s.now + 500) / 1000 ≤ windowSeconds.toNat := by omega
      have h3 : ((windowSeconds.toNat : Nat) : Int) = windowSeconds := by
        apply Int.toNat_of_nonneg
        have : (0 : Int) < windowSeconds := by
          by_contra hc
          have : windowSeconds.toNat = 0 := Int.toNat_eq_zero.mpr (by omega)
          omega
        omega
      rw [← h3]
      exact_mod_cast h2

/-- C20, as stated, fails.  On a store whose set-expiry fails, the first
request of a client is admitted by the `catch` block and leaves a record of
count 1 without expiry; an hour later, on the working store, the record is
still there and the next request, over a limit of 1, is rejected with
`Retry-After: -1`.  With `windowSeconds = 0` and a limit of 0, on a working
store, the first request is rejected with `Retry-After: -2`.  And on a working
store, with a window of 60 s, a record that expires 1 ms after the increment
has reached the store is gone when the time-to-live read arrives 1 ms later:
the request is rejected with `Retry-After: -2`. -/
theorem quota_record_without_expiry :
    quotaRecordOk 60 (rateLimitKey "key:k") Redis.empty = true
    ∧ (rateLimitMiddleware (faultyRedis (fun c => c == .expire "rate-limit:key:k" 60)) 1 60 0
        (requestWithKey "k") Res.fresh Redis.empty).nextCalls = 1
    ∧ (rateLimitMiddleware (faultyRedis (fun c => c == .expire "rate-limit:key:k" 60)) 1 60 0
        (requestWithKey "k") Res.fresh Redis.empty).store.find?
          (rateLimitKey "key:k") = some ⟨.int 1, none⟩
    ∧ quotaRecordOk 60 (rateLimitKey "key:k")
        (rateLimitMiddleware (faultyRedis (fun c => c == .expire "rate-limit:key:k" 60)) 1 60 0
          (requestWithKey "k") Res.fresh Redis.empty).store = false
    ∧ (rateLimitMiddleware redis 1 60 3600000 (requestWithKey "k") Res.fresh
        ((rateLimitMiddleware (faultyRedis (fun c => c == .expire "rate-limit:key:k" 60)) 1 60 0
          (requestWithKey "k") Res.fresh Redis.empty).store.advance 3600000)).decision
      = .rejected
    ∧ (rateLimitMiddleware redis 1 60 3600000 (requestWithKey "k") Res.fresh
        ((rateLimitMiddleware (faultyRedis (fun c => c == .expire "rate-limit:key:k" 60)) 1 60 0
          (requestWithKey "k") Res.fresh Redis.empty).store.advance 3600000)).res.getHeader
          "Retry-After" = some (.num (-1))
    ∧ (rateLimitMiddleware redis 0 0 0 (requestWithKey "k") Res.fresh Redis.empty).decision
      = .rejected
    ∧ (rateLimitMiddleware redis 0 0 0 (requestWithKey "k") Res.fresh Redis.empty).res.getHeader
          "Retry-After" = some (.num (-2))
    ∧ quotaRecordOk 60 (rateLimitKey "key:k")
        ⟨999, [("rate-limit:key:k", ⟨.int 5, some 1000⟩)]⟩ = true
    ∧ (rateLimitMiddleware (timedRedis (fun _ => false)) 1 60 999 (requestWithKey "k") Res.fresh
        ⟨⟨999, [("rate-limit:key:k", ⟨.int 5, some 1000⟩)]⟩, [0, 1]⟩).decision = .rejected
    ∧ (rateLimitMiddleware (timedRedis (fun _ => false)) 1 60 999 (requestWithKey "k") Res.fresh
        ⟨⟨999, [("rate-limit:key:k", ⟨.int 5, some 1000⟩)]⟩, [0, 1]⟩).res.getHeader
          "Retry-After" = some (.num (-2)) := by
  decide

/-- C20, amended.  Take a store that every command reaches after some wait,
on which the set-expiry of the quota record works (other commands may fail,
and leave the store as it was), and on which the quota record of the client is
absent or has an expiry at most `windowSeconds` away.  After a run of the
rate-limit middleware for that client the record is again absent or has an
expiry at most `windowSeconds` away; and a rejection carries, in the header
`Retry-After` and as `retryAfter` in the body, a number between 0 and
`windowSeconds`, or -2 when the record was gone as the time-to-live read
reached the store. -/
theorem quota_record_expires (fails : RedisCmd → Bool) (maxRequests windowSeconds : Int)
    (nowMs : Nat) (req : Request) (res : Res) (t : Timed) (clientId : String)
    (hid : getClientIdentifier req = .ok clientId)
    (hexp : fails (.expire (rateLimitKey clientId) windowSeconds) = false)
    (hinv : quotaRecordOk windowSeconds (rateLimitKey clientId) t.store = true) :
    quotaRecordOk windowSeconds (rateLimitKey clientId)
        (rateLimitMiddleware (timedRedis fails) maxRequests windowSeconds nowMs req res
          t).store.store = true
    ∧ ((rateLimitMiddleware (timedRedis fails) maxRequests windowSeconds nowMs req res
          t).decision = .rejected →
        ∃ ttl : Int, ((0 ≤ ttl ∧ ttl ≤ windowSeconds)
            ∨ (ttl = -2
              ∧ (rateLimitMiddleware (timedRedis fails) maxRequests windowSeconds nowMs req res
                  t).store.store.find? (rateLimitKey clientId) = none))
          ∧ (rateLimitMiddleware (timedRedis fails) maxRequests windowSeconds nowMs req res
              t).res.getHeader "Retry-After" = some (.num ttl)
          ∧ (rateLimitMiddleware (timedRedis fails) maxRequests windowSeconds nowMs req res
              t).res.sent
            = some (.obj [("success", .bool false),
                ("error", .obj [("message", .str (codeUnits "Too Many Requests")),
                                ("statusCode", .num 429),
                                ("retryAfter", .num ttl)])])) := by
  have hpass : ∀ out : Outcome Timed, out.nextCalls = 1 → out.decision ≠ .rejected := by
    intro out h hd
    unfold Outcome.decision at hd
    rw [h] at hd
    exact absurd hd (by decide)
  rw [rateLimitMiddleware_of_id _ _ _ _ _ _ _ clientId hid]
  have hinv0 : quotaRecordOk windowSeconds (rateLimitKey clientId) t.tick.store = true :=
    quotaRecordOk_advance _ _ _ _ hinv
  rcases hi : (timedRedis fails).incr (rateLimitKey clientId) t with ⟨r, t1⟩
  cases r with
  | error err =>
    have ht1 : t1 = t.tick :=
      Timed.run_error _ _ t t1 err (fun s e s1 h => Redis.incr_error_store _ s s1 e h) hi
    have hrun : rateLimitFor (timedRedis fails) maxRequests windowSeconds nowMs clientId res t
        = rateLimitCatch t1 [.incr (rateLimitKey clientId)] res err := by
      simp only [rateLimitFor, hi]
    rw [hrun, ht1]
    exact ⟨hinv0, fun hd => absurd hd (hpass _ rfl)⟩
  | ok count =>
    obtain ⟨_, hcmd, _⟩ := Timed.run_ok _ _ t t1 count hi
    -- the store after the set-expiry, if one is issued
    have hstep : ∃ t2 : Timed,
        (if count = 1
          then ∃ b, (timedRedis fails).expire (rateLimitKey clientId) windowSeconds t1
            = (.ok b, t2)
          else t2 = t1)
        ∧ quotaRecordOk windowSeconds (rateLimitKey clientId) t2.store = true := by
      by_cases h1 : count = 1
      · obtain ⟨b, hb⟩ := Redis.expire_ok (rateLimitKey clientId) windowSeconds t1.tick.store
        refine ⟨⟨(Redis.expire (rateLimitKey clientId) windowSeconds t1.tick.store).2,
          t1.tick.waits⟩, ?_, quotaRecordOk_expire _ _ _⟩
        rw [if_pos h1]
        refine ⟨b, ?_⟩
        show Timed.run (fails (.expire (rateLimitKey clientId) windowSeconds))
          (Redis.expire (rateLimitKey clientId) windowSeconds) t1 = _
        rw [hexp]
        show ((Redis.expire (rateLimitKey clientId) windowSeconds t1.tick.store).1, _) = _
        rw [hb]
      · exact ⟨t1, by rw [if_neg h1], quotaRecordOk_incr _ _ _ _ _ hinv0 hcmd h1⟩
    obtain ⟨t2, hexp2, hinv2⟩ := hstep
    have hinv3 : quotaRecordOk windowSeconds (rateLimitKey clientId) t2.tick.store = true :=
      quotaRecordOk_advance _ _ _ _ hinv2
    cases hft : fails (.ttl (rateLimitKey clientId)) with
    | true =>
      have httl : (timedRedis fails).ttl (rateLimitKey clientId) t2
          = (.error "store unavailable", t2.tick) := by
        show Timed.run (fails (.ttl (rateLimitKey clientId))) _ t2 = _
        rw [hft]
        rfl
      have hrun : (rateLimitFor (timedRedis fails) maxRequests windowSeconds nowMs clientId res
          t).store = t2.tick
          ∧ (rateLimitFor (timedRedis fails) maxRequests windowSeconds nowMs clientId res
          t).nextCalls = 1 := by
        by_cases h1 : count = 1
        · subst h1
          rw [if_pos rfl] at hexp2
          obtain ⟨b, he⟩ := hexp2
          simp [rateLimitFor, hi, he, httl, rateLimitCatch]
        · rw [if_neg h1] at hexp2
          subst hexp2
          simp [rateLimitFor, hi, h1, httl, rateLimitCatch]
      rw [hrun.1]
      exact ⟨hinv3, fun hd => absurd hd (hpass _ hrun.2)⟩
    | false =>
      obtain ⟨ttl, ht, hrange⟩ := Redis.ttl_of_quotaRecordOk windowSeconds (rateLimitKey clientId)
        t2.tick.store hinv3
      have httl : (timedRedis fails).ttl (rateLimitKey clientId) t2 = (.ok ttl, t2.tick) := by
        show Timed.run (fails (.ttl (rateLimitKey clientId))) _ t2 = _
        rw [hft]
        show ((Redis.ttl (rateLimitKey clientId) t2.tick.store).1,
          (⟨(Redis.ttl (rateLimitKey clientId) t2.tick.store).2, t2.tick.waits⟩ : Timed)) = _
        rw [ht]
      rw [rateLimitFor_ok (timedRedis fails) maxRequests windowSeconds nowMs clientId res
        t t1 t2 t2.tick count ttl hi hexp2 httl]
      by_cases hgt : count > maxRequests
      · rw [if_pos hgt]
        exact ⟨hinv3, fun _ => ⟨ttl, hrange, Res.getHeader_setHeader _ _ _, rfl⟩⟩
      · rw [if_neg hgt]
        exact ⟨hinv3, fun hd => absurd hd (hpass _ rfl)⟩

/-- C20 amended, at a concrete run: limit 1, window 60 s, the second request
of a window that has 30 s left, the commands reaching the store 4 ms and 6 ms
apart; the request is rejected with `Retry-After: 30`. -/
theorem quota_record_expires_witness :
    quotaRecordOk 60 (rateLimitKey "key:k")
        (rateLimitMiddleware (timedRedis (fun _ => false)) 1 60 0 (requestWithKey "k") Res.fresh
          ⟨⟨30000, [("rate-limit:key:k", ⟨.int 1, some 60000⟩)]⟩, [4, 6]⟩).store.store = true
    ∧ (rateLimitMiddleware (timedRedis (fun _ => false)) 1 60 0 (requestWithKey "k") Res.fresh
        ⟨⟨30000, [("rate-limit:key:k", ⟨.int 1, some 60000⟩)]⟩, [4, 6]⟩).res.getHeader
        "Retry-After" = some (.num 30)
    ∧ ∃ ttl : Int, ((0 ≤ ttl ∧ ttl ≤ 60)
          ∨ (ttl = -2
            ∧ (rateLimitMiddleware (timedRedis (fun _ => false)) 1 60 0 (requestWithKey "k")
                Res.fresh
                ⟨⟨30000, [("rate-limit:key:k", ⟨.int 1, some 60000⟩)]⟩, [4, 6]⟩).store.store.find?
                (rateLimitKey "key:k") = none))
      ∧ (rateLimitMiddleware (timedRedis (fun _ => false)) 1 60 0 (requestWithKey "k") Res.fresh
          ⟨⟨30000, [("rate-limit:key:k", ⟨.int 1, some 60000⟩)]⟩, [4, 6]⟩).res.getHeader
          "Retry-After" = some (.num ttl)
      ∧ (rateLimitMiddleware (timedRedis (fun _ => false)) 1 60 0 (requestWithKey "k") Res.fresh
          ⟨⟨30000, [("rate-limit:key:k", ⟨.int 1, some 60000⟩)]⟩, [4, 6]⟩).res.sent
        = some (.obj [("success", .bool false),
            ("error", .obj [("message", .str (codeUnits "Too Many Requests")),
                            ("statusCode", .num 429),
                            ("retryAfter", .num ttl)])]) :=
  have h := quota_record_expires (fun _ => false) 1 60 0 (requestWithKey "k") Res.fresh
    ⟨⟨30000, [("rate-limit:key:k", ⟨.int 1, some 60000⟩)]⟩, [4, 6]⟩ "key:k" rfl rfl (by decide)
  ⟨h.1, by decide, h.2 (by decide)⟩

/-- The keys `KEYS` returns are the live keys that match, each once. -/
theorem Redis.mem_matchingKeys (s : Redis) (pattern k : String) :
    k ∈ s.matchingKeys pattern
      ↔ ((s.find? k).isSome = true ∧ globMatch pattern k = true) := by
  unfold Redis.matchingKeys
  rw [List.mem_filter, Redis.mem_liveKeys]

/-- No key is listed twice. -/
theorem Redis.matchingKeys_nodup (s : Redis) (pattern : String) :
    (s.matchingKeys pattern).Nodup := by
  unfold Redis.matchingKeys Redis.liveKeys
  exact ((List.nodup_dedup _).filter _).filter _

/-- One step of the matcher on a pattern and a key that both have a byte
left. -/
theorem stringmatchlen_step (fuel p c : Nat) (ps cs : List Nat) :
    stringmatchlen (fuel + 1) (p :: ps) (c :: cs) =
      if p = 42 then
        if (ps.dropWhile (fun b => b == 42)).isEmpty then true
        else (c :: cs).tails.any
          (fun t => !t.isEmpty && stringmatchlen fuel (ps.dropWhile (fun b => b == 42)) t)
      else if p = 63 then
        if cs.isEmpty then (ps.dropWhile (fun b => b == 42)).isEmpty
        else stringmatchlen fuel ps cs
      else if p = 91 then
        if (classMatch c (if (ps.head? == some 94) then ps.tail else ps) false).1
            != (ps.head? == some 94) then
          if cs.isEmpty then
            ((classMatch c (if (ps.head? == some 94) then ps.tail else ps) false).2.dropWhile
              (fun b => b == 42)).isEmpty
          else stringmatchlen fuel
            (classMatch c (if (ps.head? == some 94) then ps.tail else ps) false).2 cs
        else false
      else if p = 92 then
        match ps with
        | [] => p == c && cs.isEmpty
        | q :: qs =>
          if q = c then
            if cs.isEmpty then (qs.dropWhile (fun b => b == 42)).isEmpty
            else stringmatchlen fuel qs cs
          else false
      else if p = c then
        if cs.isEmpty then (ps.dropWhile (fun b => b == 42)).isEmpty
        else stringmatchlen fuel ps cs
      else false := rfl

/-- A pattern made of ordinary bytes followed by `*` matches the keys that are
not empty and begin with these bytes. -/
theorem stringmatchlen_literal_star (lit : List Nat)
    (hlit : ∀ b ∈ lit, b ≠ 42 ∧ b ≠ 63 ∧ b ≠ 91 ∧ b ≠ 92) :
    ∀ (fuel c : Nat) (cs : List Nat), lit.length < fuel →
      stringmatchlen fuel (lit ++ [42]) (c :: cs) = lit.isPrefixOf (c :: cs) := by
  induction lit with
  | nil =>
    intro fuel c cs hfuel
    obtain ⟨f, rfl⟩ : ∃ f, fuel = f + 1 := ⟨fuel - 1, by simp at hfuel; omega⟩
    show stringmatchlen (f + 1) (42 :: []) (c :: cs) = _
    rw [stringmatchlen_step]
    simp [List.isPrefixOf]
  | cons a lit ih =>
    intro fuel c cs hfuel
    obtain ⟨f, rfl⟩ : ∃ f, fuel = f + 1 := ⟨fuel - 1, by simp at hfuel; omega⟩
    obtain ⟨h1, h2, h3, h4⟩ := hlit a (List.mem_cons_self _ _)
    have ih2 := ih (fun b hb => hlit b (List.mem_cons_of_mem _ hb))
    show stringmatchlen (f + 1) (a :: (lit ++ [42])) (c :: cs) = _
    rw [stringmatchlen_step, if_neg h1, if_neg h2, if_neg h3, if_neg h4]
    by_cases hac : a = c
    · subst hac
      rw [if_pos rfl]
      cases cs with
      | nil =>
        cases lit with
        | nil => simp [List.isPrefixOf]
        | cons b l =>
          have hb := (hlit b (List.mem_cons_of_mem _ (List.mem_cons_self _ _))).1
          have hbb : (b == 42) = false := by simpa using hb
          simp [List.isPrefixOf, List.dropWhile, hbb]
      | cons c2 cs2 =>
        have := ih2 f c2 cs2 (by simp at hfuel; omega)
        simp only [List.isEmpty_cons, Bool.false_eq_true, if_false, this]
        simp [List.isPrefixOf]
    · rw [if_neg hac]
      simp [List.isPrefixOf, hac]

/-- The first byte of a character outside ASCII is not an ASCII byte. -/
theorem utf8_non_ascii (d : Char) (hd : ¬ d.toNat < 0x80) :
    ∃ x xs, utf8 d = x :: xs ∧ 0x80 ≤ x := by
  unfold utf8
  rw [if_neg hd]
  split
  · exact ⟨_, _, rfl, by omega⟩
  · split
    · exact ⟨_, _, rfl, by omega⟩
    · exact ⟨_, _, rfl, by omega⟩

/-- Bytes and characters agree on whether a key begins with an ASCII text. -/
theorem utf8_isPrefixOf (lit : List Char) (hlit : ∀ c ∈ lit, c.toNat < 0x80) :
    ∀ s : List Char, (lit.flatMap utf8).isPrefixOf (s.flatMap utf8) = lit.isPrefixOf s := by
  induction lit with
  | nil => intro s; simp [List.isPrefixOf]
  | cons a lit ih =>
    intro s
    have ha := hlit a (List.mem_cons_self _ _)
    have ih2 := ih (fun c hc => hlit c (List.mem_cons_of_mem _ hc))
    have hua : utf8 a = [a.toNat] := by simp [utf8, ha]
    cases s with
    | nil => simp [List.isPrefixOf, hua]
    | cons d t =>
      by_cases hd : d.toNat < 0x80
      · have hud : utf8 d = [d.toNat] := by simp [utf8, hd]
        simp only [List.flatMap_cons, hua, hud, List.singleton_append, List.isPrefixOf, ih2 t]
        congr 1
        by_cases had : a = d
        · subst had; simp
        · have : a.toNat ≠ d.toNat := fun h => had (Char.ext (UInt32.ext h))
          simp [had, this]
      · obtain ⟨x, xs, hx, hge⟩ := utf8_non_ascii d hd
        have had : a ≠ d := by
          intro h
          subst h
          exact hd ha
        have hne : (a.toNat == x) = false := by
          have : a.toNat ≠ x := by omega
          simpa using this
        have hne2 : (a == d) = false := by simpa using had
        simp only [List.flatMap_cons, hua, hx, List.singleton_append, List.cons_append,
          List.isPrefixOf, hne, hne2, Bool.false_and]

/-- The pattern `metrics:*` matches the keys that begin with `metrics:`. -/
theorem globMatch_metrics (k : String) :
    globMatch "metrics:*" k = "metrics:".data.isPrefixOf k.data := by
  have hp : utf8Bytes "metrics:*" = utf8Bytes "metrics:" ++ [42] := by decide
  have hnot : (utf8Bytes "metrics:*" == [42]) = false := by decide
  have hlen : (utf8Bytes "metrics:*").length + 1 = 10 := by decide
  unfold globMatch
  rw [hnot, hlen, hp, Bool.false_or]
  have hbytes : (utf8Bytes "metrics:").isPrefixOf (utf8Bytes k)
      = "metrics:".data.isPrefixOf k.data :=
    utf8_isPrefixOf "metrics:".data (by decide) k.data
  cases hk : utf8Bytes k with
  | nil =>
    rw [← hbytes, hk]
    rfl
  | cons c cs =>
    rw [stringmatchlen_literal_star (utf8Bytes "metrics:") (by decide) 10 c cs (by decide),
      ← hk, hbytes]

/-- After a run of erasures the record stored under a key that was not erased
is as before. -/
theorem Redis.lookup_foldl_erase (keys : List String) :
    ∀ (s : Redis) (k : String), k ∉ keys →
      (keys.foldl (fun acc key => acc.erase key) s).entries.lookup k = s.entries.lookup k := by
  induction keys with
  | nil => intro s k _; rfl
  | cons key rest ih =>
    intro s k hk
    rw [List.foldl_cons, ih _ _ (fun h => hk (List.mem_cons_of_mem _ h))]
    exact Redis.lookup_erase_ne s key k (fun h => hk (h ▸ List.mem_cons_self _ _))

/-- `invalidatePattern` on a working store that every command reaches after
the wait that is due, written out: the keys are listed when `KEYS` reaches the
store and erased when `DEL` does. -/
theorem invalidatePattern_timed (pattern : String) (t : Timed) :
    invalidatePattern (timedRedis (fun _ => false)) pattern t =
      if (t.tick.store.matchingKeys pattern).length > 0 then
        { result := (t.tick.store.matchingKeys pattern).length,
          store := ⟨(t.tick.store.matchingKeys pattern).foldl (fun acc key => acc.erase key)
            t.tick.tick.store, t.tick.tick.waits⟩,
          cmds := [.keys pattern, .del (t.tick.store.matchingKeys pattern)], errors := [] }
      else
        { result := (t.tick.store.matchingKeys pattern).length, store := t.tick,
          cmds := [.keys pattern], errors := [] } := by
  have hkeys : (timedRedis (fun _ => false)).keys pattern t
      = (.ok (t.tick.store.matchingKeys pattern), t.tick) := rfl
  simp only [invalidatePattern, hkeys]
  split <;> rfl

/-- The handler of the invalidation endpoint on such a store, in terms of
`invalidatePattern`. -/
theorem invalidateHandler_timed (res : Res) (t : Timed) :
    invalidateHandler (timedRedis (fun _ => false)) res t =
      { store := (invalidatePattern (timedRedis (fun _ => false)) "metrics:*" t).store,
        cmds := (invalidatePattern (timedRedis (fun _ => false)) "metrics:*" t).cmds,
        res := (res.status 200).json
          (invalidatedBody (invalidatePattern (timedRedis (fun _ => false)) "metrics:*" t).result),
        nextError := none } := by
  have hkeys : (timedRedis (fun _ => false)).keys "metrics:*" t
      = (.ok (t.tick.store.matchingKeys "metrics:*"), t.tick) := rfl
  rw [invalidatePattern_timed]
  simp only [invalidateHandler, hkeys]
  split <;> rfl

/-- C16, as stated, fails: `invalidatePattern` returns the number of keys that
`KEYS` listed, not the number `DEL` removed.  A key under `metrics:` that
expires between the two commands (here 1 s after the listing, the delete
arriving 2 s after it) is listed and counted, while the delete finds it gone
and removes no key: the result is 1, and the handler reports
`keysDeleted: 1`. -/
theorem invalidate_counts_listed_keys :
    (invalidatePattern (timedRedis (fun _ => false)) "metrics:*"
        ⟨⟨0, [("metrics:daily:default", ⟨.str "data1", some 1000⟩),
              ("other:key", ⟨.str "data3", none⟩)]⟩, [0, 2000]⟩).cmds
      = [.keys "metrics:*", .del ["metrics:daily:default"]]
    ∧ (Redis.del ["metrics:daily:default"]
        (Timed.tick (Timed.tick
          ⟨⟨0, [("metrics:daily:default", ⟨.str "data1", some 1000⟩),
                ("other:key", ⟨.str "data3", none⟩)]⟩, [0, 2000]⟩)).store).1 = .ok 0
    ∧ (invalidatePattern (timedRedis (fun _ => false)) "metrics:*"
        ⟨⟨0, [("metrics:daily:default", ⟨.str "data1", some 1000⟩),
              ("other:key", ⟨.str "data3", none⟩)]⟩, [0, 2000]⟩).result = 1
    ∧ (invalidateHandler (timedRedis (fun _ => false)) Res.fresh
        ⟨⟨0, [("metrics:daily:default", ⟨.str "data1", some 1000⟩),
              ("other:key", ⟨.str "data3", none⟩)]⟩, [0, 2000]⟩).res.sent
      = some (.obj [("success", .bool true),
          ("message", .str (codeUnits "Cache invalidated successfully")),
          ("keysDeleted", .num 1)]) :=
  ⟨rfl, rfl, rfl, rfl⟩

/-- C16, amended.  On a working store that every command reaches after some
wait, for every store content and every pattern: `invalidatePattern` lists the
keys that have a record and match the pattern when `KEYS` reaches the store
(each once), and returns their number; after it none of the listed keys has a
record, and under every other key the store holds what it held; if no key is
listed, the only command is the `keys` and the result is 0; otherwise the
commands are the `keys` and one `del` of the listed keys, which removes the
listed keys that still have a record, so that the result is the number of keys
removed whenever every listed key still has its record when `DEL` reaches the
store.  The pattern `metrics:*` matches the keys that begin with `metrics:`.
The handler of `POST /api/v1/cache/invalidate` leaves the store as
`invalidatePattern` with `metrics:*` does and answers 200 with `success: true`
and the number of listed keys as `keysDeleted`. -/
theorem invalidate_scope_and_count (t : Timed) (pattern : String) (res : Res) :
    (invalidatePattern (timedRedis (fun _ => false)) pattern t).result
        = (t.tick.store.matchingKeys pattern).length
    ∧ (t.tick.store.matchingKeys pattern).Nodup
    ∧ (∀ k : String, k ∈ t.tick.store.matchingKeys pattern
        ↔ ((t.tick.store.find? k).isSome = true ∧ globMatch pattern k = true))
    ∧ (∀ k ∈ t.tick.store.matchingKeys pattern,
        (invalidatePattern (timedRedis (fun _ => false)) pattern t).store.store.find? k = none)
    ∧ (∀ k : String, k ∉ t.tick.store.matchingKeys pattern →
        (invalidatePattern (timedRedis (fun _ => false)) pattern t).store.store.entries.lookup k
          = t.store.entries.lookup k)
    ∧ (t.tick.store.matchingKeys pattern = [] →
        (invalidatePattern (timedRedis (fun _ => false)) pattern t).cmds = [.keys pattern]
        ∧ (invalidatePattern (timedRedis (fun _ => false)) pattern t).result = 0
        ∧ (invalidatePattern (timedRedis (fun _ => false)) pattern t).store.store.entries
          = t.store.entries)
    ∧ (t.tick.store.matchingKeys pattern ≠ [] →
        (invalidatePattern (timedRedis (fun _ => false)) pattern t).cmds
          = [.keys pattern, .del (t.tick.store.matchingKeys pattern)]
        ∧ (Redis.del (t.tick.store.matchingKeys pattern) t.tick.tick.store).1
          = .ok ((t.tick.store.matchingKeys pattern).filter
              (fun k => (t.tick.tick.store.find? k).isSome)).length
        ∧ ((∀ k ∈ t.tick.store.matchingKeys pattern, (t.tick.tick.store.find? k).isSome = true) →
            (Redis.del (t.tick.store.matchingKeys pattern) t.tick.tick.store).1
              = .ok (invalidatePattern (timedRedis (fun _ => false)) pattern t).result))
    ∧ (∀ k : String, globMatch "metrics:*" k = "metrics:".data.isPrefixOf k.data)
    ∧ (invalidateHandler (timedRedis (fun _ => false)) res t).store
        = (invalidatePattern (timedRedis (fun _ => false)) "metrics:*" t).store
    ∧ (invalidateHandler (timedRedis (fun _ => false)) res t).res.statusCode = 200
    ∧ (invalidateHandler (timedRedis (fun _ => false)) res t).res.sent
        = some (.obj [("success", .bool true),
            ("message", .str (codeUnits "Cache invalidated successfully")),
            ("keysDeleted", .num ((t.tick.store.matchingKeys "metrics:*").length : Nat))])
    ∧ (invalidateHandler (timedRedis (fun _ => false)) res t).nextError = none := by
  have hnodup := Redis.matchingKeys_nodup t.tick.store pattern
  have hres : ∀ p : String, (invalidatePattern (timedRedis (fun _ => false)) p t).result
      = (t.tick.store.matchingKeys p).length := by
    intro p
    rw [invalidatePattern_timed]
    split <;> rfl
  have hdel : (Redis.del (t.tick.store.matchingKeys pattern) t.tick.tick.store).1
      = .ok ((t.tick.store.matchingKeys pattern).filter
          (fun k => (t.tick.tick.store.find? k).isSome)).length := by
    unfold Redis.del
    rw [List.Nodup.dedup hnodup]
  refine ⟨hres pattern, hnodup, Redis.mem_matchingKeys t.tick.store pattern, ?_, ?_, ?_, ?_,
    globMatch_metrics, ?_, ?_, ?_, ?_⟩
  · intro k hk
    rw [invalidatePattern_timed, if_pos (List.length_pos.mpr (List.ne_nil_of_mem hk))]
    show ((t.tick.store.matchingKeys pattern).foldl (fun acc key => acc.erase key)
      t.tick.tick.store).find? k = none
    rw [Redis.find?_foldl_erase, if_pos hk]
  · intro k hk
    rw [invalidatePattern_timed]
    by_cases hlen : (t.tick.store.matchingKeys pattern).length > 0
    · rw [if_pos hlen]
      show ((t.tick.store.matchingKeys pattern).foldl (fun acc key => acc.erase key)
        t.tick.tick.store).entries.lookup k = _
      rw [Redis.lookup_foldl_erase _ _ _ hk]
      rfl
    · rw [if_neg hlen]
      rfl
  · intro hnil
    rw [invalidatePattern_timed, hnil]
    exact ⟨rfl, rfl, rfl⟩
  · intro hne
    refine ⟨?_, hdel, ?_⟩
    · rw [invalidatePattern_timed, if_pos (List.length_pos.mpr hne)]
    · intro hall
      rw [hdel, hres pattern, List.filter_eq_self.mpr hall]
  · rw [invalidateHandler_timed]
  · rw [invalidateHandler_timed]
    rfl
  · rw [invalidateHandler_timed, hres "metrics:*"]
    rfl
  · rw [invalidateHandler_timed]

/-- C16 amended, at the store of the unit test: two keys under `metrics:` and
`other:key`, the commands reaching the store 3 ms and 4 ms apart; two keys are
listed and removed, the result is 2 and `other:key` keeps its value. -/
theorem invalidate_scope_and_count_witness :
    (invalidatePattern (timedRedis (fun _ => false)) "metrics:*"
        ⟨⟨0, [("metrics:daily:default", ⟨.str "data1", none⟩),
              ("metrics:hourly:default", ⟨.str "data2", none⟩),
              ("other:key", ⟨.str "data3", none⟩)]⟩, [3, 4]⟩).result = 2
    ∧ (invalidatePattern (timedRedis (fun _ => false)) "metrics:*"
        ⟨⟨0, [("metrics:daily:default", ⟨.str "data1", none⟩),
              ("metrics:hourly:default", ⟨.str "data2", none⟩),
              ("other:key", ⟨.str "data3", none⟩)]⟩, [3, 4]⟩).store.store.find?
        "metrics:daily:default" = none
    ∧ (invalidatePattern (timedRedis (fun _ => false)) "metrics:*"
        ⟨⟨0, [("metrics:daily:default", ⟨.str "data1", none⟩),
              ("metrics:hourly:default", ⟨.str "data2", none⟩),
              ("other:key", ⟨.str "data3", none⟩)]⟩, [3, 4]⟩).store.store.entries.lookup
        "other:key" = some ⟨.str "data3", none⟩
    ∧ (Redis.del ["metrics:daily:default", "metrics:hourly:default"]
        (Timed.tick (Timed.tick
          ⟨⟨0, [("metrics:daily:default", ⟨.str "data1", none⟩),
                ("metrics:hourly:default", ⟨.str "data2", none⟩),
                ("other:key", ⟨.str "data3", none⟩)]⟩, [3, 4]⟩)).store).1 = .ok 2 :=
  have h := invalidate_scope_and_count
    ⟨⟨0, [("metrics:daily:default", ⟨.str "data1", none⟩),
          ("metrics:hourly:default", ⟨.str "data2", none⟩),
          ("other:key", ⟨.str "data3", none⟩)]⟩, [3, 4]⟩ "metrics:*" Res.fresh
  ⟨h.1.trans (by decide), h.2.2.2.1 "metrics:daily:default" (by decide),
   (h.2.2.2.2.1 "other:key" (by decide)).trans rfl,
   ((h.2.2.2.2.2.2.1 (by decide)).2.2 (by decide)).trans
     (congrArg Except.ok (h.1.trans (by decide)))⟩

/-- One step of the class loop. -/
theorem classMatch_cons (c a : Nat) (tail : List Nat) (found : Bool) :
    classMatch c (a :: tail) found =
      if a = 92 then
        match tail with
        | [] => (found || a == c, [])
        | b :: rest => classMatch c rest (found || b == c)
      else if a = 93 then (found, tail)
      else
        match tail with
        | b :: e :: rest =>
          if b = 45 then
            classMatch c rest
              (found || (decide (min (signedByte a) (signedByte e) ≤ signedByte c)
                && decide (signedByte c ≤ max (signedByte a) (signedByte e))))
          else classMatch c tail (found || a == c)
        | _ => classMatch c tail (found || a == c) := by
  cases tail with
  | nil => rfl
  | cons b rest => cases rest <;> rfl

/-- The pattern left after a bracket class is not longer than the pattern the
class began with. -/
theorem classMatch_length (c : Nat) :
    ∀ (n : Nat) (pattern : List Nat) (found : Bool), pattern.length ≤ n →
      (classMatch c pattern found).2.length ≤ pattern.length := by
  intro n
  induction n with
  | zero =>
    intro pattern found h
    have : pattern = [] := List.length_eq_zero.mp (by omega)
    subst this
    exact Nat.le_of_eq rfl
  | succ n ih =>
    intro pattern found h
    cases pattern with
    | nil => exact Nat.le_of_eq rfl
    | cons a tail =>
      simp only [List.length_cons] at h ⊢
      rw [classMatch_cons]
      split
      · cases tail with
        | nil => simp
        | cons b rest =>
          simp only [List.length_cons] at h ⊢
          have := ih rest (found || b == c) (by omega)
          omega
      · split
        · simp
        · have hitem := ih tail (found || a == c) (by omega)
          split
          · rename_i b e rest
            simp only [List.length_cons] at h hitem ⊢
            split
            · have := ih rest
                (found || (decide (min (signedByte a) (signedByte e) ≤ signedByte c)
                  && decide (signedByte c ≤ max (signedByte a) (signedByte e)))) (by omega)
              omega
            · omega
          · omega

/-- The matcher does not depend on the fuel once the fuel exceeds the length
of the pattern: with `pattern.length + 1` steps it runs to its end. -/
theorem stringmatchlen_fuel :
    ∀ (fuel other : Nat) (pattern string : List Nat),
      pattern.length < fuel → pattern.length < other →
      stringmatchlen fuel pattern string = stringmatchlen other pattern string := by
  intro fuel
  induction fuel with
  | zero => intro other pattern string h; omega
  | succ n ih =>
    intro other pattern string h1 h2
    cases other with
    | zero => omega
    | succ m =>
      cases pattern with
      | nil => cases string <;> rfl
      | cons p ps =>
        cases string with
        | nil => rfl
        | cons c cs =>
          simp only [List.length_cons] at h1 h2
          have hrec : ∀ (q s : List Nat), q.length ≤ ps.length →
              stringmatchlen n q s = stringmatchlen m q s :=
            fun q s hq => ih m q s (by omega) (by omega)
          have hdrop : ∀ l : List Nat, (l.dropWhile (fun b => b == 42)).length ≤ l.length :=
            fun l => (List.dropWhile_sublist _).length_le
          have e1 := hrec ps cs (le_refl _)
          have e2 : (fun t : List Nat =>
              !t.isEmpty && stringmatchlen n (ps.dropWhile (fun b => b == 42)) t)
              = (fun t : List Nat =>
              !t.isEmpty && stringmatchlen m (ps.dropWhile (fun b => b == 42)) t) := by
            funext t
            rw [hrec _ t (hdrop ps)]
          have e3 := hrec (classMatch c (if (ps.head? == some 94) then ps.tail else ps) false).2 cs
            (by
              have hlen := classMatch_length c _
                (if (ps.head? == some 94) then ps.tail else ps) false (le_refl _)
              have htail : (if (ps.head? == some 94) = true then ps.tail else ps).length
                  ≤ ps.length := by
                split
                · simp
                · exact le_refl _
              omega)
          rw [stringmatchlen_step, stringmatchlen_step, e1, e2, e3]
          cases ps with
          | nil => rfl
          | cons q qs =>
            have e4 := hrec qs cs (by simp)
            simp only [e4]

end AnalyticsApi
